import Mathlib

/-!
Verification of the evaluation orchestration engine of `deepeval/evaluate.py`
(evaluation batches, caching, sync/async execution, assertion and aggregation).

The Python source is shallowly embedded: mutable state (the run-record sink, the
two cache tiers, the per-batch identity lookup map, the wall clock) is threaded
through an explicit `EngineState`; metrics are records whose in-place mutated
fields (`score`, `reason`, `success`, `error`, ...) are updated functionally;
an opaque `measure` collaborator is a function of the test case returning either
a result bundle or a raised message, together with the wall-clock time it
consumes.  Exceptions are `Except`.  Collaborators of this repository that are
not part of the source file (the cache manager, `Cache.get_metric_data`,
`measure_metrics_with_indicator`, the api-test-case update helpers) are modelled
from the spec and marked as such in their doc comments.
-/

namespace DeepevalSpec

/-- Result of one opaque `metric.measure(test_case)` invocation: either the
post-call readable fields (score, reason, success, evaluation cost, verbose
logs), or a raised exception message.  `elapsed` is the wall-clock time the
invocation consumes (read through `time.perf_counter` differences). -/
inductive MeasureOut where
  | ok (score : Option ℚ) (reason : Option String) (success : Bool)
      (cost : Option ℚ) (vlogs : Option String) (elapsed : ℚ)
  | raise (msg : String) (elapsed : ℚ)

/-- Wall-clock time consumed by a `measure` invocation. -/
def MeasureOut.timeTaken : MeasureOut → ℚ
  | .ok _ _ _ _ _ e => e
  | .raise _ e => e

/-- A metric object (`BaseMetric` / `BaseConversationalMetric`), polymorphic in
the kind of test case it measures.  The configuration fields (`name`,
`threshold`, `strictMode`, `evaluationModel`) are never mutated by the engine;
the outcome fields (`score`, `reason`, `success`, `error`, `evaluationCost`,
`verboseLogs`) are overwritten in place per invocation and are threaded
functionally here.  `measure` is the opaque scoring collaborator. -/
structure Metric (α : Type) where
  name : String
  threshold : ℚ
  strictMode : Bool
  evaluationModel : Option String
  score : Option ℚ := none
  reason : Option String := none
  success : Bool := false
  error : Option String := none
  evaluationCost : Option ℚ := none
  verboseLogs : Option String := none
  asyncMode : Bool := true
  verboseMode : Bool := false
  measure : α → MeasureOut

/-- A single-turn test case (`LLMTestCase`).  `uid` models Python object
identity (`id(test_case)`), used by the per-batch lookup map and as the
test-case part of cache keys.  Dictionaries are modelled as opaque
`Option String` blobs. -/
structure LLMTestCase where
  uid : Nat
  input : String
  actualOutput : String
  expectedOutput : Option String := none
  context : List String := []
  retrievalContext : List String := []
  toolsUsed : List String := []
  expectedTools : List String := []
  datasetRank : Option Nat := none
  additionalMetadata : Option String := none
  comments : Option String := none
deriving DecidableEq

/-- One message of a conversational test case: the should-evaluate flag and the
inner single-turn test case. -/
structure ConvMessage where
  shouldEvaluate : Bool
  llmTestCase : LLMTestCase
deriving DecidableEq

/-- A conversational test case (`ConversationalTestCase`). -/
structure ConversationalTestCase where
  messages : List ConvMessage
  datasetRank : Option Nat := none
  additionalMetadata : Option String := none
  comments : Option String := none
deriving DecidableEq

/-- An element of the heterogeneous `test_cases` batch list. -/
inductive TopCase where
  | llm (tc : LLMTestCase)
  | conv (tc : ConversationalTestCase)
deriving DecidableEq

/-- An element of the heterogeneous `metrics` list. -/
inductive AnyMetric where
  | llm (m : Metric LLMTestCase)
  | conv (m : Metric ConversationalTestCase)

/-- Immutable snapshot of one metric's outcome for one test case
(`MetricData`). -/
structure MetricData where
  name : String
  threshold : ℚ
  score : Option ℚ
  reason : Option String
  success : Bool
  strictMode : Bool
  evaluationModel : Option String
  error : Option String
  evaluationCost : Option ℚ
  verboseLogs : Option String
deriving DecidableEq

/-- Modelled from the spec: the metric-configuration fingerprint produced by
`Cache.create_metric_configuration` (not under src/) — the metric's identity
and scoring parameters; a cached result is reusable only when this fingerprint
matches exactly. -/
structure MetricConfiguration where
  name : String
  threshold : ℚ
  strictMode : Bool
  evaluationModel : Option String
deriving DecidableEq

/-- One cached metric result together with the configuration it was produced
under (`CachedMetricData`). -/
structure CachedMetricData where
  metricData : MetricData
  metricConfiguration : MetricConfiguration
deriving DecidableEq

/-- A cache entry for one test case (`CachedTestCase`). -/
structure CachedTestCase where
  cachedMetricsData : List CachedMetricData := []
deriving DecidableEq

/-- The per-unit result record for a single-turn unit of work
(`LLMApiTestCase`). -/
structure LLMApiTestCase where
  name : String
  input : String
  actualOutput : String
  expectedOutput : Option String
  context : List String
  retrievalContext : List String
  toolsUsed : List String
  expectedTools : List String
  success : Option Bool
  metricsData : List MetricData
  runDuration : Option ℚ
  evaluationCost : Option ℚ
  order : Option Nat
  additionalMetadata : Option String
  comments : Option String
  conversationalInstanceId : Option Nat
deriving DecidableEq

/-- The result record for a conversational unit of work
(`ConversationalApiTestCase`). -/
structure ConversationalApiTestCase where
  name : String
  success : Bool
  metricsData : List MetricData
  runDuration : ℚ
  order : Option Nat
  messages : List LLMApiTestCase
  instanceId : Nat
deriving DecidableEq

/-- A finalized result record handed to the run-record sink. -/
inductive ApiRecord where
  | llm (r : LLMApiTestCase)
  | conv (r : ConversationalApiTestCase)
deriving DecidableEq

/-- The value returned per unit of work from the public entry points
(`TestResult`). -/
structure TestResult where
  success : Option Bool
  metricsData : List MetricData
  input : String
  actualOutput : String
  expectedOutput : Option String
  context : List String
  retrievalContext : List String
deriving DecidableEq

/-- The ambient mutable state of a run: the per-batch identity lookup map
(`llm_test_case_lookup_map`), the durable and transient cache tiers keyed by
(test-case identity, hyperparameter fingerprint), the cache manager's
`disable_write_cache` flag, the run's hyperparameters, the run-record sink
(each finalized record handed to `test_run_manager.update_test_run`), the wall
clock (`time.perf_counter`), and the allocator for fresh record instance ids
(`id(api_test_case)`). -/
structure EngineState where
  lookupMap : List (Nat × LLMApiTestCase)
  durableCache : List ((Nat × Option String) × CachedTestCase)
  transientCache : List ((Nat × Option String) × CachedTestCase)
  disableWriteCache : Bool
  hyperparameters : Option String
  sink : List ApiRecord
  now : ℚ
  nextInstanceId : Nat

/-- Association-list lookup used by the modelled cache tiers. -/
def assocGet (l : List ((Nat × Option String) × CachedTestCase))
    (k : Nat × Option String) : Option CachedTestCase :=
  (l.find? (fun kv => decide (kv.1 = k))).map (·.2)

/-- Association-list overwrite-or-append used by the modelled cache tiers. -/
def assocPut (l : List ((Nat × Option String) × CachedTestCase))
    (k : Nat × Option String) (v : CachedTestCase) :
    List ((Nat × Option String) × CachedTestCase) :=
  if l.any (fun kv => decide (kv.1 = k)) then
    l.map (fun kv => if kv.1 = k then (k, v) else kv)
  else l ++ [(k, v)]

/-- Modelled from the spec: `Cache.create_metric_configuration` (not under
src/) — fingerprint of the metric's current configuration. -/
def configOf {α : Type} (m : Metric α) : MetricConfiguration :=
  ⟨m.name, m.threshold, m.strictMode, m.evaluationModel⟩

/-- Modelled from the spec: `Cache.get_metric_data(metric, cached_test_case)`
(not under src/) — returns the cached result whose configuration fingerprint
matches the metric's current configuration, if any. -/
def getCachedMetricData {α : Type} (m : Metric α) (c : CachedTestCase) :
    Option CachedMetricData :=
  c.cachedMetricsData.find? (fun cmd => decide (cmd.metricConfiguration = configOf m))

/-- Modelled from the spec: the cache manager's
`get_cached_test_case(test_case, hyperparameters)` (not under src/) — keyed
lookup, consulting the transient this-run tier first (it exists to give
within-process read-after-write visibility), falling back to the durable
tier. -/
def getCachedTestCase (st : EngineState) (uid : Nat) : Option CachedTestCase :=
  match assocGet st.transientCache (uid, st.hyperparameters) with
  | some c => some c
  | none => assocGet st.durableCache (uid, st.hyperparameters)

/-- Modelled from the spec: the cache manager's
`cache_test_case(test_case, entry, hyperparameters, to_temp)` (not under
src/) — write a cache entry to the chosen tier; durable writes are globally
disabled when the caller opted out of disk persistence
(`disable_write_cache`), the transient tier is not affected by that flag. -/
def cacheTestCase (st : EngineState) (uid : Nat) (entry : CachedTestCase)
    (toTemp : Bool) : EngineState :=
  if toTemp then
    { st with transientCache := assocPut st.transientCache (uid, st.hyperparameters) entry }
  else if st.disableWriteCache then st
  else
    { st with durableCache := assocPut st.durableCache (uid, st.hyperparameters) entry }

/-- Cache writes do not touch the run-record sink. -/
@[simp]
theorem cacheTestCase_sink (st : EngineState) (uid : Nat) (e : CachedTestCase)
    (toTemp : Bool) : (cacheTestCase st uid e toTemp).sink = st.sink := by
  cases toTemp <;> simp [cacheTestCase] <;> by_cases h : st.disableWriteCache <;> simp [h]

/-- Cache writes do not touch the identity lookup map. -/
@[simp]
theorem cacheTestCase_lookupMap (st : EngineState) (uid : Nat) (e : CachedTestCase)
    (toTemp : Bool) : (cacheTestCase st uid e toTemp).lookupMap = st.lookupMap := by
  cases toTemp <;> simp [cacheTestCase] <;> by_cases h : st.disableWriteCache <;> simp [h]

/-- Cache writes do not touch the clock. -/
@[simp]
theorem cacheTestCase_now (st : EngineState) (uid : Nat) (e : CachedTestCase)
    (toTemp : Bool) : (cacheTestCase st uid e toTemp).now = st.now := by
  cases toTemp <;> simp [cacheTestCase] <;> by_cases h : st.disableWriteCache <;> simp [h]

/-- Cache writes do not touch the hyperparameters. -/
@[simp]
theorem cacheTestCase_hyperparameters (st : EngineState) (uid : Nat)
    (e : CachedTestCase) (toTemp : Bool) :
    (cacheTestCase st uid e toTemp).hyperparameters = st.hyperparameters := by
  cases toTemp <;> simp [cacheTestCase] <;> by_cases h : st.disableWriteCache <;> simp [h]

/-- Cache writes do not touch the write-disable flag. -/
@[simp]
theorem cacheTestCase_disableWriteCache (st : EngineState) (uid : Nat)
    (e : CachedTestCase) (toTemp : Bool) :
    (cacheTestCase st uid e toTemp).disableWriteCache = st.disableWriteCache := by
  cases toTemp <;> simp [cacheTestCase] <;> by_cases h : st.disableWriteCache <;> simp [h]

/-- Cache writes do not touch the instance-id allocator. -/
@[simp]
theorem cacheTestCase_nextInstanceId (st : EngineState) (uid : Nat)
    (e : CachedTestCase) (toTemp : Bool) :
    (cacheTestCase st uid e toTemp).nextInstanceId = st.nextInstanceId := by
  cases toTemp <;> simp [cacheTestCase] <;> by_cases h : st.disableWriteCache <;> simp [h]

/-- Transient writes do not touch the durable tier. -/
@[simp]
theorem cacheTestCase_temp_durable (st : EngineState) (uid : Nat)
    (e : CachedTestCase) : (cacheTestCase st uid e true).durableCache = st.durableCache := by
  simp [cacheTestCase]

/-- Durable writes do not touch the transient tier. -/
@[simp]
theorem cacheTestCase_durable_transient (st : EngineState) (uid : Nat)
    (e : CachedTestCase) :
    (cacheTestCase st uid e false).transientCache = st.transientCache := by
  simp [cacheTestCase]
  by_cases h : st.disableWriteCache <;> simp [h]

/-- Modelled from the spec: `BaseMetric.is_successful` (not under src/) —
reports the metric's success flag from its post-invocation state. -/
def Metric.isSuccessful {α : Type} (m : Metric α) : Bool := m.success

/-- The per-metric cache consultation (lines 256-261): the cached result for
this metric under its current configuration, when a cached test case is
available at all. -/
def metricCacheHit {α : Type} (cached : Option CachedTestCase) (m : Metric α) :
    Option MetricData :=
  match cached with
  | some c => (getCachedMetricData m c).map (·.metricData)
  | none => none

/-- `create_metric_data(metric)`: build the immutable snapshot from the
metric's post-invocation state; an error present forces score/reason absent
and success false, otherwise the fields are copied directly. -/
def create_metric_data {α : Type} (m : Metric α) : MetricData :=
  match m.error with
  | some e =>
      { name := m.name, threshold := m.threshold, score := none, reason := none,
        success := false, strictMode := m.strictMode,
        evaluationModel := m.evaluationModel, error := some e,
        evaluationCost := m.evaluationCost, verboseLogs := m.verboseLogs }
  | none =>
      { name := m.name, threshold := m.threshold, score := m.score,
        reason := m.reason, success := m.isSuccessful,
        strictMode := m.strictMode, evaluationModel := m.evaluationModel,
        error := none, evaluationCost := m.evaluationCost,
        verboseLogs := m.verboseLogs }

/-- Modelled from the spec: `LLMApiTestCase.update_metric_data` (not under
src/) — append the metric result to the record and fold its success flag into
the record's accumulated success flag. -/
def updateMetricDataLLM (api : LLMApiTestCase) (md : MetricData) : LLMApiTestCase :=
  { api with
    metricsData := api.metricsData ++ [md],
    success := some (match api.success with
      | none => md.success
      | some s => s && md.success) }

/-- Modelled from the spec: `ConversationalApiTestCase.update_metric_data`
(not under src/). -/
def updateMetricDataConv (api : ConversationalApiTestCase) (md : MetricData) :
    ConversationalApiTestCase :=
  { api with
    metricsData := api.metricsData ++ [md],
    success := api.success && md.success }

/-- A default record, used only to keep `create_test_result` total where the
Python source would raise `IndexError` on an empty message list. -/
def dummyApiTestCase : LLMApiTestCase :=
  { name := "", input := "", actualOutput := "", expectedOutput := none,
    context := [], retrievalContext := [], toolsUsed := [], expectedTools := [],
    success := none, metricsData := [], runDuration := none,
    evaluationCost := none, order := none, additionalMetadata := none,
    comments := none, conversationalInstanceId := none }

/-- `create_test_result(test_case)`: project a finalized record into the
caller-visible `TestResult`; for a conversational record the projected unit is
the record of its last message. -/
def create_test_result : ApiRecord → TestResult
  | .llm tc =>
      { success := tc.success, metricsData := tc.metricsData, input := tc.input,
        actualOutput := tc.actualOutput, expectedOutput := tc.expectedOutput,
        context := tc.context, retrievalContext := tc.retrievalContext }
  | .conv c =>
      let tc := c.messages.getLastD dummyApiTestCase
      { success := tc.success, metricsData := tc.metricsData, input := tc.input,
        actualOutput := tc.actualOutput, expectedOutput := tc.expectedOutput,
        context := tc.context, retrievalContext := tc.retrievalContext }

/-- `create_api_test_case` on the `LLMTestCase` branch (lines 111-155).  The
per-batch identity lookup map is consulted first; with a conversational
instance id the record is a message record (success `None`, name
`message_{index}`, order = index, metadata and comments overridden by the
parent's) and is registered in the map; a top-level record takes its name from
the index (the pytest name environment variable is modelled as unset) and its
order from the dataset rank.  Returns the record and the updated map. -/
def create_api_test_case_llm (map : List (Nat × LLMApiTestCase))
    (tc : LLMTestCase) (index : Nat) (convInstanceId : Option Nat)
    (metadata comments : Option String) :
    LLMApiTestCase × List (Nat × LLMApiTestCase) :=
  match (map.find? (fun kv => decide (kv.1 = tc.uid))).map (·.2) with
  | some api => (api, map)
  | none =>
    match convInstanceId with
    | some instId =>
      let api : LLMApiTestCase :=
        { name := "message_" ++ toString index, input := tc.input,
          actualOutput := tc.actualOutput, expectedOutput := tc.expectedOutput,
          context := tc.context, retrievalContext := tc.retrievalContext,
          toolsUsed := tc.toolsUsed, expectedTools := tc.expectedTools,
          success := none, metricsData := [], runDuration := none,
          evaluationCost := none, order := some index,
          additionalMetadata := metadata, comments := comments,
          conversationalInstanceId := some instId }
      (api, map ++ [(tc.uid, api)])
    | none =>
      let api : LLMApiTestCase :=
        { name := "test_case_" ++ toString index, input := tc.input,
          actualOutput := tc.actualOutput, expectedOutput := tc.expectedOutput,
          context := tc.context, retrievalContext := tc.retrievalContext,
          toolsUsed := tc.toolsUsed, expectedTools := tc.expectedTools,
          success := some true, metricsData := [], runDuration := none,
          evaluationCost := none, order := tc.datasetRank,
          additionalMetadata := tc.additionalMetadata, comments := tc.comments,
          conversationalInstanceId := none }
      (api, map)

/-- `create_api_test_case` on the `ConversationalTestCase` branch (lines
157-181): create the conversational record with a fresh instance id and create
(and register) one message record per message, each stamped with the parent's
additional metadata and comments. -/
def create_api_test_case_conv (st : EngineState) (tc : ConversationalTestCase)
    (index : Nat) : ConversationalApiTestCase × EngineState :=
  let instId := st.nextInstanceId
  let msgsAndMap :=
    tc.messages.enum.foldl
      (fun (acc : List LLMApiTestCase × List (Nat × LLMApiTestCase)) im =>
        let r := create_api_test_case_llm acc.2 im.2.llmTestCase im.1
          (some instId) tc.additionalMetadata tc.comments
        (acc.1 ++ [r.1], r.2))
      ([], st.lookupMap)
  let api : ConversationalApiTestCase :=
    { name := "conversational_test_case_" ++ toString index, success := true,
      metricsData := [], runDuration := 0, order := tc.datasetRank,
      messages := msgsAndMap.1, instanceId := instId }
  (api, { st with lookupMap := msgsAndMap.2, nextInstanceId := st.nextInstanceId + 1 })

/-- The messages a conversational batch entry contributes to the flattened
batch (its should-evaluate messages, as independent single-turn units). -/
def convContribution : TopCase → List TopCase
  | .llm _ => []
  | .conv t => (t.messages.filter (·.shouldEvaluate)).map
      (fun m => TopCase.llm m.llmTestCase)

/-- The flattening loop (lines 208-216 / 379-387): every should-evaluate
message of a conversational entry is appended, in order, to the end of the
caller-supplied `test_cases` list (the appended single-turn entries are not
conversational, so the growing iteration visits them without effect). -/
def flattenTestCases (cases : List TopCase) : List TopCase :=
  cases ++ (cases.map convContribution).flatten

/-- Metric partitioning (lines 222-226 / 393-397): the single-turn-applicable
metrics, in order. -/
def llmMetricsOf (metrics : List AnyMetric) : List (Metric LLMTestCase) :=
  metrics.filterMap (fun m => match m with
    | .llm m => some m
    | .conv _ => none)

/-- Metric partitioning (lines 222-226 / 393-397): the
conversational-applicable metrics, in order. -/
def convMetricsOf (metrics : List AnyMetric) : List (Metric ConversationalTestCase) :=
  metrics.filterMap (fun m => match m with
    | .llm _ => none
    | .conv m => some m)

/-- The per-unit reset `for metric in metrics: metric.error = None`
(lines 230-231), acting on one of the two partitions. -/
def resetErrors {α : Type} (ms : List (Metric α)) : List (Metric α) :=
  ms.map (fun m => { m with error := none })

/-- The verbose-mode override (lines 202-204 / 373-375): when a verbose mode is
supplied, set it on every metric. -/
def setVerboseModes (vb : Option Bool) (metrics : List AnyMetric) : List AnyMetric :=
  match vb with
  | none => metrics
  | some b => metrics.map (fun m => match m with
      | .llm m => .llm { m with verboseMode := b }
      | .conv m => .conv { m with verboseMode := b })

/-- The sequential per-metric loop of a single-turn unit (lines 254-291): for
each single-turn metric, use a configuration-matching cached result when
present, otherwise force synchronous mode and invoke `measure`, capturing a
raised exception into the metric's error state when `ignore_errors` is set and
propagating it otherwise; append the resulting `MetricData` to the record and,
when the metric carries no error, queue a cost-zeroed copy for the cache
write-back.  Returns the updated metric list, record, accumulated cache entry,
the all-read-from-cache flag, and the wall clock. -/
def syncRunMetrics (ignoreErrors : Bool) (tc : LLMTestCase)
    (cached : Option CachedTestCase) :
    List (Metric LLMTestCase) → LLMApiTestCase → CachedTestCase → Bool → ℚ →
    Except String (List (Metric LLMTestCase) × LLMApiTestCase × CachedTestCase × Bool × ℚ)
  | [], api, nc, readAll, now => .ok ([], api, nc, readAll, now)
  | m :: rest, api, nc, readAll, now =>
    let step : Except String (Metric LLMTestCase × MetricData × Bool × ℚ) :=
      match metricCacheHit cached m with
      | some md => .ok (m, md, readAll, now)
      | none =>
        let m := { m with asyncMode := false }
        match m.measure tc with
        | .ok s r su c v e =>
          let m := { m with
            score := s, reason := r, success := su,
            evaluationCost := c, verboseLogs := v }
          .ok (m, create_metric_data m, false, now + e)
        | .raise msg e =>
          if ignoreErrors then
            let m := { m with error := some msg, success := false }
            .ok (m, create_metric_data m, false, now + e)
          else .error msg
    match step with
    | .error msg => .error msg
    | .ok (m, md, readAll, now) =>
      let api := updateMetricDataLLM api md
      let nc :=
        if m.error = none then
          { nc with cachedMetricsData := nc.cachedMetricsData ++
              [⟨{ md with evaluationCost := some 0 }, configOf m⟩] }
        else nc
      match syncRunMetrics ignoreErrors tc cached rest api nc readAll now with
      | .error msg => .error msg
      | .ok (restMs, api, nc, readAll, now) => .ok (m :: restMs, api, nc, readAll, now)

/-- The sequential per-metric loop of a conversational unit (lines 327-342):
no caching; force synchronous mode, invoke `measure` with the same
per-metric error isolation, and append each result to the record. -/
def convRunMetrics (ignoreErrors : Bool) (tc : ConversationalTestCase) :
    List (Metric ConversationalTestCase) → ConversationalApiTestCase → ℚ →
    Except String (List (Metric ConversationalTestCase) × ConversationalApiTestCase × ℚ)
  | [], api, now => .ok ([], api, now)
  | m :: rest, api, now =>
    let step : Except String (Metric ConversationalTestCase × ℚ) :=
      let m := { m with asyncMode := false }
      match m.measure tc with
      | .ok s r su c v e =>
        .ok ({ m with
          score := s, reason := r, success := su,
          evaluationCost := c, verboseLogs := v }, now + e)
      | .raise msg e =>
        if ignoreErrors then
          .ok ({ m with error := some msg, success := false }, now + e)
        else .error msg
    match step with
    | .error msg => .error msg
    | .ok (m, now) =>
      let api := updateMetricDataConv api (create_metric_data m)
      match convRunMetrics ignoreErrors tc rest api now with
      | .error msg => .error msg
      | .ok (restMs, api, now) => .ok (m :: restMs, api, now)

/-- The loop accumulator of the main per-test-case loop: the collected
results, the two (in-place mutated) metric partitions, the two unit counters,
and the ambient state. -/
structure LoopAcc where
  results : List TestResult
  llmMetrics : List (Metric LLMTestCase)
  convMetrics : List (Metric ConversationalTestCase)
  llmCount : Nat
  convCount : Nat
  st : EngineState

/-- Aliasing write-back for the identity lookup map: a record reached through
the map is the same Python object as the record the unit updates, so after a
unit completes the map reflects the finalized record. -/
def mapWriteback (map : List (Nat × LLMApiTestCase)) (uid : Nat)
    (api : LLMApiTestCase) : List (Nat × LLMApiTestCase) :=
  map.map (fun kv => if kv.1 = uid then (uid, api) else kv)

/-- One iteration of the sequential main loop (lines 228-351).  Single-turn
branch: reset metric errors, skip entirely when no single-turn metric is
configured, consult the cache when enabled, run the metric loop, stamp the run
duration (exactly zero when every metric came from the cache), hand the record
to the run-record sink, write the accumulated cache entry to the durable and
transient tiers, and append the `TestResult`.  Conversational branch: no
caching; run the conversational metrics, stamp the measured duration only when
a conversational metric is configured, and hand the record to the sink. -/
def syncProcessCase (ignoreErrors useCache : Bool) (acc : LoopAcc) :
    TopCase → Except String LoopAcc
  | .llm tc =>
    let llmMs := resetErrors acc.llmMetrics
    let convMs := resetErrors acc.convMetrics
    if llmMs.length = 0 then
      .ok { acc with llmMetrics := llmMs, convMetrics := convMs }
    else
      let count := acc.llmCount
      let cached := if useCache then getCachedTestCase acc.st tc.uid else none
      let capi := create_api_test_case_llm acc.st.lookupMap tc count none none none
      let st := { acc.st with lookupMap := capi.2 }
      let startT := st.now
      match syncRunMetrics ignoreErrors tc cached llmMs capi.1 ⟨[]⟩ true startT with
      | .error msg => .error msg
      | .ok (llmMs, api, newCached, readAll, endT) =>
        let dur : ℚ := if readAll then 0 else endT - startT
        let api := { api with runDuration := some dur }
        let st := { st with now := endT }
        let st := { st with sink := st.sink ++ [ApiRecord.llm api] }
        let st := cacheTestCase st tc.uid newCached false
        let st := cacheTestCase st tc.uid newCached true
        let st := { st with lookupMap := mapWriteback st.lookupMap tc.uid api }
        .ok { results := acc.results ++ [create_test_result (.llm api)],
              llmMetrics := llmMs, convMetrics := convMs,
              llmCount := count + 1, convCount := acc.convCount, st := st }
  | .conv tc =>
    let llmMs := resetErrors acc.llmMetrics
    let convMs := resetErrors acc.convMetrics
    let count := acc.convCount
    let capi := create_api_test_case_conv acc.st tc count
    let st := capi.2
    let startT := st.now
    match convRunMetrics ignoreErrors tc convMs capi.1 startT with
    | .error msg => .error msg
    | .ok (convMs, api, endT) =>
      let api := if convMs.length > 0 then { api with runDuration := endT - startT } else api
      let st := { st with now := endT }
      let st := { st with sink := st.sink ++ [ApiRecord.conv api] }
      .ok { results := acc.results, llmMetrics := llmMs, convMetrics := convMs,
            llmCount := acc.llmCount, convCount := count + 1, st := st }

/-- The sequential main loop over the (flattened) batch. -/
def syncExecLoop (ignoreErrors useCache : Bool) :
    List TopCase → LoopAcc → Except String LoopAcc
  | [], acc => .ok acc
  | c :: rest, acc =>
    match syncProcessCase ignoreErrors useCache acc c with
    | .error msg => .error msg
    | .ok acc => syncExecLoop ignoreErrors useCache rest acc

/-- The value of a finished batch execution: the returned `TestResult` list,
the final (in-place mutated) `test_cases` list, the final metric partitions,
and the final ambient state (sink, caches, map, clock). -/
structure ExecOut where
  results : List TestResult
  finalTestCases : List TopCase
  llmMetrics : List (Metric LLMTestCase)
  convMetrics : List (Metric ConversationalTestCase)
  st : EngineState

/-- `execute_test_cases` (lines 184-352), the sequential strategy: set the
cache manager's write-disable flag from `save_to_disk`, apply the verbose-mode
override, clear the per-batch identity lookup map, flatten conversational
messages into the batch, partition the metrics once, and run the sequential
main loop. -/
def execute_test_cases (cases : List TopCase) (metrics : List AnyMetric)
    (ignoreErrors useCache : Bool) (saveToDisk : Bool)
    (verboseMode : Option Bool) (st : EngineState) : Except String ExecOut :=
  let st := { st with disableWriteCache := saveToDisk = false }
  let metrics := setVerboseModes verboseMode metrics
  let st := { st with lookupMap := [] }
  let cases := flattenTestCases cases
  let llmMs := llmMetricsOf metrics
  let convMs := convMetricsOf metrics
  match syncExecLoop ignoreErrors useCache cases
      ⟨[], llmMs, convMs, 0, 0, st⟩ with
  | .error msg => .error msg
  | .ok acc => .ok ⟨acc.results, cases, acc.llmMetrics, acc.convMetrics, acc.st⟩

/-- Modelled from the spec: `measure_metrics_with_indicator` (not under
src/) — the parallel-invocation collaborator of the concurrent strategy.  Per
spec §4.3/§4.4: for each metric, a configuration-matching cached result is
copied onto the metric's outcome fields with no invocation; otherwise the
metric's error state is reset, its concurrency mode is forced synchronous for
this invocation, and `measure` is invoked, with the same per-metric error
isolation as the sequential runner (capture under `ignore_errors`, propagate
otherwise).  The group is awaited as a whole; the model accounts the group's
wall-clock time as the metrics' summed measure times. -/
def measureMetricsWithIndicator {α : Type} (ignoreErrors : Bool) (tc : α)
    (cached : Option CachedTestCase) :
    List (Metric α) → ℚ → Except String (List (Metric α) × ℚ)
  | [], now => .ok ([], now)
  | m :: rest, now =>
    let step : Except String (Metric α × ℚ) :=
      match metricCacheHit cached m with
      | some md =>
        .ok ({ m with
          score := md.score, reason := md.reason, success := md.success,
          evaluationCost := md.evaluationCost, verboseLogs := md.verboseLogs }, now)
      | none =>
        let m := { m with error := none, asyncMode := false }
        match m.measure tc with
        | .ok s r su c v e =>
          .ok ({ m with
            score := s, reason := r, success := su,
            evaluationCost := c, verboseLogs := v }, now + e)
        | .raise msg e =>
          if ignoreErrors then
            .ok ({ m with error := some msg, success := false }, now + e)
          else .error msg
    match step with
    | .error msg => .error msg
    | .ok (m, now) =>
      match measureMetricsWithIndicator ignoreErrors tc cached rest now with
      | .error msg => .error msg
      | .ok (restMs, now) => .ok (m :: restMs, now)

/-- The concurrent strategy's post-measure collection loop for a single-turn
unit (lines 430-447): build each metric's snapshot from its post-invocation
state, append it to the record, and queue a cost-zeroed copy for the cache
write-back when the metric carries no error. -/
def asyncCollectMetrics :
    List (Metric LLMTestCase) → LLMApiTestCase → CachedTestCase →
    LLMApiTestCase × CachedTestCase
  | [], api, nc => (api, nc)
  | m :: rest, api, nc =>
    let md := create_metric_data m
    let api := updateMetricDataLLM api md
    let nc :=
      if m.error = none then
        { nc with cachedMetricsData := nc.cachedMetricsData ++
            [⟨{ md with evaluationCost := some 0 }, configOf m⟩] }
      else nc
    asyncCollectMetrics rest api nc

/-- The concurrent strategy's post-measure collection loop for a
conversational unit (lines 485-487). -/
def asyncCollectConvMetrics :
    List (Metric ConversationalTestCase) → ConversationalApiTestCase →
    ConversationalApiTestCase
  | [], api => api
  | m :: rest, api =>
    asyncCollectConvMetrics rest (updateMetricDataConv api (create_metric_data m))

/-- One iteration of the concurrent main loop (lines 399-496).  Single-turn
branch: skip when no single-turn metric is configured, reset every metric's
error, consult the cache when enabled, hand the whole metric set to the
parallel-invocation collaborator, collect the results, and stamp the run
duration — zeroed whenever the measured wall time is below one second (the
source's quick hack for detecting an all-cache-hit unit); then sink, cache
write-back to both tiers, and `TestResult` as in the sequential strategy.
Conversational branch: as the sequential one, via the collaborator. -/
def asyncProcessCase (ignoreErrors useCache : Bool) (acc : LoopAcc) :
    TopCase → Except String LoopAcc
  | .llm tc =>
    if acc.llmMetrics.length = 0 then .ok acc
    else
      let llmMs := resetErrors acc.llmMetrics
      let convMs := resetErrors acc.convMetrics
      let count := acc.llmCount
      let cached := if useCache then getCachedTestCase acc.st tc.uid else none
      let capi := create_api_test_case_llm acc.st.lookupMap tc count none none none
      let st := { acc.st with lookupMap := capi.2 }
      let startT := st.now
      match measureMetricsWithIndicator ignoreErrors tc cached llmMs startT with
      | .error msg => .error msg
      | .ok (llmMs, endT) =>
        let collected := asyncCollectMetrics llmMs capi.1 ⟨[]⟩
        let api := collected.1
        let newCached := collected.2
        let measured : ℚ := endT - startT
        let dur : ℚ := if measured < 1 then 0 else measured
        let api := { api with runDuration := some dur }
        let st := { st with now := endT }
        let st := { st with sink := st.sink ++ [ApiRecord.llm api] }
        let st := cacheTestCase st tc.uid newCached false
        let st := cacheTestCase st tc.uid newCached true
        let st := { st with lookupMap := mapWriteback st.lookupMap tc.uid api }
        .ok { results := acc.results ++ [create_test_result (.llm api)],
              llmMetrics := llmMs, convMetrics := convMs,
              llmCount := count + 1, convCount := acc.convCount, st := st }
  | .conv tc =>
    let count := acc.convCount
    let capi := create_api_test_case_conv acc.st tc count
    let st := capi.2
    let startT := st.now
    match measureMetricsWithIndicator ignoreErrors tc none acc.convMetrics startT with
    | .error msg => .error msg
    | .ok (convMs, endT) =>
      let api := asyncCollectConvMetrics convMs capi.1
      let api := if convMs.length > 0 then { api with runDuration := endT - startT } else api
      let st := { st with now := endT }
      let st := { st with sink := st.sink ++ [ApiRecord.conv api] }
      .ok { results := acc.results, llmMetrics := acc.llmMetrics,
            convMetrics := convMs, llmCount := acc.llmCount,
            convCount := count + 1, st := st }

/-- The concurrent main loop over the (flattened) batch. -/
def asyncExecLoop (ignoreErrors useCache : Bool) :
    List TopCase → LoopAcc → Except String LoopAcc
  | [], acc => .ok acc
  | c :: rest, acc =>
    match asyncProcessCase ignoreErrors useCache acc c with
    | .error msg => .error msg
    | .ok acc => asyncExecLoop ignoreErrors useCache rest acc

/-- `a_execute_test_cases` (lines 355-497), the concurrent strategy: the same
preamble as the sequential one, followed by the concurrent main loop. -/
def a_execute_test_cases (cases : List TopCase) (metrics : List AnyMetric)
    (ignoreErrors useCache : Bool) (saveToDisk : Bool)
    (verboseMode : Option Bool) (st : EngineState) : Except String ExecOut :=
  let st := { st with disableWriteCache := saveToDisk = false }
  let metrics := setVerboseModes verboseMode metrics
  let st := { st with lookupMap := [] }
  let cases := flattenTestCases cases
  let llmMs := llmMetricsOf metrics
  let convMs := convMetricsOf metrics
  match asyncExecLoop ignoreErrors useCache cases
      ⟨[], llmMs, convMs, 0, 0, st⟩ with
  | .error msg => .error msg
  | .ok acc => .ok ⟨acc.results, cases, acc.llmMetrics, acc.convMetrics, acc.st⟩

/-- Python truthiness of the record-level success flag (`if not
test_result.success`): `None` counts as falsy. -/
def truthy : Option Bool → Bool
  | none => false
  | some b => b

/-- String form of an optional rational, mirroring Python's printing of an
optional score (`None` when absent). -/
def fmtOptQ : Option ℚ → String
  | none => "None"
  | some q => toString q

/-- String form of an optional string, mirroring Python's printing of an
optional error (`None` when absent). -/
def fmtOptStr : Option String → String
  | none => "None"
  | some s => s

/-- Python's printing of a boolean. -/
def fmtBool : Bool → String
  | true => "True"
  | false => "False"

/-- One entry of the assertion failure message (line 545): the failing
metric's name, score, threshold, strict-mode flag and error. -/
def failedMetricEntry (md : MetricData) : String :=
  md.name ++ " (score: " ++ fmtOptQ md.score ++ ", threshold: " ++
    toString md.threshold ++ ", strict: " ++ fmtBool md.strictMode ++
    ", error: " ++ fmtOptStr md.error ++ ")"

/-- The metric results `assert_test` lists as failed (lines 531-541): every
errored metric and every metric whose success flag is false.  (The source's
guard around reading the success flag cannot fire on the engine's own
snapshots, whose success flag is a plain stored boolean.) -/
def failedMetricsData (mds : List MetricData) : List MetricData :=
  mds.filter (fun md => md.error.isSome || !md.success)

/-- The assertion failure message (lines 543-549). -/
def failedMetricsMessage (mds : List MetricData) : String :=
  "Metrics: " ++ String.intercalate ", " ((failedMetricsData mds).map failedMetricEntry)
    ++ " failed."

/-- Outcome of `assert_test`: normal return, a raised `AssertionError`, a
propagated metric exception, or the `IndexError` from indexing an empty result
list. -/
inductive AssertOutcome where
  | ok
  | raisedAssertion (msg : String)
  | raisedMetric (msg : String)
  | indexError
deriving DecidableEq

/-- `assert_test` (lines 500-549): run the batch-of-one through the chosen
strategy, take result `[0]`, and raise the enumerated failure message when
that result's success flag is falsy.  The ambient environment options
(`should_ignore_errors()`, `should_use_cache()`, `should_verbose_print()`,
`get_is_running_deepeval()`) are modelled as explicit parameters. -/
def assert_test (tc : TopCase) (metrics : List AnyMetric) (runAsync : Bool)
    (ignoreErrors useCache saveToDisk : Bool) (verboseMode : Option Bool)
    (st : EngineState) : AssertOutcome :=
  let r :=
    if runAsync then
      a_execute_test_cases [tc] metrics ignoreErrors useCache saveToDisk verboseMode st
    else
      execute_test_cases [tc] metrics ignoreErrors useCache saveToDisk verboseMode st
  match r with
  | .error msg => .raisedMetric msg
  | .ok out =>
    match out.results.head? with
    | none => .indexError
    | some tr =>
      if truthy tr.success then .ok
      else .raisedAssertion (failedMetricsMessage tr.metricsData)

/-- A metric-result view as consumed by the aggregator: its name and its
success attribute, where `none` models a success-flag evaluation that raises
(the tolerance the spec ascribes to third-party metric snapshots; the file's
own `assert_test` and `print_test_result` guard this read with a
try/except). -/
structure AggMetricData where
  name : String
  success : Option Bool
deriving DecidableEq

/-- A result row as consumed by the aggregator. -/
structure AggTestResult where
  metricsData : List AggMetricData
deriving DecidableEq

/-- The tally update of `aggregate_metric_pass_rates` (lines 661-666): ensure
the metric name is present, bump its total count, and bump its success count
when the success flag holds. -/
def bumpTally (l : List (String × Nat × Nat)) (nm : String) (succ : Bool) :
    List (String × Nat × Nat) :=
  if l.any (fun e => e.1 = nm) then
    l.map (fun e =>
      if e.1 = nm then (nm, e.2.1 + 1, e.2.2 + (if succ then 1 else 0)) else e)
  else l ++ [(nm, 1, if succ then 1 else 0)]

/-- The inner metric loop of the aggregator (lines 659-666).  Reading the
success attribute is unguarded in this function: a raising success evaluation
propagates out as the error case. -/
def aggMetricLoop : List AggMetricData → List (String × Nat × Nat) →
    Except Unit (List (String × Nat × Nat))
  | [], acc => .ok acc
  | md :: rest, acc =>
    match md.success with
    | none => .error ()
    | some b => aggMetricLoop rest (bumpTally acc md.name b)

/-- The outer result loop of the aggregator (lines 658-666). -/
def aggResultLoop : List AggTestResult → List (String × Nat × Nat) →
    Except Unit (List (String × Nat × Nat))
  | [], acc => .ok acc
  | r :: rest, acc =>
    match aggMetricLoop r.metricsData acc with
    | .error e => .error e
    | .ok acc => aggResultLoop rest acc

/-- `aggregate_metric_pass_rates` (lines 654-679): tally per-metric totals and
successes across all results and report successes / totals per metric name. -/
def aggregate_metric_pass_rates (results : List AggTestResult) :
    Except Unit (List (String × ℚ)) :=
  match aggResultLoop results [] with
  | .error e => .error e
  | .ok acc => .ok (acc.map (fun e => (e.1, (e.2.2 : ℚ) / (e.2.1 : ℚ))))

/-! ### Closed forms of the per-metric processing

The engine loops process each metric independently of its siblings; the
following functions give, per metric, the final metric state, the produced
snapshot, the queued cache entry and the consumed wall time, for both
strategies.  Characterization lemmas below prove the loops equal to maps and
folds of these. -/

/-- Closed form: the sequential strategy's final state of one single-turn
metric (ignoring a propagating raise, which aborts the unit instead). -/
def syncMetricFinal (tc : LLMTestCase) (cached : Option CachedTestCase)
    (m : Metric LLMTestCase) : Metric LLMTestCase :=
  match metricCacheHit cached m with
  | some _ => m
  | none =>
    let m := { m with asyncMode := false }
    match m.measure tc with
    | .ok s r su c v _ =>
      { m with
        score := s, reason := r, success := su,
        evaluationCost := c, verboseLogs := v }
    | .raise msg _ => { m with error := some msg, success := false }

/-- Closed form: the sequential strategy's snapshot for one single-turn
metric. -/
def syncMetricMD (tc : LLMTestCase) (cached : Option CachedTestCase)
    (m : Metric LLMTestCase) : MetricData :=
  match metricCacheHit cached m with
  | some md => md
  | none => create_metric_data (syncMetricFinal tc cached m)

/-- Closed form: the sequential strategy's queued cache entry for one
single-turn metric (present exactly when the metric finished without
error). -/
def syncMetricEntry (tc : LLMTestCase) (cached : Option CachedTestCase)
    (m : Metric LLMTestCase) : Option CachedMetricData :=
  if (syncMetricFinal tc cached m).error = none then
    some ⟨{ syncMetricMD tc cached m with evaluationCost := some 0 }, configOf m⟩
  else none

/-- Closed form: wall-clock time one metric consumes (zero on a cache hit). -/
def metricTime {α : Type} (tc : α) (cached : Option CachedTestCase)
    (m : Metric α) : ℚ :=
  match metricCacheHit cached m with
  | some _ => 0
  | none => (m.measure tc).timeTaken

/-- Closed form: the message of the first metric whose `measure` raises (on a
cache miss), which is the exception that propagates when `ignore_errors` is
false. -/
def firstRaise {α : Type} (tc : α) (cached : Option CachedTestCase) :
    List (Metric α) → Option String
  | [] => none
  | m :: rest =>
    match metricCacheHit cached m with
    | some _ => firstRaise tc cached rest
    | none =>
      match m.measure tc with
      | .ok _ _ _ _ _ _ => firstRaise tc cached rest
      | .raise msg _ => some msg

/-- Closed form: the conversational final state of one metric in the
sequential strategy (no caching). -/
def convMetricFinal (tc : ConversationalTestCase)
    (m : Metric ConversationalTestCase) : Metric ConversationalTestCase :=
  let m := { m with asyncMode := false }
  match m.measure tc with
  | .ok s r su c v _ =>
    { m with
      score := s, reason := r, success := su,
      evaluationCost := c, verboseLogs := v }
  | .raise msg _ => { m with error := some msg, success := false }

/-- Closed form: the concurrent collaborator's final state of one metric (a
cache hit copies the cached outcome onto the metric; a miss resets the error,
forces synchronous mode and measures). -/
def asyncMetricFinal {α : Type} (tc : α) (cached : Option CachedTestCase)
    (m : Metric α) : Metric α :=
  match metricCacheHit cached m with
  | some md =>
    { m with
      score := md.score, reason := md.reason, success := md.success,
      evaluationCost := md.evaluationCost, verboseLogs := md.verboseLogs }
  | none =>
    let m := { m with error := none, asyncMode := false }
    match m.measure tc with
    | .ok s r su c v _ =>
      { m with
        score := s, reason := r, success := su,
        evaluationCost := c, verboseLogs := v }
    | .raise msg _ => { m with error := some msg, success := false }

/-- Closed form: the concurrent strategy's queued cache entry for one
single-turn metric, built from the metric's post-collaborator state. -/
def asyncMetricEntry (m : Metric LLMTestCase) : Option CachedMetricData :=
  if m.error = none then
    some ⟨{ create_metric_data m with evaluationCost := some 0 }, configOf m⟩
  else none

/-- The metric-snapshot fold over a single-turn record. -/
def applyMds (api : LLMApiTestCase) (mds : List MetricData) : LLMApiTestCase :=
  mds.foldl updateMetricDataLLM api

/-- The metric-snapshot fold over a conversational record. -/
def applyMdsConv (api : ConversationalApiTestCase) (mds : List MetricData) :
    ConversationalApiTestCase :=
  mds.foldl updateMetricDataConv api

theorem applyMds_append (api : LLMApiTestCase) (l₁ l₂ : List MetricData) :
    applyMds api (l₁ ++ l₂) = applyMds (applyMds api l₁) l₂ :=
  List.foldl_append _ _ _ _

/-- Characterization of the sequential single-turn metric loop with
`ignore_errors` set: it never raises and is the map/fold of the closed
forms. -/
theorem syncRunMetrics_true_char (tc : LLMTestCase) (cached : Option CachedTestCase) :
    ∀ (ms : List (Metric LLMTestCase)) (api : LLMApiTestCase)
      (nc : CachedTestCase) (readAll : Bool) (now : ℚ),
    syncRunMetrics true tc cached ms api nc readAll now = .ok
      (ms.map (syncMetricFinal tc cached),
       applyMds api (ms.map (syncMetricMD tc cached)),
       { nc with cachedMetricsData := nc.cachedMetricsData ++
           ms.filterMap (syncMetricEntry tc cached) },
       readAll && ms.all (fun m => (metricCacheHit cached m).isSome),
       now + (ms.map (metricTime tc cached)).sum) := by
  intro ms
  induction ms with
  | nil =>
    intro api nc readAll now
    simp [syncRunMetrics, applyMds]
  | cons m rest ih =>
    intro api nc readAll now
    simp only [syncRunMetrics]
    cases hhit : metricCacheHit cached m with
    | some md =>
      simp only [ih, applyMds, List.map_cons, List.foldl_cons, List.filterMap_cons,
        List.all_cons, List.sum_cons]
      simp only [syncMetricFinal, syncMetricMD, syncMetricEntry, metricTime, hhit,
        applyMds]
      by_cases he : m.error = none <;>
        simp [he, configOf, List.append_assoc, add_assoc, add_comm, add_left_comm]
    | none =>
      cases hms : m.measure tc with
      | ok s r su c v e =>
        simp only [ih, applyMds, List.map_cons, List.foldl_cons, List.filterMap_cons,
          List.all_cons, List.sum_cons]
        simp only [syncMetricFinal, syncMetricMD, syncMetricEntry, metricTime,
          MeasureOut.timeTaken, hhit, hms, applyMds]
        by_cases he : m.error = none <;>
          simp [he, configOf, List.append_assoc, add_assoc, add_comm, add_left_comm]
      | raise msg e =>
        simp only [if_pos rfl, ih, applyMds, List.map_cons, List.foldl_cons,
          List.filterMap_cons, List.all_cons, List.sum_cons]
        simp [syncMetricFinal, syncMetricMD, syncMetricEntry, metricTime,
          MeasureOut.timeTaken, hhit, hms, create_metric_data, configOf, applyMds,
          add_assoc, add_comm, add_left_comm]

/-- Closed form: the conversational snapshot for one metric in the sequential
strategy. -/
def convMetricMD (tc : ConversationalTestCase)
    (m : Metric ConversationalTestCase) : MetricData :=
  create_metric_data (convMetricFinal tc m)

/-- Characterization of the sequential conversational metric loop with
`ignore_errors` set. -/
theorem convRunMetrics_true_char (tc : ConversationalTestCase) :
    ∀ (ms : List (Metric ConversationalTestCase))
      (api : ConversationalApiTestCase) (now : ℚ),
    convRunMetrics true tc ms api now = .ok
      (ms.map (convMetricFinal tc),
       applyMdsConv api (ms.map (convMetricMD tc)),
       now + (ms.map (fun m => (m.measure tc).timeTaken)).sum) := by
  intro ms
  induction ms with
  | nil =>
    intro api now
    simp [convRunMetrics, applyMdsConv]
  | cons m rest ih =>
    intro api now
    simp only [convRunMetrics]
    cases hms : m.measure tc with
    | ok s r su c v e =>
      simp [ih, applyMdsConv, convMetricFinal, convMetricMD, hms,
        MeasureOut.timeTaken, add_assoc, add_comm, add_left_comm]
    | raise msg e =>
      simp [ih, applyMdsConv, convMetricFinal, convMetricMD, hms,
        MeasureOut.timeTaken, add_assoc, add_comm, add_left_comm]

/-- Characterization of the concurrent parallel-invocation collaborator with
`ignore_errors` set. -/
theorem measureMetricsWithIndicator_true_char {α : Type} (tc : α)
    (cached : Option CachedTestCase) :
    ∀ (ms : List (Metric α)) (now : ℚ),
    measureMetricsWithIndicator true tc cached ms now = .ok
      (ms.map (asyncMetricFinal tc cached),
       now + (ms.map (metricTime tc cached)).sum) := by
  intro ms
  induction ms with
  | nil =>
    intro now
    simp [measureMetricsWithIndicator]
  | cons m rest ih =>
    intro now
    simp only [measureMetricsWithIndicator]
    cases hhit : metricCacheHit cached m with
    | some md =>
      simp [ih, asyncMetricFinal, metricTime, hhit, add_assoc, add_comm, add_left_comm]
    | none =>
      cases hms : m.measure tc with
      | ok s r su c v e =>
        simp [ih, asyncMetricFinal, metricTime, MeasureOut.timeTaken, hhit, hms,
          add_assoc, add_comm, add_left_comm]
      | raise msg e =>
        simp [ih, asyncMetricFinal, metricTime, MeasureOut.timeTaken, hhit, hms,
          add_assoc, add_comm, add_left_comm]

/-- Characterization of the concurrent post-measure collection loop for a
single-turn unit. -/
theorem asyncCollectMetrics_char :
    ∀ (ms : List (Metric LLMTestCase)) (api : LLMApiTestCase) (nc : CachedTestCase),
    asyncCollectMetrics ms api nc =
      (applyMds api (ms.map create_metric_data),
       { nc with cachedMetricsData := nc.cachedMetricsData ++
           ms.filterMap asyncMetricEntry }) := by
  intro ms
  induction ms with
  | nil =>
    intro api nc
    simp [asyncCollectMetrics, applyMds]
  | cons m rest ih =>
    intro api nc
    simp only [asyncCollectMetrics, ih, applyMds, List.map_cons, List.foldl_cons,
      List.filterMap_cons]
    by_cases he : m.error = none <;>
      simp [he, asyncMetricEntry, List.append_assoc]

/-- Characterization of the concurrent post-measure collection loop for a
conversational unit. -/
theorem asyncCollectConvMetrics_char :
    ∀ (ms : List (Metric ConversationalTestCase)) (api : ConversationalApiTestCase),
    asyncCollectConvMetrics ms api = applyMdsConv api (ms.map create_metric_data) := by
  intro ms
  induction ms with
  | nil =>
    intro api
    simp [asyncCollectConvMetrics, applyMdsConv]
  | cons m rest ih =>
    intro api
    simp [asyncCollectConvMetrics, ih, applyMdsConv]

/-- With `ignore_errors` false, the sequential single-turn metric loop
propagates the first raise and otherwise agrees with the `ignore_errors`
run. -/
theorem syncRunMetrics_false_char (tc : LLMTestCase) (cached : Option CachedTestCase) :
    ∀ (ms : List (Metric LLMTestCase)) (api : LLMApiTestCase)
      (nc : CachedTestCase) (readAll : Bool) (now : ℚ),
    syncRunMetrics false tc cached ms api nc readAll now =
      (match firstRaise tc cached ms with
       | some msg => .error msg
       | none => syncRunMetrics true tc cached ms api nc readAll now) := by
  intro ms
  induction ms with
  | nil =>
    intro api nc readAll now
    simp [syncRunMetrics, firstRaise]
  | cons m rest ih =>
    intro api nc readAll now
    simp only [syncRunMetrics, firstRaise]
    cases hhit : metricCacheHit cached m with
    | some md =>
      simp only [ih]
      cases firstRaise tc cached rest <;> simp
    | none =>
      cases hms : m.measure tc with
      | ok s r su c v e =>
        simp only [ih]
        cases firstRaise tc cached rest <;> simp
      | raise msg e =>
        simp

/-- With `ignore_errors` false, the sequential conversational metric loop
propagates the first raise and otherwise agrees with the `ignore_errors`
run. -/
theorem convRunMetrics_false_char (tc : ConversationalTestCase) :
    ∀ (ms : List (Metric ConversationalTestCase))
      (api : ConversationalApiTestCase) (now : ℚ),
    convRunMetrics false tc ms api now =
      (match firstRaise tc none ms with
       | some msg => .error msg
       | none => convRunMetrics true tc ms api now) := by
  intro ms
  induction ms with
  | nil =>
    intro api now
    simp [convRunMetrics, firstRaise]
  | cons m rest ih =>
    intro api now
    simp only [convRunMetrics, firstRaise, metricCacheHit]
    cases hms : m.measure tc with
    | ok s r su c v e =>
      simp only [ih]
      cases firstRaise tc none rest <;> simp
    | raise msg e =>
      simp

/-- With `ignore_errors` false, the concurrent collaborator propagates the
first raise and otherwise agrees with the `ignore_errors` run. -/
theorem measureMetricsWithIndicator_false_char {α : Type} (tc : α)
    (cached : Option CachedTestCase) :
    ∀ (ms : List (Metric α)) (now : ℚ),
    measureMetricsWithIndicator false tc cached ms now =
      (match firstRaise tc cached ms with
       | some msg => .error msg
       | none => measureMetricsWithIndicator true tc cached ms now) := by
  intro ms
  induction ms with
  | nil =>
    intro now
    simp [measureMetricsWithIndicator, firstRaise]
  | cons m rest ih =>
    intro now
    simp only [measureMetricsWithIndicator, firstRaise]
    cases hhit : metricCacheHit cached m with
    | some md =>
      simp only [hhit, ih]
      cases firstRaise tc cached rest <;> simp
    | none =>
      cases hms : m.measure tc with
      | ok s r su c v e =>
        simp only [hhit, hms, ih]
        cases firstRaise tc cached rest <;> simp
      | raise msg e =>
        simp [hhit, hms]

/-! ### Helper lemmas about the state primitives -/

theorem resetErrors_length {α : Type} (ms : List (Metric α)) :
    (resetErrors ms).length = ms.length :=
  List.length_map _ _

/-- Updating every matching key of an association list makes the value
visible when a matching key was present. -/
theorem assocGet_map_put (l : List ((Nat × Option String) × CachedTestCase))
    (k : Nat × Option String) (v : CachedTestCase)
    (h : l.any (fun kv => decide (kv.1 = k)) = true) :
    assocGet (l.map (fun kv => if kv.1 = k then (k, v) else kv)) k = some v := by
  induction l with
  | nil => simp at h
  | cons kv rest ih =>
    by_cases hk : kv.1 = k
    · simp [assocGet, hk, List.find?_cons_of_pos]
    · have h' : rest.any (fun kv => decide (kv.1 = k)) = true := by
        simpa [List.any_cons, hk] using h
      have := ih h'
      simp only [assocGet] at this ⊢
      rw [List.map_cons, if_neg hk, List.find?_cons_of_neg _ (by simpa using hk)]
      exact this

/-- Appending a fresh key to an association list without a matching key makes
the value visible. -/
theorem assocGet_append_put (l : List ((Nat × Option String) × CachedTestCase))
    (k : Nat × Option String) (v : CachedTestCase)
    (h : l.any (fun kv => decide (kv.1 = k)) = false) :
    assocGet (l ++ [(k, v)]) k = some v := by
  induction l with
  | nil => simp [assocGet, List.find?]
  | cons kv rest ih =>
    have hsplit : (decide (kv.1 = k) = false) ∧ rest.any (fun kv => decide (kv.1 = k)) = false := by
      simpa [List.any_cons, Bool.or_eq_false_iff] using h
    have hk : ¬ kv.1 = k := by simpa using hsplit.1
    have := ih hsplit.2
    simp only [assocGet] at this ⊢
    rw [List.cons_append, List.find?_cons_of_neg _ (by simpa using hk)]
    exact this

/-- A fresh write is immediately visible at its own key. -/
theorem assocGet_assocPut (l : List ((Nat × Option String) × CachedTestCase))
    (k : Nat × Option String) (v : CachedTestCase) :
    assocGet (assocPut l k v) k = some v := by
  unfold assocPut
  by_cases h : l.any (fun kv => decide (kv.1 = k)) = true
  · rw [if_pos h]
    exact assocGet_map_put l k v h
  · rw [if_neg h]
    exact assocGet_append_put l k v (Bool.eq_false_iff.mpr h)

/-- The accumulated success flag of a single-turn record after appending a
list of metric snapshots. -/
def foldSuccess (s : Option Bool) (mds : List MetricData) : Option Bool :=
  mds.foldl (fun s md => some (match s with
    | none => md.success
    | some b => b && md.success)) s

/-- Full characterization of the metric-snapshot fold over a single-turn
record: it only appends the snapshots and folds their success flags. -/
theorem applyMds_eq (api : LLMApiTestCase) (mds : List MetricData) :
    applyMds api mds =
      { api with
        metricsData := api.metricsData ++ mds,
        success := foldSuccess api.success mds } := by
  induction mds generalizing api with
  | nil => simp [applyMds, foldSuccess]
  | cons md rest ih =>
    simp only [applyMds, List.foldl_cons] at ih ⊢
    rw [ih]
    simp [updateMetricDataLLM, foldSuccess, List.append_assoc]

/-- Full characterization of the metric-snapshot fold over a conversational
record. -/
theorem applyMdsConv_eq (api : ConversationalApiTestCase) (mds : List MetricData) :
    applyMdsConv api mds =
      { api with
        metricsData := api.metricsData ++ mds,
        success := api.success && mds.all (fun md => md.success) } := by
  induction mds generalizing api with
  | nil => simp [applyMdsConv]
  | cons md rest ih =>
    simp only [applyMdsConv, List.foldl_cons] at ih ⊢
    rw [ih]
    simp [updateMetricDataConv, List.append_assoc, Bool.and_assoc]

/-! ### Closed forms of the per-unit processing -/

/-- The cache entry consulted by a single-turn unit. -/
def syncUnitCached (uc : Bool) (acc : LoopAcc) (tc : LLMTestCase) :
    Option CachedTestCase :=
  if uc then getCachedTestCase acc.st tc.uid else none

/-- The record the unit starts from and the lookup map after its creation. -/
def unitBase (acc : LoopAcc) (tc : LLMTestCase) :
    LLMApiTestCase × List (Nat × LLMApiTestCase) :=
  create_api_test_case_llm acc.st.lookupMap tc acc.llmCount none none none

/-- Total wall-clock time of a single-turn unit's metric set. -/
def unitTime (uc : Bool) (acc : LoopAcc) (tc : LLMTestCase) : ℚ :=
  ((resetErrors acc.llmMetrics).map (metricTime tc (syncUnitCached uc acc tc))).sum

/-- Whether every metric of a single-turn unit hits the cache. -/
def unitAllCached (uc : Bool) (acc : LoopAcc) (tc : LLMTestCase) : Bool :=
  (resetErrors acc.llmMetrics).all
    (fun m => (metricCacheHit (syncUnitCached uc acc tc) m).isSome)

/-- The sequential strategy's run duration for a single-turn unit: exactly
zero when every metric came from the cache, the measured wall time
otherwise. -/
def syncUnitDur (uc : Bool) (acc : LoopAcc) (tc : LLMTestCase) : ℚ :=
  if unitAllCached uc acc tc then 0 else unitTime uc acc tc

/-- The sequential strategy's finalized record for a single-turn unit. -/
def syncUnitApi (uc : Bool) (acc : LoopAcc) (tc : LLMTestCase) : LLMApiTestCase :=
  { applyMds (unitBase acc tc).1
      ((resetErrors acc.llmMetrics).map (syncMetricMD tc (syncUnitCached uc acc tc))) with
    runDuration := some (syncUnitDur uc acc tc) }

/-- The sequential strategy's accumulated cache entry for a single-turn
unit. -/
def syncUnitEntry (uc : Bool) (acc : LoopAcc) (tc : LLMTestCase) : CachedTestCase :=
  ⟨(resetErrors acc.llmMetrics).filterMap (syncMetricEntry tc (syncUnitCached uc acc tc))⟩

/-- The ambient state after a single-turn unit: record handed to the sink,
entry written to the durable tier (unless globally disabled) and to the
transient tier under the (test case, hyperparameters) key, the identity map
updated through the record alias, the clock advanced. -/
def unitStateAfter (acc : LoopAcc) (tc : LLMTestCase) (api : LLMApiTestCase)
    (entry : CachedTestCase) (dt : ℚ) : EngineState :=
  { acc.st with
    lookupMap := mapWriteback (unitBase acc tc).2 tc.uid api,
    sink := acc.st.sink ++ [ApiRecord.llm api],
    durableCache :=
      if acc.st.disableWriteCache then acc.st.durableCache
      else assocPut acc.st.durableCache (tc.uid, acc.st.hyperparameters) entry,
    transientCache := assocPut acc.st.transientCache (tc.uid, acc.st.hyperparameters) entry,
    now := acc.st.now + dt }

/-- Skipped single-turn unit in the sequential strategy (no single-turn
metric configured): only the error reset happens. -/
theorem syncProcessCase_llm_skip (uc : Bool) (acc : LoopAcc) (tc : LLMTestCase)
    (ig : Bool) (h : acc.llmMetrics = []) :
    syncProcessCase ig uc acc (.llm tc) = .ok
      { acc with llmMetrics := [], convMetrics := resetErrors acc.convMetrics } := by
  simp [syncProcessCase, h, resetErrors]

/-- A processed single-turn unit in the sequential strategy with
`ignore_errors` set, in closed form. -/
theorem syncProcessCase_llm_run (uc : Bool) (acc : LoopAcc) (tc : LLMTestCase)
    (h : acc.llmMetrics ≠ []) :
    syncProcessCase true uc acc (.llm tc) = .ok
      { results := acc.results ++ [create_test_result (.llm (syncUnitApi uc acc tc))],
        llmMetrics := (resetErrors acc.llmMetrics).map
          (syncMetricFinal tc (syncUnitCached uc acc tc)),
        convMetrics := resetErrors acc.convMetrics,
        llmCount := acc.llmCount + 1,
        convCount := acc.convCount,
        st := unitStateAfter acc tc (syncUnitApi uc acc tc)
          (syncUnitEntry uc acc tc) (unitTime uc acc tc) } := by
  have hlen : ¬ (resetErrors acc.llmMetrics).length = 0 := by
    simpa [resetErrors_length, List.length_eq_zero] using h
  simp only [syncProcessCase, if_neg hlen]
  rw [syncRunMetrics_true_char]
  simp only [unitStateAfter, cacheTestCase, syncUnitApi, syncUnitDur, unitAllCached,
    unitTime, syncUnitEntry, syncUnitCached, unitBase, Bool.true_and, add_sub_cancel_left]
  by_cases hd : acc.st.disableWriteCache <;> simp [hd]

/-- The conversational record and post-creation state of a conversational
unit. -/
def convUnitCapi (acc : LoopAcc) (tc : ConversationalTestCase) :
    ConversationalApiTestCase × EngineState :=
  create_api_test_case_conv acc.st tc acc.convCount

/-- Total wall-clock time of a conversational unit's metric set (no
caching). -/
def convUnitTime (tc : ConversationalTestCase)
    (ms : List (Metric ConversationalTestCase)) : ℚ :=
  (ms.map (fun m => (m.measure tc).timeTaken)).sum

/-- The sequential strategy's finalized conversational record. -/
def syncConvUnitApi (acc : LoopAcc) (tc : ConversationalTestCase) :
    ConversationalApiTestCase :=
  let base := applyMdsConv (convUnitCapi acc tc).1
    ((resetErrors acc.convMetrics).map (convMetricMD tc))
  if 0 < (resetErrors acc.convMetrics).length then
    { base with runDuration := convUnitTime tc (resetErrors acc.convMetrics) }
  else base

/-- A processed conversational unit in the sequential strategy with
`ignore_errors` set, in closed form: no result is appended, the record (with
an empty metric list when no conversational metric is configured) is handed to
the sink. -/
theorem syncProcessCase_conv_run (uc : Bool) (acc : LoopAcc)
    (tc : ConversationalTestCase) :
    syncProcessCase true uc acc (.conv tc) = .ok
      { results := acc.results,
        llmMetrics := resetErrors acc.llmMetrics,
        convMetrics := (resetErrors acc.convMetrics).map (convMetricFinal tc),
        llmCount := acc.llmCount,
        convCount := acc.convCount + 1,
        st := { (convUnitCapi acc tc).2 with
          sink := (convUnitCapi acc tc).2.sink ++ [ApiRecord.conv (syncConvUnitApi acc tc)],
          now := (convUnitCapi acc tc).2.now +
            convUnitTime tc (resetErrors acc.convMetrics) } } := by
  simp only [syncProcessCase]
  rw [convRunMetrics_true_char]
  simp only [syncConvUnitApi, convUnitCapi, convUnitTime, add_sub_cancel_left,
    resetErrors_length]
  by_cases hgt : 0 < acc.convMetrics.length <;>
    simp [hgt, resetErrors_length, add_sub_cancel_left]

/-- Skipped single-turn unit in the concurrent strategy: nothing happens at
all (the error reset sits after the skip check there). -/
theorem asyncProcessCase_llm_skip (uc : Bool) (acc : LoopAcc) (tc : LLMTestCase)
    (ig : Bool) (h : acc.llmMetrics = []) :
    asyncProcessCase ig uc acc (.llm tc) = .ok acc := by
  simp [asyncProcessCase, h]

/-- The concurrent strategy's run duration for a single-turn unit: the
measured wall time, zeroed whenever it is below one second (the source's
quick hack for detecting an all-cache-hit unit). -/
def asyncUnitDur (uc : Bool) (acc : LoopAcc) (tc : LLMTestCase) : ℚ :=
  if unitTime uc acc tc < 1 then 0 else unitTime uc acc tc

/-- The concurrent strategy's final metric states for a single-turn unit. -/
def asyncUnitFinals (uc : Bool) (acc : LoopAcc) (tc : LLMTestCase) :
    List (Metric LLMTestCase) :=
  (resetErrors acc.llmMetrics).map (asyncMetricFinal tc (syncUnitCached uc acc tc))

/-- The concurrent strategy's finalized record for a single-turn unit. -/
def asyncUnitApi (uc : Bool) (acc : LoopAcc) (tc : LLMTestCase) : LLMApiTestCase :=
  { applyMds (unitBase acc tc).1 ((asyncUnitFinals uc acc tc).map create_metric_data) with
    runDuration := some (asyncUnitDur uc acc tc) }

/-- The concurrent strategy's accumulated cache entry for a single-turn
unit. -/
def asyncUnitEntry (uc : Bool) (acc : LoopAcc) (tc : LLMTestCase) : CachedTestCase :=
  ⟨(asyncUnitFinals uc acc tc).filterMap asyncMetricEntry⟩

/-- A processed single-turn unit in the concurrent strategy with
`ignore_errors` set, in closed form. -/
theorem asyncProcessCase_llm_run (uc : Bool) (acc : LoopAcc) (tc : LLMTestCase)
    (h : acc.llmMetrics ≠ []) :
    asyncProcessCase true uc acc (.llm tc) = .ok
      { results := acc.results ++ [create_test_result (.llm (asyncUnitApi uc acc tc))],
        llmMetrics := asyncUnitFinals uc acc tc,
        convMetrics := resetErrors acc.convMetrics,
        llmCount := acc.llmCount + 1,
        convCount := acc.convCount,
        st := unitStateAfter acc tc (asyncUnitApi uc acc tc)
          (asyncUnitEntry uc acc tc) (unitTime uc acc tc) } := by
  have hlen : ¬ acc.llmMetrics.length = 0 := by
    simpa [List.length_eq_zero] using h
  simp only [asyncProcessCase, if_neg hlen]
  rw [measureMetricsWithIndicator_true_char]
  simp only [asyncCollectMetrics_char, unitStateAfter, cacheTestCase, asyncUnitApi,
    asyncUnitDur, asyncUnitFinals,
    asyncUnitEntry, unitTime, syncUnitCached, unitBase, add_sub_cancel_left]
  by_cases hd : acc.st.disableWriteCache <;> simp [hd]

/-- The concurrent strategy's finalized conversational record. -/
def asyncConvUnitApi (acc : LoopAcc) (tc : ConversationalTestCase) :
    ConversationalApiTestCase :=
  let base := applyMdsConv (convUnitCapi acc tc).1
    ((acc.convMetrics.map (asyncMetricFinal tc none)).map create_metric_data)
  if 0 < acc.convMetrics.length then
    { base with runDuration := convUnitTime tc acc.convMetrics }
  else base

/-- A processed conversational unit in the concurrent strategy with
`ignore_errors` set, in closed form (no error reset happens in this
branch; the collaborator resets each metric it measures). -/
theorem asyncProcessCase_conv_run (uc : Bool) (acc : LoopAcc)
    (tc : ConversationalTestCase) :
    asyncProcessCase true uc acc (.conv tc) = .ok
      { results := acc.results,
        llmMetrics := acc.llmMetrics,
        convMetrics := acc.convMetrics.map (asyncMetricFinal tc none),
        llmCount := acc.llmCount,
        convCount := acc.convCount + 1,
        st := { (convUnitCapi acc tc).2 with
          sink := (convUnitCapi acc tc).2.sink ++ [ApiRecord.conv (asyncConvUnitApi acc tc)],
          now := (convUnitCapi acc tc).2.now + convUnitTime tc acc.convMetrics } } := by
  simp only [asyncProcessCase]
  rw [measureMetricsWithIndicator_true_char]
  simp only [asyncCollectConvMetrics_char, asyncConvUnitApi, convUnitCapi, convUnitTime,
    add_sub_cancel_left]
  have htime : ∀ ms : List (Metric ConversationalTestCase),
      (ms.map (metricTime tc none)).sum = (ms.map (fun m => (m.measure tc).timeTaken)).sum := by
    intro ms
    rfl
  by_cases hgt : 0 < acc.convMetrics.length <;>
    simp [hgt, htime, add_sub_cancel_left]

/-! ### Shapes of the main loops -/

/-- Whether a sink record is a single-turn record. -/
def ApiRecord.isLLM : ApiRecord → Bool
  | .llm _ => true
  | .conv _ => false

/-- Whether a sink record is a conversational record. -/
def ApiRecord.isConv : ApiRecord → Bool
  | .llm _ => false
  | .conv _ => true

/-- Whether a batch entry is a conversational test case. -/
def TopCase.isConv : TopCase → Bool
  | .llm _ => false
  | .conv _ => true

/-- Inversion: any successful run of the sequential single-turn metric loop
coincides with the `ignore_errors` closed form (with `ignore_errors` false,
success means no metric raised). -/
theorem syncRunMetrics_ok_inv {ig : Bool} {tc : LLMTestCase}
    {cached : Option CachedTestCase} {ms : List (Metric LLMTestCase)}
    {api : LLMApiTestCase} {nc : CachedTestCase} {readAll : Bool} {now : ℚ}
    {out : List (Metric LLMTestCase) × LLMApiTestCase × CachedTestCase × Bool × ℚ}
    (hrun : syncRunMetrics ig tc cached ms api nc readAll now = .ok out) :
    syncRunMetrics true tc cached ms api nc readAll now = .ok out := by
  cases ig
  · rw [syncRunMetrics_false_char] at hrun
    revert hrun
    cases hfr : firstRaise tc cached ms with
    | some msg => intro hrun; cases hrun
    | none => intro hrun; exact hrun
  · exact hrun

/-- Inversion: any successful run of the sequential conversational metric loop
coincides with the `ignore_errors` closed form. -/
theorem convRunMetrics_ok_inv {ig : Bool} {tc : ConversationalTestCase}
    {ms : List (Metric ConversationalTestCase)}
    {api : ConversationalApiTestCase} {now : ℚ}
    {out : List (Metric ConversationalTestCase) × ConversationalApiTestCase × ℚ}
    (hrun : convRunMetrics ig tc ms api now = .ok out) :
    convRunMetrics true tc ms api now = .ok out := by
  cases ig
  · rw [convRunMetrics_false_char] at hrun
    revert hrun
    cases hfr : firstRaise tc none ms with
    | some msg => intro hrun; cases hrun
    | none => intro hrun; exact hrun
  · exact hrun

/-- Inversion: any successful run of the concurrent collaborator coincides
with the `ignore_errors` closed form. -/
theorem measureMetricsWithIndicator_ok_inv {α : Type} {ig : Bool} {tc : α}
    {cached : Option CachedTestCase} {ms : List (Metric α)} {now : ℚ}
    {out : List (Metric α) × ℚ}
    (hrun : measureMetricsWithIndicator ig tc cached ms now = .ok out) :
    measureMetricsWithIndicator true tc cached ms now = .ok out := by
  cases ig
  · rw [measureMetricsWithIndicator_false_char] at hrun
    revert hrun
    cases hfr : firstRaise tc cached ms with
    | some msg => intro hrun; cases hrun
    | none => intro hrun; exact hrun
  · exact hrun

/-- Everything a successful sequential loop iteration can do to the results
and the sink: nothing (skipped single-turn unit), one single-turn record plus
its returned result, or one conversational record with no returned result
(with an empty metric list when no conversational metric is configured).  The
metric partitions keep their lengths. -/
theorem syncProcessCase_ok_shape (ig uc : Bool) (acc : LoopAcc) (c : TopCase)
    (acc' : LoopAcc) (h : syncProcessCase ig uc acc c = .ok acc') :
    acc'.llmMetrics.length = acc.llmMetrics.length ∧
    acc'.convMetrics.length = acc.convMetrics.length ∧
    ((∃ tc, c = .llm tc ∧ acc.llmMetrics = [] ∧ acc'.results = acc.results ∧
        acc'.st.sink = acc.st.sink) ∨
     (∃ tc api, c = .llm tc ∧ acc.llmMetrics ≠ [] ∧
        acc'.results = acc.results ++ [create_test_result (.llm api)] ∧
        acc'.st.sink = acc.st.sink ++ [ApiRecord.llm api]) ∨
     (∃ tc api, c = .conv tc ∧ acc'.results = acc.results ∧
        acc'.st.sink = acc.st.sink ++ [ApiRecord.conv api] ∧
        (acc.convMetrics = [] → api.metricsData = []))) := by
  cases c with
  | llm tc =>
    by_cases hz : (resetErrors acc.llmMetrics).length = 0
    · have hz' : acc.llmMetrics = [] := by
        rwa [resetErrors_length, List.length_eq_zero] at hz
      rw [syncProcessCase_llm_skip uc acc tc ig hz'] at h
      cases h
      refine ⟨by simp [hz'], by simp [resetErrors], .inl ⟨tc, rfl, hz', rfl, rfl⟩⟩
    · have hne : acc.llmMetrics ≠ [] := by
        intro hEq
        exact hz (by simp [hEq, resetErrors])
      simp only [syncProcessCase, if_neg hz] at h
      cases hrun : syncRunMetrics ig tc
          (if uc = true then getCachedTestCase acc.st tc.uid else none)
          (resetErrors acc.llmMetrics)
          (create_api_test_case_llm acc.st.lookupMap tc acc.llmCount none none none).1
          ⟨[]⟩ true acc.st.now with
      | error msg => rw [hrun] at h; cases h
      | ok out =>
        rw [hrun] at h
        have hrun' := syncRunMetrics_ok_inv hrun
        rw [syncRunMetrics_true_char] at hrun'
        obtain ⟨ms', api', nc', readAll', endT⟩ := out
        cases h
        simp only [Except.ok.injEq, Prod.mk.injEq] at hrun'
        obtain ⟨hms, -⟩ := hrun'
        refine ⟨?_, by simp [resetErrors], ?_⟩
        · rw [← hms]
          simp [resetErrors]
        · refine .inr (.inl ⟨tc,
            { api' with runDuration := some (if readAll' = true then 0 else endT - acc.st.now) },
            rfl, hne, rfl, ?_⟩)
          simp
  | conv tc =>
    simp only [syncProcessCase] at h
    cases hrun : convRunMetrics ig tc (resetErrors acc.convMetrics)
        (create_api_test_case_conv acc.st tc acc.convCount).1
        (create_api_test_case_conv acc.st tc acc.convCount).2.now with
    | error msg => rw [hrun] at h; cases h
    | ok out =>
      rw [hrun] at h
      have hrun' := convRunMetrics_ok_inv hrun
      rw [convRunMetrics_true_char] at hrun'
      obtain ⟨ms', api', endT⟩ := out
      cases h
      simp only [Except.ok.injEq, Prod.mk.injEq] at hrun'
      obtain ⟨hms, hapi, -⟩ := hrun'
      refine ⟨by simp [resetErrors], ?_, ?_⟩
      · rw [← hms]
        simp [resetErrors]
      refine .inr (.inr ⟨tc, _, rfl, rfl, rfl, ?_⟩)
      intro hcm
      have hms0 : ms' = [] := by
        rw [← hms]
        simp [hcm, resetErrors]
      subst hms0
      simp [← hapi, hcm, resetErrors, applyMdsConv, create_api_test_case_conv]

/-- Everything a successful concurrent loop iteration can do to the results
and the sink (the single-turn skip leaves the accumulator untouched
entirely). -/
theorem asyncProcessCase_ok_shape (ig uc : Bool) (acc : LoopAcc) (c : TopCase)
    (acc' : LoopAcc) (h : asyncProcessCase ig uc acc c = .ok acc') :
    acc'.llmMetrics.length = acc.llmMetrics.length ∧
    acc'.convMetrics.length = acc.convMetrics.length ∧
    ((∃ tc, c = .llm tc ∧ acc.llmMetrics = [] ∧ acc'.results = acc.results ∧
        acc'.st.sink = acc.st.sink) ∨
     (∃ tc api, c = .llm tc ∧ acc.llmMetrics ≠ [] ∧
        acc'.results = acc.results ++ [create_test_result (.llm api)] ∧
        acc'.st.sink = acc.st.sink ++ [ApiRecord.llm api]) ∨
     (∃ tc api, c = .conv tc ∧ acc'.results = acc.results ∧
        acc'.st.sink = acc.st.sink ++ [ApiRecord.conv api] ∧
        (acc.convMetrics = [] → api.metricsData = []))) := by
  cases c with
  | llm tc =>
    by_cases hz : acc.llmMetrics.length = 0
    · have hz' : acc.llmMetrics = [] := List.length_eq_zero.mp hz
      rw [asyncProcessCase_llm_skip uc acc tc ig hz'] at h
      cases h
      exact ⟨rfl, rfl, .inl ⟨tc, rfl, hz', rfl, rfl⟩⟩
    · have hne : acc.llmMetrics ≠ [] := by
        intro hEq
        exact hz (by simp [hEq])
      simp only [asyncProcessCase, if_neg hz] at h
      cases hrun : measureMetricsWithIndicator ig tc
          (if uc = true then getCachedTestCase acc.st tc.uid else none)
          (resetErrors acc.llmMetrics) acc.st.now with
      | error msg => rw [hrun] at h; cases h
      | ok out =>
        rw [hrun] at h
        have hrun' := measureMetricsWithIndicator_ok_inv hrun
        rw [measureMetricsWithIndicator_true_char] at hrun'
        obtain ⟨ms', endT⟩ := out
        cases h
        simp only [Except.ok.injEq, Prod.mk.injEq] at hrun'
        obtain ⟨hms, -⟩ := hrun'
        refine ⟨?_, by simp [resetErrors], ?_⟩
        · rw [← hms]
          simp [resetErrors]
        · refine .inr (.inl ⟨tc, _, rfl, hne, rfl, ?_⟩)
          simp
  | conv tc =>
    simp only [asyncProcessCase] at h
    cases hrun : measureMetricsWithIndicator ig tc none acc.convMetrics
        (create_api_test_case_conv acc.st tc acc.convCount).2.now with
    | error msg => rw [hrun] at h; cases h
    | ok out =>
      rw [hrun] at h
      have hrun' := measureMetricsWithIndicator_ok_inv hrun
      rw [measureMetricsWithIndicator_true_char] at hrun'
      obtain ⟨ms', endT⟩ := out
      cases h
      simp only [Except.ok.injEq, Prod.mk.injEq] at hrun'
      obtain ⟨hms, -⟩ := hrun'
      refine ⟨rfl, ?_, ?_⟩
      · rw [← hms]
        simp
      refine .inr (.inr ⟨tc, _, rfl, rfl, rfl, ?_⟩)
      intro hcm
      have hms0 : ms' = [] := by
        rw [← hms]
        simp [hcm]
      subst hms0
      simp [asyncCollectConvMetrics, create_api_test_case_conv]

/-- Cumulative shape of a successful sequential main loop: the lengths of the
metric partitions are preserved, results and sink only grow, every returned
result corresponds to exactly one single-turn sink record, nothing is emitted
for single-turn units when no single-turn metric is configured, and
conversational units always emit exactly one conversational record each —
with an empty metric list when no conversational metric is configured. -/
theorem syncExecLoop_ok_shape (ig uc : Bool) :
    ∀ (cases : List TopCase) (acc acc' : LoopAcc),
    syncExecLoop ig uc cases acc = .ok acc' →
    acc'.llmMetrics.length = acc.llmMetrics.length ∧
    acc'.convMetrics.length = acc.convMetrics.length ∧
    ∃ rext sext,
      acc'.results = acc.results ++ rext ∧
      acc'.st.sink = acc.st.sink ++ sext ∧
      rext.length = (sext.filter ApiRecord.isLLM).length ∧
      (acc.llmMetrics = [] → rext = [] ∧ ∀ r ∈ sext, r.isConv = true) ∧
      (acc.convMetrics = [] →
        (∀ cr : ConversationalApiTestCase, ApiRecord.conv cr ∈ sext →
          cr.metricsData = []) ∧
        (sext.filter ApiRecord.isConv).length = (cases.filter TopCase.isConv).length) := by
  intro cases
  induction cases with
  | nil =>
    intro acc acc' h
    simp only [syncExecLoop] at h
    cases h
    exact ⟨rfl, rfl, [], [], by simp, by simp, rfl, fun _ => ⟨rfl, by simp⟩,
      fun _ => ⟨by simp, by simp⟩⟩
  | cons c rest ih =>
    intro acc acc' h
    simp only [syncExecLoop] at h
    cases hstep : syncProcessCase ig uc acc c with
    | error msg => rw [hstep] at h; cases h
    | ok acc₁ =>
      rw [hstep] at h
      obtain ⟨hl1, hc1, hshape⟩ := syncProcessCase_ok_shape ig uc acc c acc₁ hstep
      obtain ⟨hl2, hc2, rext, sext, hr, hs, hcount, hllm, hconv⟩ := ih acc₁ acc' h
      refine ⟨hl2.trans hl1, hc2.trans hc1, ?_⟩
      rcases hshape with ⟨tc, hc, hz, hres, hsink⟩ | ⟨tc, api, hc, hne, hres, hsink⟩ |
        ⟨tc, api, hc, hres, hsink, hmds⟩
      · refine ⟨rext, sext, by rw [hr, hres], by rw [hs, hsink], hcount, ?_, ?_⟩
        · intro hz2
          exact hllm (by rwa [← List.length_eq_zero, ← hl1, List.length_eq_zero] at hz2)
        · intro hz2
          have hcm1 : acc₁.convMetrics = [] := by
            rwa [← List.length_eq_zero, ← hc1, List.length_eq_zero] at hz2
          obtain ⟨hmem, hcnt⟩ := hconv hcm1
          exact ⟨hmem, by simpa [hc, TopCase.isConv] using hcnt⟩
      · refine ⟨create_test_result (.llm api) :: rext, ApiRecord.llm api :: sext, ?_, ?_, ?_, ?_, ?_⟩
        · rw [hr, hres]; simp
        · rw [hs, hsink]; simp
        · simp [List.filter, ApiRecord.isLLM, hcount]
        · intro hz2
          exact absurd hz2 hne
        · intro hz2
          have hcm1 : acc₁.convMetrics = [] := by
            rwa [← List.length_eq_zero, ← hc1, List.length_eq_zero] at hz2
          obtain ⟨hmem, hcnt⟩ := hconv hcm1
          refine ⟨?_, ?_⟩
          · intro cr hcr
            simp only [List.mem_cons] at hcr
            rcases hcr with hcr | hcr
            · cases hcr
            · exact hmem cr hcr
          · simpa [hc, List.filter, ApiRecord.isConv, TopCase.isConv] using hcnt
      · refine ⟨rext, ApiRecord.conv api :: sext, by rw [hr, hres], ?_, ?_, ?_, ?_⟩
        · rw [hs, hsink]; simp
        · simp [List.filter, ApiRecord.isLLM, hcount]
        · intro hz2
          have hz1 : acc₁.llmMetrics = [] := by
            rwa [← List.length_eq_zero, ← hl1, List.length_eq_zero] at hz2
          obtain ⟨hr0, hall⟩ := hllm hz1
          refine ⟨hr0, ?_⟩
          intro r h316
          simp only [List.mem_cons] at h316
          rcases h316 with h316 | h316
          · subst h316; rfl
          · exact hall r h316
        · intro hz2
          have hcm0 : acc.convMetrics = [] := hz2
          have hcm1 : acc₁.convMetrics = [] := by
            rwa [← List.length_eq_zero, ← hc1, List.length_eq_zero] at hz2
          obtain ⟨hmem, hcnt⟩ := hconv hcm1
          refine ⟨?_, ?_⟩
          · intro cr hcr
            simp only [List.mem_cons] at hcr
            rcases hcr with hcr | hcr
            · cases hcr
              exact hmds hcm0
            · exact hmem cr hcr
          · simp [hc, List.filter, ApiRecord.isConv, TopCase.isConv, hcnt]

/-- Cumulative shape of a successful concurrent main loop. -/
theorem asyncExecLoop_ok_shape (ig uc : Bool) :
    ∀ (cases : List TopCase) (acc acc' : LoopAcc),
    asyncExecLoop ig uc cases acc = .ok acc' →
    acc'.llmMetrics.length = acc.llmMetrics.length ∧
    acc'.convMetrics.length = acc.convMetrics.length ∧
    ∃ rext sext,
      acc'.results = acc.results ++ rext ∧
      acc'.st.sink = acc.st.sink ++ sext ∧
      rext.length = (sext.filter ApiRecord.isLLM).length ∧
      (acc.llmMetrics = [] → rext = [] ∧ ∀ r ∈ sext, r.isConv = true) ∧
      (acc.convMetrics = [] →
        (∀ cr : ConversationalApiTestCase, ApiRecord.conv cr ∈ sext →
          cr.metricsData = []) ∧
        (sext.filter ApiRecord.isConv).length = (cases.filter TopCase.isConv).length) := by
  intro cases
  induction cases with
  | nil =>
    intro acc acc' h
    simp only [asyncExecLoop] at h
    cases h
    exact ⟨rfl, rfl, [], [], by simp, by simp, rfl, fun _ => ⟨rfl, by simp⟩,
      fun _ => ⟨by simp, by simp⟩⟩
  | cons c rest ih =>
    intro acc acc' h
    simp only [asyncExecLoop] at h
    cases hstep : asyncProcessCase ig uc acc c with
    | error msg => rw [hstep] at h; cases h
    | ok acc₁ =>
      rw [hstep] at h
      obtain ⟨hl1, hc1, hshape⟩ := asyncProcessCase_ok_shape ig uc acc c acc₁ hstep
      obtain ⟨hl2, hc2, rext, sext, hr, hs, hcount, hllm, hconv⟩ := ih acc₁ acc' h
      refine ⟨hl2.trans hl1, hc2.trans hc1, ?_⟩
      rcases hshape with ⟨tc, hc, hz, hres, hsink⟩ | ⟨tc, api, hc, hne, hres, hsink⟩ |
        ⟨tc, api, hc, hres, hsink, hmds⟩
      · refine ⟨rext, sext, by rw [hr, hres], by rw [hs, hsink], hcount, ?_, ?_⟩
        · intro hz2
          exact hllm (by rwa [← List.length_eq_zero, ← hl1, List.length_eq_zero] at hz2)
        · intro hz2
          have hcm1 : acc₁.convMetrics = [] := by
            rwa [← List.length_eq_zero, ← hc1, List.length_eq_zero] at hz2
          obtain ⟨hmem, hcnt⟩ := hconv hcm1
          exact ⟨hmem, by simpa [hc, TopCase.isConv] using hcnt⟩
      · refine ⟨create_test_result (.llm api) :: rext, ApiRecord.llm api :: sext, ?_, ?_, ?_, ?_, ?_⟩
        · rw [hr, hres]; simp
        · rw [hs, hsink]; simp
        · simp [List.filter, ApiRecord.isLLM, hcount]
        · intro hz2
          exact absurd hz2 hne
        · intro hz2
          have hcm1 : acc₁.convMetrics = [] := by
            rwa [← List.length_eq_zero, ← hc1, List.length_eq_zero] at hz2
          obtain ⟨hmem, hcnt⟩ := hconv hcm1
          refine ⟨?_, ?_⟩
          · intro cr hcr
            simp only [List.mem_cons] at hcr
            rcases hcr with hcr | hcr
            · cases hcr
            · exact hmem cr hcr
          · simpa [hc, List.filter, ApiRecord.isConv, TopCase.isConv] using hcnt
      · refine ⟨rext, ApiRecord.conv api :: sext, by rw [hr, hres], ?_, ?_, ?_, ?_⟩
        · rw [hs, hsink]; simp
        · simp [List.filter, ApiRecord.isLLM, hcount]
        · intro hz2
          have hz1 : acc₁.llmMetrics = [] := by
            rwa [← List.length_eq_zero, ← hl1, List.length_eq_zero] at hz2
          obtain ⟨hr0, hall⟩ := hllm hz1
          refine ⟨hr0, ?_⟩
          intro r h316
          simp only [List.mem_cons] at h316
          rcases h316 with h316 | h316
          · subst h316; rfl
          · exact hall r h316
        · intro hz2
          have hcm0 : acc.convMetrics = [] := hz2
          have hcm1 : acc₁.convMetrics = [] := by
            rwa [← List.length_eq_zero, ← hc1, List.length_eq_zero] at hz2
          obtain ⟨hmem, hcnt⟩ := hconv hcm1
          refine ⟨?_, ?_⟩
          · intro cr hcr
            simp only [List.mem_cons] at hcr
            rcases hcr with hcr | hcr
            · cases hcr
              exact hmds hcm0
            · exact hmem cr hcr
          · simp [hc, List.filter, ApiRecord.isConv, TopCase.isConv, hcnt]

/-- The verbose-mode override does not change how many single-turn metrics are
configured. -/
theorem llmMetricsOf_setVerboseModes_length (vb : Option Bool)
    (metrics : List AnyMetric) :
    (llmMetricsOf (setVerboseModes vb metrics)).length = (llmMetricsOf metrics).length := by
  cases vb with
  | none => rfl
  | some b =>
    induction metrics with
    | nil => rfl
    | cons m rest ih =>
      cases m <;> simp [setVerboseModes, llmMetricsOf, List.filterMap_cons] at ih ⊢ <;>
        simpa [setVerboseModes] using ih

/-- The verbose-mode override does not change how many conversational metrics
are configured. -/
theorem convMetricsOf_setVerboseModes_length (vb : Option Bool)
    (metrics : List AnyMetric) :
    (convMetricsOf (setVerboseModes vb metrics)).length = (convMetricsOf metrics).length := by
  cases vb with
  | none => rfl
  | some b =>
    induction metrics with
    | nil => rfl
    | cons m rest ih =>
      cases m <;> simp [setVerboseModes, convMetricsOf, List.filterMap_cons] at ih ⊢ <;>
        simpa [setVerboseModes] using ih

/-- Flattening appends only single-turn entries, so it has the conversational
entries of the original batch. -/
theorem flattenTestCases_filter_conv (cases : List TopCase) :
    (flattenTestCases cases).filter TopCase.isConv = cases.filter TopCase.isConv := by
  unfold flattenTestCases
  rw [List.filter_append]
  have : ((cases.map convContribution).flatten).filter TopCase.isConv = [] := by
    rw [List.filter_eq_nil]
    intro c hc
    simp only [List.mem_flatten, List.mem_map] at hc
    obtain ⟨l, ⟨c₀, _, hl⟩, hcl⟩ := hc
    subst hl
    cases c₀ with
    | llm tc => simp [convContribution] at hcl
    | conv tc =>
      simp only [convContribution, List.mem_map] at hcl
      obtain ⟨msg, _, hmsg⟩ := hcl
      subst hmsg
      simp [TopCase.isConv]
  rw [this, List.append_nil]

/-- Shape of a successful sequential batch execution. -/
theorem execute_test_cases_ok_shape (cases : List TopCase)
    (metrics : List AnyMetric) (ig uc sd : Bool) (vb : Option Bool)
    (st : EngineState) (out : ExecOut)
    (h : execute_test_cases cases metrics ig uc sd vb st = .ok out) :
    out.finalTestCases = flattenTestCases cases ∧
    ∃ sext, out.st.sink = st.sink ++ sext ∧
      out.results.length = (sext.filter ApiRecord.isLLM).length ∧
      (llmMetricsOf metrics = [] → out.results = [] ∧ ∀ r ∈ sext, r.isConv = true) ∧
      (convMetricsOf metrics = [] →
        (∀ cr : ConversationalApiTestCase, ApiRecord.conv cr ∈ sext →
          cr.metricsData = []) ∧
        (sext.filter ApiRecord.isConv).length = (cases.filter TopCase.isConv).length) := by
  simp only [execute_test_cases] at h
  cases hloop : syncExecLoop ig uc (flattenTestCases cases)
      ⟨[], llmMetricsOf (setVerboseModes vb metrics),
        convMetricsOf (setVerboseModes vb metrics), 0, 0,
        { { st with disableWriteCache := sd = false } with lookupMap := [] }⟩ with
  | error msg => rw [hloop] at h; cases h
  | ok acc =>
    rw [hloop] at h
    cases h
    obtain ⟨-, -, rext, sext, hr, hs, hcount, hllm, hconv⟩ :=
      syncExecLoop_ok_shape ig uc (flattenTestCases cases) _ acc hloop
    refine ⟨rfl, sext, by simpa using hs, ?_, ?_, ?_⟩
    · simp only [hr, List.nil_append]
      exact hcount
    · intro hz
      have hz' : llmMetricsOf (setVerboseModes vb metrics) = [] := by
        rw [← List.length_eq_zero, llmMetricsOf_setVerboseModes_length, List.length_eq_zero]
        exact hz
      obtain ⟨h1, h2⟩ := hllm hz'
      exact ⟨by simp [hr, h1], h2⟩
    · intro hz
      have hz' : convMetricsOf (setVerboseModes vb metrics) = [] := by
        rw [← List.length_eq_zero, convMetricsOf_setVerboseModes_length, List.length_eq_zero]
        exact hz
      obtain ⟨h1, h2⟩ := hconv hz'
      exact ⟨h1, by rwa [flattenTestCases_filter_conv] at h2⟩

/-- Shape of a successful concurrent batch execution. -/
theorem a_execute_test_cases_ok_shape (cases : List TopCase)
    (metrics : List AnyMetric) (ig uc sd : Bool) (vb : Option Bool)
    (st : EngineState) (out : ExecOut)
    (h : a_execute_test_cases cases metrics ig uc sd vb st = .ok out) :
    out.finalTestCases = flattenTestCases cases ∧
    ∃ sext, out.st.sink = st.sink ++ sext ∧
      out.results.length = (sext.filter ApiRecord.isLLM).length ∧
      (llmMetricsOf metrics = [] → out.results = [] ∧ ∀ r ∈ sext, r.isConv = true) ∧
      (convMetricsOf metrics = [] →
        (∀ cr : ConversationalApiTestCase, ApiRecord.conv cr ∈ sext →
          cr.metricsData = []) ∧
        (sext.filter ApiRecord.isConv).length = (cases.filter TopCase.isConv).length) := by
  simp only [a_execute_test_cases] at h
  cases hloop : asyncExecLoop ig uc (flattenTestCases cases)
      ⟨[], llmMetricsOf (setVerboseModes vb metrics),
        convMetricsOf (setVerboseModes vb metrics), 0, 0,
        { { st with disableWriteCache := sd = false } with lookupMap := [] }⟩ with
  | error msg => rw [hloop] at h; cases h
  | ok acc =>
    rw [hloop] at h
    cases h
    obtain ⟨-, -, rext, sext, hr, hs, hcount, hllm, hconv⟩ :=
      asyncExecLoop_ok_shape ig uc (flattenTestCases cases) _ acc hloop
    refine ⟨rfl, sext, by simpa using hs, ?_, ?_, ?_⟩
    · simp only [hr, List.nil_append]
      exact hcount
    · intro hz
      have hz' : llmMetricsOf (setVerboseModes vb metrics) = [] := by
        rw [← List.length_eq_zero, llmMetricsOf_setVerboseModes_length, List.length_eq_zero]
        exact hz
      obtain ⟨h1, h2⟩ := hllm hz'
      exact ⟨by simp [hr, h1], h2⟩
    · intro hz
      have hz' : convMetricsOf (setVerboseModes vb metrics) = [] := by
        rw [← List.length_eq_zero, convMetricsOf_setVerboseModes_length, List.length_eq_zero]
        exact hz
      obtain ⟨h1, h2⟩ := hconv hz'
      exact ⟨h1, by rwa [flattenTestCases_filter_conv] at h2⟩

/-- With `ignore_errors` set, a sequential loop iteration never raises. -/
theorem syncProcessCase_true_ok (uc : Bool) (acc : LoopAcc) (c : TopCase) :
    ∃ acc', syncProcessCase true uc acc c = .ok acc' := by
  cases c with
  | llm tc =>
    by_cases hz : acc.llmMetrics = []
    · exact ⟨_, syncProcessCase_llm_skip uc acc tc true hz⟩
    · exact ⟨_, syncProcessCase_llm_run uc acc tc hz⟩
  | conv tc => exact ⟨_, syncProcessCase_conv_run uc acc tc⟩

/-- With `ignore_errors` set, the sequential main loop never raises. -/
theorem syncExecLoop_true_ok (uc : Bool) :
    ∀ (cases : List TopCase) (acc : LoopAcc),
    ∃ acc', syncExecLoop true uc cases acc = .ok acc' := by
  intro cases
  induction cases with
  | nil => intro acc; exact ⟨acc, rfl⟩
  | cons c rest ih =>
    intro acc
    obtain ⟨acc₁, h₁⟩ := syncProcessCase_true_ok uc acc c
    obtain ⟨acc', h'⟩ := ih acc₁
    exact ⟨acc', by simp [syncExecLoop, h₁, h']⟩

/-- With `ignore_errors` set, a concurrent loop iteration never raises. -/
theorem asyncProcessCase_true_ok (uc : Bool) (acc : LoopAcc) (c : TopCase) :
    ∃ acc', asyncProcessCase true uc acc c = .ok acc' := by
  cases c with
  | llm tc =>
    by_cases hz : acc.llmMetrics = []
    · exact ⟨_, asyncProcessCase_llm_skip uc acc tc true hz⟩
    · exact ⟨_, asyncProcessCase_llm_run uc acc tc hz⟩
  | conv tc => exact ⟨_, asyncProcessCase_conv_run uc acc tc⟩

/-- With `ignore_errors` set, the concurrent main loop never raises. -/
theorem asyncExecLoop_true_ok (uc : Bool) :
    ∀ (cases : List TopCase) (acc : LoopAcc),
    ∃ acc', asyncExecLoop true uc cases acc = .ok acc' := by
  intro cases
  induction cases with
  | nil => intro acc; exact ⟨acc, rfl⟩
  | cons c rest ih =>
    intro acc
    obtain ⟨acc₁, h₁⟩ := asyncProcessCase_true_ok uc acc c
    obtain ⟨acc', h'⟩ := ih acc₁
    exact ⟨acc', by simp [asyncExecLoop, h₁, h']⟩

/-- With `ignore_errors` set, the sequential strategy never raises. -/
theorem execute_test_cases_true_ok (cases : List TopCase)
    (metrics : List AnyMetric) (uc sd : Bool) (vb : Option Bool)
    (st : EngineState) :
    ∃ out, execute_test_cases cases metrics true uc sd vb st = .ok out := by
  simp only [execute_test_cases]
  obtain ⟨acc', h⟩ := syncExecLoop_true_ok uc (flattenTestCases cases)
    ⟨[], llmMetricsOf (setVerboseModes vb metrics),
      convMetricsOf (setVerboseModes vb metrics), 0, 0,
      { { st with disableWriteCache := sd = false } with lookupMap := [] }⟩
  rw [h]
  exact ⟨_, rfl⟩

/-- With `ignore_errors` set, the concurrent strategy never raises. -/
theorem a_execute_test_cases_true_ok (cases : List TopCase)
    (metrics : List AnyMetric) (uc sd : Bool) (vb : Option Bool)
    (st : EngineState) :
    ∃ out, a_execute_test_cases cases metrics true uc sd vb st = .ok out := by
  simp only [a_execute_test_cases]
  obtain ⟨acc', h⟩ := asyncExecLoop_true_ok uc (flattenTestCases cases)
    ⟨[], llmMetricsOf (setVerboseModes vb metrics),
      convMetricsOf (setVerboseModes vb metrics), 0, 0,
      { { st with disableWriteCache := sd = false } with lookupMap := [] }⟩
  rw [h]
  exact ⟨_, rfl⟩

/-! ### Concrete fixtures used by witnesses and counterexamples -/

/-- An empty initial engine state. -/
def wSt : EngineState :=
  { lookupMap := [], durableCache := [], transientCache := [],
    disableWriteCache := false, hyperparameters := some "hyper", sink := [],
    now := 0, nextInstanceId := 1 }

/-- A concrete single-turn test case. -/
def wTc (n : Nat) : LLMTestCase :=
  { uid := n, input := "in" ++ toString n, actualOutput := "out" ++ toString n }

/-- A concrete should-evaluate conversational message. -/
def wMsg (n : Nat) : ConvMessage :=
  { shouldEvaluate := true, llmTestCase := wTc n }

/-- A concrete two-message conversational test case. -/
def wConv2 : ConversationalTestCase :=
  { messages := [wMsg 101, wMsg 102], additionalMetadata := some "meta",
    comments := some "cm" }

/-- A concrete three-message conversational test case. -/
def wConv3 : ConversationalTestCase :=
  { messages := [wMsg 201, wMsg 202, wMsg 203], additionalMetadata := some "meta3",
    comments := some "cm3" }

/-- A concrete single-turn metric that succeeds on every test case, taking two
seconds. -/
def wMetricOk : Metric LLMTestCase :=
  { name := "ok-metric", threshold := 1/2, strictMode := false,
    evaluationModel := some "model-x",
    measure := fun _ => .ok (some (4/5)) (some "fine") true (some (1/100)) none 2 }

/-- A concrete single-turn metric whose `measure` raises. -/
def wMetricBoom : Metric LLMTestCase :=
  { name := "boom-metric", threshold := 7/10, strictMode := true,
    evaluationModel := none, evaluationCost := some 3,
    verboseLogs := some "stale",
    measure := fun _ => .raise "boom" 1 }

/-- A concrete single-turn metric that succeeds only on uid 101, taking half a
second. -/
def wMetricDisc : Metric LLMTestCase :=
  { name := "disc-metric", threshold := 1/2, strictMode := false,
    evaluationModel := none,
    measure := fun tc =>
      if tc.uid = 101 then .ok (some 1) none true none none (1/2)
      else .ok (some 0) none false none none (1/2) }

/-- Claim C6: a single-turn unit is skipped entirely (no record emitted) when
no single-turn metric is configured, while a conversational unit still emits a
record — with an empty metric list — to the run-record sink when no
conversational metric is configured. -/
theorem claim_C6 :
    (∀ (cases : List TopCase) (metrics : List AnyMetric) (ig uc sd : Bool)
       (vb : Option Bool) (st : EngineState),
      llmMetricsOf metrics = [] →
      match execute_test_cases cases metrics ig uc sd vb st with
      | .ok out => out.results = [] ∧ ∃ sext, out.st.sink = st.sink ++ sext ∧
          ∀ r ∈ sext, r.isConv = true
      | .error _ => True) ∧
    (∀ (cases : List TopCase) (metrics : List AnyMetric) (ig uc sd : Bool)
       (vb : Option Bool) (st : EngineState),
      convMetricsOf metrics = [] →
      match execute_test_cases cases metrics ig uc sd vb st with
      | .ok out => ∃ sext, out.st.sink = st.sink ++ sext ∧
          (∀ cr : ConversationalApiTestCase, ApiRecord.conv cr ∈ sext →
            cr.metricsData = []) ∧
          (sext.filter ApiRecord.isConv).length = (cases.filter TopCase.isConv).length
      | .error _ => True) := by
  constructor
  · intro cases metrics ig uc sd vb st hz
    cases hexec : execute_test_cases cases metrics ig uc sd vb st with
    | error msg => trivial
    | ok out =>
      obtain ⟨-, sext, hs, -, hllm, -⟩ :=
        execute_test_cases_ok_shape cases metrics ig uc sd vb st out hexec
      obtain ⟨h1, h2⟩ := hllm hz
      exact ⟨h1, sext, hs, h2⟩
  · intro cases metrics ig uc sd vb st hz
    cases hexec : execute_test_cases cases metrics ig uc sd vb st with
    | error msg => trivial
    | ok out =>
      obtain ⟨-, sext, hs, -, -, hconv⟩ :=
        execute_test_cases_ok_shape cases metrics ig uc sd vb st out hexec
      obtain ⟨h1, h2⟩ := hconv hz
      exact ⟨sext, hs, h1, h2⟩

/-- Witness for claim C6 at a concrete batch with no metrics at all. -/
theorem claim_C6_witness :
    llmMetricsOf ([] : List AnyMetric) = [] ∧
    convMetricsOf ([] : List AnyMetric) = [] ∧
    (match execute_test_cases [TopCase.conv wConv2, TopCase.llm (wTc 1)] []
        true false true none wSt with
     | .ok out => out.results = [] ∧ ∃ sext, out.st.sink = wSt.sink ++ sext ∧
         ∀ r ∈ sext, r.isConv = true
     | .error _ => True) ∧
    (match execute_test_cases [TopCase.conv wConv2, TopCase.llm (wTc 1)] []
        true false true none wSt with
     | .ok out => ∃ sext, out.st.sink = wSt.sink ++ sext ∧
         (∀ cr : ConversationalApiTestCase, ApiRecord.conv cr ∈ sext →
           cr.metricsData = []) ∧
         (sext.filter ApiRecord.isConv).length =
           ([TopCase.conv wConv2, TopCase.llm (wTc 1)].filter TopCase.isConv).length
     | .error _ => True) :=
  ⟨rfl, rfl,
   claim_C6.1 [TopCase.conv wConv2, TopCase.llm (wTc 1)] [] true false true none wSt rfl,
   claim_C6.2 [TopCase.conv wConv2, TopCase.llm (wTc 1)] [] true false true none wSt rfl⟩

/-- Claim C9: both strategies mutate the caller-supplied `test_cases` list in
place, appending every should-evaluate message of every conversational entry
to its end; when such a message exists the list returned to the caller is
strictly longer than the one supplied. -/
theorem claim_C9 :
    (∀ (cases : List TopCase) (metrics : List AnyMetric) (ig uc sd : Bool)
       (vb : Option Bool) (st : EngineState),
      match execute_test_cases cases metrics ig uc sd vb st with
      | .ok out => out.finalTestCases = flattenTestCases cases
      | .error _ => True) ∧
    (∀ (cases : List TopCase) (metrics : List AnyMetric) (ig uc sd : Bool)
       (vb : Option Bool) (st : EngineState),
      match a_execute_test_cases cases metrics ig uc sd vb st with
      | .ok out => out.finalTestCases = flattenTestCases cases
      | .error _ => True) ∧
    (∀ cases : List TopCase,
      flattenTestCases cases = cases ++ (cases.map convContribution).flatten) ∧
    (∀ (cases : List TopCase) (t : ConversationalTestCase) (msg : ConvMessage),
      TopCase.conv t ∈ cases → msg ∈ t.messages → msg.shouldEvaluate = true →
      cases.length < (flattenTestCases cases).length) := by
  refine ⟨?_, ?_, fun cases => rfl, ?_⟩
  · intro cases metrics ig uc sd vb st
    cases hexec : execute_test_cases cases metrics ig uc sd vb st with
    | error msg => trivial
    | ok out =>
      exact (execute_test_cases_ok_shape cases metrics ig uc sd vb st out hexec).1
  · intro cases metrics ig uc sd vb st
    cases hexec : a_execute_test_cases cases metrics ig uc sd vb st with
    | error msg => trivial
    | ok out =>
      exact (a_execute_test_cases_ok_shape cases metrics ig uc sd vb st out hexec).1
  · intro cases t msg h1 h2 h3
    have hmem : TopCase.llm msg.llmTestCase ∈ (cases.map convContribution).flatten := by
      refine List.mem_flatten.mpr ⟨convContribution (TopCase.conv t),
        List.mem_map_of_mem _ h1, ?_⟩
      simp only [convContribution]
      exact List.mem_map.mpr ⟨msg, List.mem_filter.mpr ⟨h2, by simp [h3]⟩, rfl⟩
    have hpos : 0 < ((cases.map convContribution).flatten).length :=
      List.length_pos.mpr (List.ne_nil_of_mem hmem)
    unfold flattenTestCases
    rw [List.length_append]
    omega

/-- Witness for claim C9 at a concrete conversational batch. -/
theorem claim_C9_witness :
    (match execute_test_cases [TopCase.conv wConv2] [AnyMetric.llm wMetricOk]
        true false true none wSt with
     | .ok out => out.finalTestCases = flattenTestCases [TopCase.conv wConv2]
     | .error _ => True) ∧
    TopCase.conv wConv2 ∈ [TopCase.conv wConv2] ∧
    wMsg 101 ∈ wConv2.messages ∧
    (wMsg 101).shouldEvaluate = true ∧
    [TopCase.conv wConv2].length < (flattenTestCases [TopCase.conv wConv2]).length :=
  ⟨claim_C9.1 [TopCase.conv wConv2] [AnyMetric.llm wMetricOk] true false true none wSt,
   by decide, by decide, by decide,
   claim_C9.2.2.2 [TopCase.conv wConv2] wConv2 (wMsg 101) (by decide) (by decide) (by decide)⟩

/-- Claim C10: the returned result list never contains an entry for a
conversational test case itself — every returned result corresponds to exactly
one single-turn sink record, in both strategies — and `assert_test` on a
conversational case with no single-turn metric fails by indexing the empty
result list (an `IndexError`), not by a metric assertion. -/
theorem claim_C10 :
    (∀ (cases : List TopCase) (metrics : List AnyMetric) (ig uc sd : Bool)
       (vb : Option Bool) (st : EngineState),
      match execute_test_cases cases metrics ig uc sd vb st with
      | .ok out => ∃ sext, out.st.sink = st.sink ++ sext ∧
          out.results.length = (sext.filter ApiRecord.isLLM).length
      | .error _ => True) ∧
    (∀ (cases : List TopCase) (metrics : List AnyMetric) (ig uc sd : Bool)
       (vb : Option Bool) (st : EngineState),
      match a_execute_test_cases cases metrics ig uc sd vb st with
      | .ok out => ∃ sext, out.st.sink = st.sink ++ sext ∧
          out.results.length = (sext.filter ApiRecord.isLLM).length
      | .error _ => True) ∧
    (∀ (tc : ConversationalTestCase) (metrics : List AnyMetric)
       (runAsync uc sd : Bool) (vb : Option Bool) (st : EngineState),
      llmMetricsOf metrics = [] →
      assert_test (.conv tc) metrics runAsync true uc sd vb st = .indexError) := by
  refine ⟨?_, ?_, ?_⟩
  · intro cases metrics ig uc sd vb st
    cases hexec : execute_test_cases cases metrics ig uc sd vb st with
    | error msg => trivial
    | ok out =>
      obtain ⟨-, sext, hs, hcount, -, -⟩ :=
        execute_test_cases_ok_shape cases metrics ig uc sd vb st out hexec
      exact ⟨sext, hs, hcount⟩
  · intro cases metrics ig uc sd vb st
    cases hexec : a_execute_test_cases cases metrics ig uc sd vb st with
    | error msg => trivial
    | ok out =>
      obtain ⟨-, sext, hs, hcount, -, -⟩ :=
        a_execute_test_cases_ok_shape cases metrics ig uc sd vb st out hexec
      exact ⟨sext, hs, hcount⟩
  · intro tc metrics runAsync uc sd vb st hz
    cases runAsync
    · obtain ⟨out, hout⟩ :=
        execute_test_cases_true_ok [TopCase.conv tc] metrics uc sd vb st
      obtain ⟨-, sext, -, -, hllm, -⟩ :=
        execute_test_cases_ok_shape [TopCase.conv tc] metrics true uc sd vb st out hout
      have hres : out.results = [] := (hllm hz).1
      simp [assert_test, hout, hres]
    · obtain ⟨out, hout⟩ :=
        a_execute_test_cases_true_ok [TopCase.conv tc] metrics uc sd vb st
      obtain ⟨-, sext, -, -, hllm, -⟩ :=
        a_execute_test_cases_ok_shape [TopCase.conv tc] metrics true uc sd vb st out hout
      have hres : out.results = [] := (hllm hz).1
      simp [assert_test, hout, hres]

/-- Witness for claim C10: a conversational-only batch with a conversational
metric but no single-turn metric. -/
theorem claim_C10_witness :
    llmMetricsOf ([] : List AnyMetric) = [] ∧
    assert_test (.conv wConv2) [] true true false true none wSt = .indexError ∧
    (match execute_test_cases [TopCase.conv wConv2] [] true false true none wSt with
     | .ok out => ∃ sext, out.st.sink = wSt.sink ++ sext ∧
         out.results.length = (sext.filter ApiRecord.isLLM).length
     | .error _ => True) :=
  ⟨rfl, claim_C10.2.2 wConv2 [] true true false none wSt rfl,
   claim_C10.1 [TopCase.conv wConv2] [] true false true none wSt⟩

/-- Inversion: a successful sequential loop iteration coincides with the
`ignore_errors` one. -/
theorem syncProcessCase_ok_inv {ig uc : Bool} {acc : LoopAcc} {c : TopCase}
    {acc' : LoopAcc} (h : syncProcessCase ig uc acc c = .ok acc') :
    syncProcessCase true uc acc c = .ok acc' := by
  cases c with
  | llm tc =>
    by_cases hz : (resetErrors acc.llmMetrics).length = 0
    · have hz' : acc.llmMetrics = [] := by
        rwa [resetErrors_length, List.length_eq_zero] at hz
      rw [syncProcessCase_llm_skip uc acc tc ig hz'] at h
      rw [syncProcessCase_llm_skip uc acc tc true hz']
      exact h
    · simp only [syncProcessCase, if_neg hz] at h ⊢
      cases hrun : syncRunMetrics ig tc
          (if uc = true then getCachedTestCase acc.st tc.uid else none)
          (resetErrors acc.llmMetrics)
          (create_api_test_case_llm acc.st.lookupMap tc acc.llmCount none none none).1
          ⟨[]⟩ true acc.st.now with
      | error msg => rw [hrun] at h; cases h
      | ok out =>
        rw [hrun] at h
        rw [syncRunMetrics_ok_inv hrun]
        exact h
  | conv tc =>
    simp only [syncProcessCase] at h ⊢
    cases hrun : convRunMetrics ig tc (resetErrors acc.convMetrics)
        (create_api_test_case_conv acc.st tc acc.convCount).1
        (create_api_test_case_conv acc.st tc acc.convCount).2.now with
    | error msg => rw [hrun] at h; cases h
    | ok out =>
      rw [hrun] at h
      rw [convRunMetrics_ok_inv hrun]
      exact h

/-- Inversion: a successful concurrent loop iteration coincides with the
`ignore_errors` one. -/
theorem asyncProcessCase_ok_inv {ig uc : Bool} {acc : LoopAcc} {c : TopCase}
    {acc' : LoopAcc} (h : asyncProcessCase ig uc acc c = .ok acc') :
    asyncProcessCase true uc acc c = .ok acc' := by
  cases c with
  | llm tc =>
    by_cases hz : acc.llmMetrics.length = 0
    · have hz' : acc.llmMetrics = [] := List.length_eq_zero.mp hz
      rw [asyncProcessCase_llm_skip uc acc tc ig hz'] at h
      rw [asyncProcessCase_llm_skip uc acc tc true hz']
      exact h
    · simp only [asyncProcessCase, if_neg hz] at h ⊢
      cases hrun : measureMetricsWithIndicator ig tc
          (if uc = true then getCachedTestCase acc.st tc.uid else none)
          (resetErrors acc.llmMetrics) acc.st.now with
      | error msg => rw [hrun] at h; cases h
      | ok out =>
        rw [hrun] at h
        rw [measureMetricsWithIndicator_ok_inv hrun]
        exact h
  | conv tc =>
    simp only [asyncProcessCase] at h ⊢
    cases hrun : measureMetricsWithIndicator ig tc none acc.convMetrics
        (create_api_test_case_conv acc.st tc acc.convCount).2.now with
    | error msg => rw [hrun] at h; cases h
    | ok out =>
      rw [hrun] at h
      rw [measureMetricsWithIndicator_ok_inv hrun]
      exact h

/-- A fresh single-turn metric that takes half a second. -/
def wMetricFast : Metric LLMTestCase :=
  { name := "fast-metric", threshold := 1/2, strictMode := false,
    evaluationModel := some "model-x",
    measure := fun _ => .ok (some (4/5)) none true none none (1/2) }

/-- When some metric misses the cache and every measure call takes positive
wall time, the unit's total measured time is positive. -/
theorem unitTime_pos (uc : Bool) (acc : LoopAcc) (tc : LLMTestCase)
    (hpos : ∀ m ∈ acc.llmMetrics, 0 < (m.measure tc).timeTaken)
    (hmiss : unitAllCached uc acc tc = false) : 0 < unitTime uc acc tc := by
  have hnotall : ¬ ((resetErrors acc.llmMetrics).all
      (fun m => (metricCacheHit (syncUnitCached uc acc tc) m).isSome) = true) := by
    rw [unitAllCached] at hmiss
    simp [hmiss]
  rw [List.all_eq_true] at hnotall
  push_neg at hnotall
  obtain ⟨m, hm, hmissm⟩ := hnotall
  have hnonneg : ∀ x ∈ (resetErrors acc.llmMetrics).map
      (metricTime tc (syncUnitCached uc acc tc)), 0 ≤ x := by
    intro x hx
    obtain ⟨m', hm', hx'⟩ := List.mem_map.mp hx
    subst hx'
    obtain ⟨m₀, hm₀, hm₀'⟩ := List.mem_map.mp hm'
    unfold metricTime
    cases hh : metricCacheHit (syncUnitCached uc acc tc) m' with
    | some md => exact le_refl 0
    | none =>
      have : m'.measure = m₀.measure := by rw [← hm₀']
      rw [this]
      exact le_of_lt (hpos m₀ hm₀)
  have hmem : metricTime tc (syncUnitCached uc acc tc) m ∈
      (resetErrors acc.llmMetrics).map (metricTime tc (syncUnitCached uc acc tc)) :=
    List.mem_map_of_mem _ hm
  have hppos : 0 < metricTime tc (syncUnitCached uc acc tc) m := by
    unfold metricTime
    cases hh : metricCacheHit (syncUnitCached uc acc tc) m with
    | some md => simp [hh] at hmissm
    | none =>
      obtain ⟨m₀, hm₀, hm₀'⟩ := List.mem_map.mp hm
      have : m.measure = m₀.measure := by rw [← hm₀']
      rw [this]
      exact hpos m₀ hm₀
  calc (0 : ℚ) < metricTime tc (syncUnitCached uc acc tc) m := hppos
    _ ≤ _ := List.single_le_sum hnonneg _ hmem

/-- Claim C2, counterexample: in the concurrent strategy, a unit whose single
metric is freshly computed (no cache consulted at all) in half a second
records a run duration of exactly zero — not the measured nonzero wall
time — because the source zeroes any measured duration below one second. -/
theorem claim_C2_counterexample :
    (match a_execute_test_cases [TopCase.llm (wTc 1)] [AnyMetric.llm wMetricFast]
        true false true none wSt with
     | .ok out => out.st.sink.map (fun r => match r with
         | ApiRecord.llm a => a.runDuration
         | ApiRecord.conv _ => none)
     | .error _ => []) = [some 0] ∧
    metricCacheHit none wMetricFast = none ∧
    (wMetricFast.measure (wTc 1)).timeTaken = 1/2 ∧
    ¬ ((1 : ℚ)/2 = 0) := by
  refine ⟨?_, rfl, rfl, by norm_num⟩
  simp only [a_execute_test_cases]
  have hflat : flattenTestCases [TopCase.llm (wTc 1)] = [TopCase.llm (wTc 1)] := rfl
  rw [hflat]
  simp only [asyncExecLoop]
  rw [asyncProcessCase_llm_run false _ (wTc 1) (by simp [setVerboseModes, llmMetricsOf])]
  simp only [asyncExecLoop]
  simp only [unitStateAfter, List.map_append, List.map_cons, List.map_nil]
  have hdur : asyncUnitDur false
      ⟨[], llmMetricsOf (setVerboseModes none [AnyMetric.llm wMetricFast]),
        convMetricsOf (setVerboseModes none [AnyMetric.llm wMetricFast]), 0, 0,
        { { wSt with disableWriteCache := true = false } with lookupMap := [] }⟩
      (wTc 1) = 0 := by
    rw [asyncUnitDur, if_pos]
    rw [unitTime]
    simp only [setVerboseModes, llmMetricsOf, List.filterMap_cons, List.filterMap_nil,
      resetErrors, List.map_cons, List.map_nil, List.sum_cons, List.sum_nil,
      metricTime, metricCacheHit, MeasureOut.timeTaken, wMetricFast, syncUnitCached]
    norm_num
  rw [asyncUnitApi, hdur]
  simp [wSt]

/-- Claim C2, amended: in the sequential strategy a single-turn unit's
recorded duration is exactly zero if and only if every metric result was read
from the cache, and a unit with at least one freshly computed metric records
the measured (positive) wall time.  In the concurrent strategy the recorded
duration is zero if and only if the measured wall time is below one second —
so a fast fresh unit also records zero. -/
theorem claim_C2_amended :
    (∀ (ig uc : Bool) (acc : LoopAcc) (tc : LLMTestCase),
      acc.llmMetrics ≠ [] →
      (∀ m ∈ acc.llmMetrics, 0 < (m.measure tc).timeTaken) →
      match syncProcessCase ig uc acc (.llm tc) with
      | .ok acc' =>
          acc'.st.sink = acc.st.sink ++ [ApiRecord.llm (syncUnitApi uc acc tc)] ∧
          ((syncUnitApi uc acc tc).runDuration = some 0 ↔ unitAllCached uc acc tc = true) ∧
          (unitAllCached uc acc tc = false →
            (syncUnitApi uc acc tc).runDuration = some (unitTime uc acc tc) ∧
            0 < unitTime uc acc tc)
      | .error _ => True) ∧
    (∀ (ig uc : Bool) (acc : LoopAcc) (tc : LLMTestCase),
      acc.llmMetrics ≠ [] →
      match asyncProcessCase ig uc acc (.llm tc) with
      | .ok acc' =>
          acc'.st.sink = acc.st.sink ++ [ApiRecord.llm (asyncUnitApi uc acc tc)] ∧
          ((asyncUnitApi uc acc tc).runDuration = some 0 ↔ unitTime uc acc tc < 1)
      | .error _ => True) := by
  constructor
  · intro ig uc acc tc hne hpos
    cases hexec : syncProcessCase ig uc acc (.llm tc) with
    | error msg => trivial
    | ok acc' =>
      have hinv := syncProcessCase_ok_inv hexec
      rw [syncProcessCase_llm_run uc acc tc hne] at hinv
      cases hinv
      have hproj : (syncUnitApi uc acc tc).runDuration = some (syncUnitDur uc acc tc) := rfl
      refine ⟨by simp [unitStateAfter], ?_, ?_⟩
      · rw [hproj]
        simp only [Option.some.injEq, syncUnitDur]
        by_cases hall : unitAllCached uc acc tc = true
        · simp [hall]
        · have hfalse : unitAllCached uc acc tc = false := by
            cases h : unitAllCached uc acc tc
            · rfl
            · exact absurd h hall
          have hp := unitTime_pos uc acc tc hpos hfalse
          rw [if_neg (by simp [hfalse])]
          apply iff_of_false
          · intro h0
            rw [h0] at hp
            exact lt_irrefl 0 hp
          · simp [hfalse]
      · intro hfalse
        have hp := unitTime_pos uc acc tc hpos hfalse
        refine ⟨?_, hp⟩
        rw [hproj]
        simp only [syncUnitDur]
        rw [if_neg (by simp [hfalse])]
  · intro ig uc acc tc hne
    cases hexec : asyncProcessCase ig uc acc (.llm tc) with
    | error msg => trivial
    | ok acc' =>
      have hinv := asyncProcessCase_ok_inv hexec
      rw [asyncProcessCase_llm_run uc acc tc hne] at hinv
      cases hinv
      have hproj : (asyncUnitApi uc acc tc).runDuration = some (asyncUnitDur uc acc tc) := rfl
      refine ⟨by simp [unitStateAfter], ?_⟩
      rw [hproj]
      simp only [Option.some.injEq, asyncUnitDur]
      by_cases hlt : unitTime uc acc tc < 1
      · simp [hlt]
      · rw [if_neg hlt]
        apply iff_of_false
        · intro h0
          rw [h0] at hlt
          exact hlt (by norm_num)
        · exact hlt

/-- A concrete loop accumulator holding one fresh single-turn metric. -/
def wAccOk : LoopAcc :=
  { results := [], llmMetrics := [wMetricOk], convMetrics := [],
    llmCount := 0, convCount := 0, st := wSt }

/-- Witness for the amended claim C2 at a concrete unit with one fresh
metric. -/
theorem claim_C2_amended_witness :
    wAccOk.llmMetrics ≠ [] ∧
    (∀ m ∈ wAccOk.llmMetrics, 0 < (m.measure (wTc 1)).timeTaken) ∧
    (match syncProcessCase true false wAccOk (.llm (wTc 1)) with
     | .ok acc' =>
         acc'.st.sink = wAccOk.st.sink ++ [ApiRecord.llm (syncUnitApi false wAccOk (wTc 1))] ∧
         ((syncUnitApi false wAccOk (wTc 1)).runDuration = some 0 ↔
           unitAllCached false wAccOk (wTc 1) = true) ∧
         (unitAllCached false wAccOk (wTc 1) = false →
           (syncUnitApi false wAccOk (wTc 1)).runDuration =
             some (unitTime false wAccOk (wTc 1)) ∧
           0 < unitTime false wAccOk (wTc 1))
     | .error _ => True) ∧
    (match asyncProcessCase true false wAccOk (.llm (wTc 1)) with
     | .ok acc' =>
         acc'.st.sink = wAccOk.st.sink ++ [ApiRecord.llm (asyncUnitApi false wAccOk (wTc 1))] ∧
         ((asyncUnitApi false wAccOk (wTc 1)).runDuration = some 0 ↔
           unitTime false wAccOk (wTc 1) < 1)
     | .error _ => True) :=
  ⟨by simp [wAccOk],
   by
     intro m hm
     simp only [wAccOk, List.mem_singleton] at hm
     subst hm
     norm_num [wMetricOk, MeasureOut.timeTaken],
   claim_C2_amended.1 true false wAccOk (wTc 1) (by simp [wAccOk])
     (by
       intro m hm
       simp only [wAccOk, List.mem_singleton] at hm
       subst hm
       norm_num [wMetricOk, MeasureOut.timeTaken]),
   claim_C2_amended.2 true false wAccOk (wTc 1) (by simp [wAccOk])⟩

/-- Claim C7: after a single-turn unit's metrics complete, the accumulated
cache entry is written to both the durable tier (when disk persistence is on)
and the transient tier, keyed by the test case and the run's hyperparameters,
unconditionally in the metric outcomes; the entry holds exactly the results of
the metrics that finished without error, each with evaluation cost zero. -/
theorem claim_C7 :
    ∀ (ig uc : Bool) (acc : LoopAcc) (tc : LLMTestCase),
      acc.llmMetrics ≠ [] →
      acc.st.disableWriteCache = false →
      match syncProcessCase ig uc acc (.llm tc) with
      | .ok acc' =>
          assocGet acc'.st.durableCache (tc.uid, acc.st.hyperparameters) =
            some (syncUnitEntry uc acc tc) ∧
          assocGet acc'.st.transientCache (tc.uid, acc.st.hyperparameters) =
            some (syncUnitEntry uc acc tc) ∧
          (syncUnitEntry uc acc tc).cachedMetricsData =
            (resetErrors acc.llmMetrics).filterMap
              (syncMetricEntry tc (syncUnitCached uc acc tc)) ∧
          (∀ cmd ∈ (syncUnitEntry uc acc tc).cachedMetricsData,
            cmd.metricData.evaluationCost = some 0) ∧
          (∀ m : Metric LLMTestCase,
            (syncMetricEntry tc (syncUnitCached uc acc tc) m).isSome = true ↔
              (syncMetricFinal tc (syncUnitCached uc acc tc) m).error = none)
      | .error _ => True := by
  intro ig uc acc tc hne hdw
  cases hexec : syncProcessCase ig uc acc (.llm tc) with
  | error msg => trivial
  | ok acc' =>
    have hinv := syncProcessCase_ok_inv hexec
    rw [syncProcessCase_llm_run uc acc tc hne] at hinv
    cases hinv
    refine ⟨?_, ?_, rfl, ?_, ?_⟩
    · simp only [unitStateAfter, hdw, if_false]
      exact assocGet_assocPut _ _ _
    · simp only [unitStateAfter]
      exact assocGet_assocPut _ _ _
    · intro cmd hc
      simp only [syncUnitEntry] at hc
      obtain ⟨m, hm, hsome⟩ := List.mem_filterMap.mp hc
      unfold syncMetricEntry at hsome
      by_cases he : (syncMetricFinal tc (syncUnitCached uc acc tc) m).error = none
      · rw [if_pos he] at hsome
        cases hsome
        rfl
      · rw [if_neg he] at hsome
        cases hsome
    · intro m
      unfold syncMetricEntry
      by_cases he : (syncMetricFinal tc (syncUnitCached uc acc tc) m).error = none
      · simp [he]
      · simp [he]

/-- A concrete accumulator holding a raising metric and a succeeding one. -/
def wAccBoomOk : LoopAcc :=
  { results := [], llmMetrics := [wMetricBoom, wMetricOk], convMetrics := [],
    llmCount := 0, convCount := 0, st := wSt }

/-- Witness for claim C7 at a concrete unit where one metric errors and one
succeeds. -/
theorem claim_C7_witness :
    wAccBoomOk.llmMetrics ≠ [] ∧
    wAccBoomOk.st.disableWriteCache = false ∧
    (syncMetricFinal (wTc 1) (syncUnitCached false wAccBoomOk (wTc 1))
      { wMetricBoom with error := none }).error = some "boom" ∧
    (match syncProcessCase true false wAccBoomOk (.llm (wTc 1)) with
     | .ok acc' =>
         assocGet acc'.st.durableCache ((wTc 1).uid, wAccBoomOk.st.hyperparameters) =
           some (syncUnitEntry false wAccBoomOk (wTc 1)) ∧
         assocGet acc'.st.transientCache ((wTc 1).uid, wAccBoomOk.st.hyperparameters) =
           some (syncUnitEntry false wAccBoomOk (wTc 1)) ∧
         (syncUnitEntry false wAccBoomOk (wTc 1)).cachedMetricsData =
           (resetErrors wAccBoomOk.llmMetrics).filterMap
             (syncMetricEntry (wTc 1) (syncUnitCached false wAccBoomOk (wTc 1))) ∧
         (∀ cmd ∈ (syncUnitEntry false wAccBoomOk (wTc 1)).cachedMetricsData,
           cmd.metricData.evaluationCost = some 0) ∧
         (∀ m : Metric LLMTestCase,
           (syncMetricEntry (wTc 1) (syncUnitCached false wAccBoomOk (wTc 1)) m).isSome = true ↔
             (syncMetricFinal (wTc 1) (syncUnitCached false wAccBoomOk (wTc 1)) m).error = none)
     | .error _ => True) :=
  ⟨by simp [wAccBoomOk], rfl, rfl,
   claim_C7 true false wAccBoomOk (wTc 1) (by simp [wAccBoomOk]) rfl⟩

/-- The inner aggregator loop raises exactly when some success evaluation
raises. -/
theorem aggMetricLoop_error_iff :
    ∀ (mds : List AggMetricData) (acc : List (String × Nat × Nat)),
    aggMetricLoop mds acc = .error () ↔ ∃ md ∈ mds, md.success = none := by
  intro mds
  induction mds with
  | nil =>
    intro acc
    simp [aggMetricLoop]
  | cons md rest ih =>
    intro acc
    cases hs : md.success with
    | none => simp [aggMetricLoop, hs]
    | some b =>
      simp only [aggMetricLoop, hs]
      rw [ih]
      constructor
      · intro ⟨m, hm, hmn⟩
        exact ⟨m, List.mem_cons_of_mem _ hm, hmn⟩
      · intro ⟨m, hm, hmn⟩
        rcases List.mem_cons.mp hm with hm | hm
        · subst hm
          rw [hs] at hmn
          cases hmn
        · exact ⟨m, hm, hmn⟩

/-- The outer aggregator loop raises exactly when some success evaluation
raises. -/
theorem aggResultLoop_error_iff :
    ∀ (rs : List AggTestResult) (acc : List (String × Nat × Nat)),
    aggResultLoop rs acc = .error () ↔
      ∃ r ∈ rs, ∃ md ∈ r.metricsData, md.success = none := by
  intro rs
  induction rs with
  | nil =>
    intro acc
    simp [aggResultLoop]
  | cons r rest ih =>
    intro acc
    simp only [aggResultLoop]
    cases hinner : aggMetricLoop r.metricsData acc with
    | error e =>
      cases e
      have := (aggMetricLoop_error_iff r.metricsData acc).mp hinner
      obtain ⟨md, hmd, hn⟩ := this
      simp only [true_iff, eq_self_iff_true]
      exact ⟨r, List.mem_cons_self _ _, md, hmd, hn⟩
    | ok acc' =>
      rw [ih]
      constructor
      · intro ⟨r', hr', md, hmd, hn⟩
        exact ⟨r', List.mem_cons_of_mem _ hr', md, hmd, hn⟩
      · intro ⟨r', hr', md, hmd, hn⟩
        rcases List.mem_cons.mp hr' with hr' | hr'
        · subst hr'
          have : aggMetricLoop r'.metricsData acc = .error () :=
            (aggMetricLoop_error_iff r'.metricsData acc).mpr ⟨md, hmd, hn⟩
          rw [this] at hinner
          cases hinner
        · exact ⟨r', hr', md, hmd, hn⟩

/-- Claim C4, counterexample: a batch containing one metric result whose
success evaluation raises makes the aggregator propagate the exception to its
caller — it is not swallowed and not counted as a failure. -/
theorem claim_C4_counterexample :
    aggregate_metric_pass_rates [⟨[⟨"m", none⟩]⟩] = .error () := rfl

/-- Claim C4, amended: `aggregate_metric_pass_rates` reads each metric
result's success flag with no guard: it propagates an exception exactly when
some success evaluation raises, and completes with pass rates whenever none
does.  (The guarded count-as-failure fallback the spec describes exists in
`assert_test` and `print_test_result`, not in the aggregator.) -/
theorem claim_C4_amended :
    (∀ results : List AggTestResult,
      aggregate_metric_pass_rates results = .error () ↔
        ∃ r ∈ results, ∃ md ∈ r.metricsData, md.success = none) ∧
    (∀ results : List AggTestResult,
      (∀ r ∈ results, ∀ md ∈ r.metricsData, md.success ≠ none) →
      ∃ rates, aggregate_metric_pass_rates results = .ok rates) := by
  constructor
  · intro results
    unfold aggregate_metric_pass_rates
    cases hloop : aggResultLoop results [] with
    | error e =>
      cases e
      simp only [true_iff, eq_self_iff_true]
      exact (aggResultLoop_error_iff results []).mp hloop
    | ok acc =>
      constructor
      · intro h
        cases h
      · intro h
        have : aggResultLoop results [] = .error () :=
          (aggResultLoop_error_iff results []).mpr h
        rw [this] at hloop
        cases hloop
  · intro results h
    cases hloop : aggResultLoop results [] with
    | error e =>
      cases e
      obtain ⟨r, hr, md, hmd, hn⟩ := (aggResultLoop_error_iff results []).mp hloop
      exact absurd hn (h r hr md hmd)
    | ok acc =>
      exact ⟨acc.map (fun e => (e.1, (e.2.2 : ℚ) / (e.2.1 : ℚ))),
        by simp [aggregate_metric_pass_rates, hloop]⟩

/-- Witness for the amended claim C4 at concrete raising-free input. -/
theorem claim_C4_amended_witness :
    (∀ r ∈ [(⟨[⟨"m", some true⟩, ⟨"m", some false⟩]⟩ : AggTestResult)],
      ∀ md ∈ r.metricsData, md.success ≠ none) ∧
    (∃ rates, aggregate_metric_pass_rates
      [(⟨[⟨"m", some true⟩, ⟨"m", some false⟩]⟩ : AggTestResult)] = .ok rates) :=
  ⟨by decide, claim_C4_amended.2 _ (by decide)⟩

/-- Claim C5: a metric whose `measure` raises during batch execution yields,
under `ignore_errors`, a snapshot carrying the exception message as its error,
success false and score/reason absent, and the batch continues to the next
metric and the next unit; without `ignore_errors` the exception propagates out
of the batch call and no result list is returned. -/
theorem claim_C5 :
    ∀ (tc tc₂ : LLMTestCase) (m m₂ : Metric LLMTestCase) (msg : String) (e : ℚ)
      (sd : Bool) (st : EngineState),
      m.measure tc = .raise msg e →
      (match execute_test_cases [.llm tc, .llm tc₂] [.llm m, .llm m₂]
          true false sd none st with
       | .ok out =>
           out.results.length = 2 ∧
           out.results.head?.map (fun r => r.metricsData) =
             some [{ name := m.name, threshold := m.threshold, score := none,
                     reason := none, success := false, strictMode := m.strictMode,
                     evaluationModel := m.evaluationModel, error := some msg,
                     evaluationCost := m.evaluationCost, verboseLogs := m.verboseLogs },
                   syncMetricMD tc none { m₂ with error := none }]
       | .error _ => False) ∧
      execute_test_cases [.llm tc, .llm tc₂] [.llm m, .llm m₂]
        false false sd none st = .error msg := by
  intro tc tc₂ m m₂ msg e sd st hraise
  have hmeas : ({ m with error := none } : Metric LLMTestCase).measure = m.measure := rfl
  constructor
  · simp only [execute_test_cases]
    have hflat : flattenTestCases [TopCase.llm tc, TopCase.llm tc₂] =
        [TopCase.llm tc, TopCase.llm tc₂] := rfl
    rw [hflat]
    simp only [syncExecLoop]
    rw [syncProcessCase_llm_run false _ tc (by simp [setVerboseModes, llmMetricsOf])]
    simp only [syncExecLoop]
    rw [syncProcessCase_llm_run false _ tc₂ (by simp [setVerboseModes, llmMetricsOf, resetErrors])]
    simp only [syncExecLoop]
    constructor
    · simp
    · simp only [List.nil_append, List.head?]
      have hmd : (create_test_result (ApiRecord.llm (syncUnitApi false
          ⟨[], llmMetricsOf (setVerboseModes none [AnyMetric.llm m, AnyMetric.llm m₂]),
            convMetricsOf (setVerboseModes none [AnyMetric.llm m, AnyMetric.llm m₂]), 0, 0,
            { { st with disableWriteCache := sd = false } with lookupMap := [] }⟩
          tc))).metricsData =
          [{ name := m.name, threshold := m.threshold, score := none,
             reason := none, success := false, strictMode := m.strictMode,
             evaluationModel := m.evaluationModel, error := some msg,
             evaluationCost := m.evaluationCost, verboseLogs := m.verboseLogs },
           syncMetricMD tc none { m₂ with error := none }] := by
        simp only [create_test_result, syncUnitApi, applyMds_eq]
        simp only [setVerboseModes, llmMetricsOf, List.filterMap_cons, List.filterMap_nil,
          resetErrors, List.map_cons, List.map_nil, syncUnitCached, unitBase]
        simp only [create_api_test_case_llm, List.find?_nil, Option.map_none]
        simp only [Bool.false_eq_true, if_false, List.nil_append]
        simp only [syncMetricMD, syncMetricFinal, metricCacheHit, hmeas, hraise]
        simp [create_metric_data]
      simp only [List.append_assoc, List.cons_append, List.nil_append]
      simpa using hmd
  · simp only [execute_test_cases]
    have hflat : flattenTestCases [TopCase.llm tc, TopCase.llm tc₂] =
        [TopCase.llm tc, TopCase.llm tc₂] := rfl
    rw [hflat]
    simp only [syncExecLoop]
    have hfr : firstRaise tc none (resetErrors (llmMetricsOf
        (setVerboseModes none [AnyMetric.llm m, AnyMetric.llm m₂]))) = some msg := by
      simp only [setVerboseModes, llmMetricsOf, List.filterMap_cons, List.filterMap_nil,
        resetErrors, List.map_cons, List.map_nil]
      simp only [firstRaise, metricCacheHit, hmeas, hraise]
    have hproc : syncProcessCase false false
        ⟨[], llmMetricsOf (setVerboseModes none [AnyMetric.llm m, AnyMetric.llm m₂]),
          convMetricsOf (setVerboseModes none [AnyMetric.llm m, AnyMetric.llm m₂]), 0, 0,
          { { st with disableWriteCache := sd = false } with lookupMap := [] }⟩
        (.llm tc) = .error msg := by
      simp only [syncProcessCase]
      rw [if_neg (by simp [setVerboseModes, llmMetricsOf, resetErrors])]
      rw [syncRunMetrics_false_char]
      have : (if (false : Bool) = true then getCachedTestCase
          ({ { st with disableWriteCache := sd = false } with lookupMap := [] }) tc.uid
          else none) = none := by simp
      rw [this, hfr]
    rw [hproc]

/-- Witness for claim C5 at a concrete raising metric. -/
theorem claim_C5_witness :
    wMetricBoom.measure (wTc 1) = .raise "boom" 1 ∧
    (match execute_test_cases [.llm (wTc 1), .llm (wTc 2)]
        [.llm wMetricBoom, .llm wMetricOk] true false true none wSt with
     | .ok out =>
         out.results.length = 2 ∧
         out.results.head?.map (fun r => r.metricsData) =
           some [{ name := wMetricBoom.name, threshold := wMetricBoom.threshold,
                   score := none, reason := none, success := false,
                   strictMode := wMetricBoom.strictMode,
                   evaluationModel := wMetricBoom.evaluationModel,
                   error := some "boom",
                   evaluationCost := wMetricBoom.evaluationCost,
                   verboseLogs := wMetricBoom.verboseLogs },
                 syncMetricMD (wTc 1) none { wMetricOk with error := none }]
     | .error _ => False) ∧
    execute_test_cases [.llm (wTc 1), .llm (wTc 2)]
      [.llm wMetricBoom, .llm wMetricOk] false false true none wSt = .error "boom" :=
  ⟨rfl,
   (claim_C5 (wTc 1) (wTc 2) wMetricBoom wMetricOk "boom" 1 true wSt rfl).1,
   (claim_C5 (wTc 1) (wTc 2) wMetricBoom wMetricOk "boom" 1 true wSt rfl).2⟩

/-- `assert_test` with the sequential strategy, unfolded. -/
theorem assert_test_sync_eq (tc : TopCase) (metrics : List AnyMetric)
    (ig uc sd : Bool) (vb : Option Bool) (st : EngineState) :
    assert_test tc metrics false ig uc sd vb st =
      (match execute_test_cases [tc] metrics ig uc sd vb st with
       | .error msg => .raisedMetric msg
       | .ok out =>
         match out.results.head? with
         | none => .indexError
         | some tr =>
           if truthy tr.success then .ok
           else .raisedAssertion (failedMetricsMessage tr.metricsData)) := rfl

/-- Claim C3, counterexample: a conversational case whose *last* message's
record is unsuccessful does not make `assert_test` raise — the resolved unit
is the record of the *first* should-evaluate message, whose success makes
`assert_test` return normally. -/
theorem claim_C3_counterexample :
    assert_test (.conv wConv2) [.llm wMetricDisc] false true false true none wSt = .ok ∧
    (match execute_test_cases [.conv wConv2] [.llm wMetricDisc] true false true none wSt with
     | .ok out => out.st.sink.map (fun r => match r with
         | ApiRecord.llm a => (a.name, a.success)
         | ApiRecord.conv c => (c.name, some c.success))
     | .error _ => []) =
      [("conversational_test_case_0", some true), ("message_0", some true),
       ("message_1", some false)] := by
  exact ⟨by decide, by decide⟩

/-- Claim C3, amended: `assert_test` raises exactly when the *first* element
of the returned result list has a falsy success flag — for a conversational
case that is the record of its first should-evaluate message, not its last
message — and the raised message enumerates every failing metric (every
errored metric and every metric with success false) with its name, score,
threshold, strict-mode flag and error. -/
theorem claim_C3_amended :
    (∀ (mds : List MetricData) (md : MetricData),
      md ∈ failedMetricsData mds ↔
        md ∈ mds ∧ (md.error.isSome = true ∨ md.success = false)) ∧
    (∀ (tc : ConversationalTestCase) (msg₁ msg₂ : ConvMessage)
       (metrics : List AnyMetric) (uc sd : Bool) (st : EngineState),
      tc.messages = [msg₁, msg₂] →
      msg₁.shouldEvaluate = true → msg₂.shouldEvaluate = true →
      msg₁.llmTestCase.uid ≠ msg₂.llmTestCase.uid →
      llmMetricsOf metrics ≠ [] →
      match execute_test_cases [.conv tc] metrics true uc sd none st with
      | .ok out =>
          (out.st.sink.drop st.sink.length).length = 3 ∧
          ((out.st.sink.drop st.sink.length).head?.map ApiRecord.isConv) = some true ∧
          (match out.results.head? with
           | some tr =>
               tr.input = msg₁.llmTestCase.input ∧
               (assert_test (.conv tc) metrics false true uc sd none st = .ok ↔
                 truthy tr.success = true) ∧
               (truthy tr.success = false →
                 assert_test (.conv tc) metrics false true uc sd none st =
                   .raisedAssertion (failedMetricsMessage tr.metricsData))
           | none => False)
      | .error _ => False) := by
  constructor
  · intro mds md
    unfold failedMetricsData
    rw [List.mem_filter]
    constructor
    · intro ⟨h1, h2⟩
      refine ⟨h1, ?_⟩
      rcases Bool.or_eq_true_iff.mp h2 with h | h
      · exact .inl h
      · exact .inr (by simpa using h)
    · intro ⟨h1, h2⟩
      refine ⟨h1, ?_⟩
      rcases h2 with h | h
      · exact Bool.or_eq_true_iff.mpr (.inl h)
      · exact Bool.or_eq_true_iff.mpr (.inr (by simp [h]))
  · intro tc msg₁ msg₂ metrics uc sd st hmsgs he₁ he₂ hneq hllm
    have hllm' : llmMetricsOf (setVerboseModes none metrics) ≠ [] := hllm
    have hflat : flattenTestCases [TopCase.conv tc] =
        [TopCase.conv tc, .llm msg₁.llmTestCase, .llm msg₂.llmTestCase] := by
      simp [flattenTestCases, convContribution, hmsgs, he₁, he₂]
    rw [assert_test_sync_eq]
    simp only [execute_test_cases]
    rw [hflat]
    simp only [syncExecLoop]
    rw [syncProcessCase_conv_run]
    simp only [syncExecLoop]
    rw [syncProcessCase_llm_run _ _ msg₁.llmTestCase
      (by simpa [resetErrors] using hllm')]
    simp only [syncExecLoop]
    rw [syncProcessCase_llm_run _ _ msg₂.llmTestCase
      (by simpa [resetErrors] using hllm')]
    simp only [syncExecLoop]
    simp only [unitStateAfter, List.nil_append, List.cons_append, List.append_assoc]
    refine ⟨?_, ?_, ?_⟩
    · simp [convUnitCapi, create_api_test_case_conv, List.drop_left]
    · simp [convUnitCapi, create_api_test_case_conv, List.drop_left, ApiRecord.isConv]
    · simp only [List.head?]
      refine ⟨?_, ?_, ?_⟩
      · simp only [create_test_result, syncUnitApi, applyMds_eq, unitBase]
        simp only [convUnitCapi, create_api_test_case_conv, hmsgs]
        simp only [List.enum, List.enumFrom, List.foldl_cons, List.foldl_nil,
          create_api_test_case_llm, List.find?_nil, Option.map_none, List.nil_append]
        simp [List.find?_cons, hneq]
      · split
        · simp_all
        · simp_all
      · intro hs
        split
        · simp_all
        · rfl

/-- Witness for the amended claim C3: the concrete two-message conversational
case `wConv2` evaluated with the discriminating metric `wMetricDisc`, whose
first message succeeds; the resolved unit is its first message's record. -/
theorem claim_C3_amended_witness :
    wConv2.messages = [wMsg 101, wMsg 102] ∧
    (wMsg 101).shouldEvaluate = true ∧ (wMsg 102).shouldEvaluate = true ∧
    (wMsg 101).llmTestCase.uid ≠ (wMsg 102).llmTestCase.uid ∧
    llmMetricsOf [.llm wMetricDisc] ≠ [] ∧
    (match execute_test_cases [.conv wConv2] [.llm wMetricDisc] true false true none wSt with
     | .ok out =>
         (out.st.sink.drop wSt.sink.length).length = 3 ∧
         ((out.st.sink.drop wSt.sink.length).head?.map ApiRecord.isConv) = some true ∧
         (match out.results.head? with
          | some tr =>
              tr.input = (wMsg 101).llmTestCase.input ∧
              (assert_test (.conv wConv2) [.llm wMetricDisc] false true false true none wSt =
                  .ok ↔ truthy tr.success = true) ∧
              (truthy tr.success = false →
                assert_test (.conv wConv2) [.llm wMetricDisc] false true false true none wSt =
                  .raisedAssertion (failedMetricsMessage tr.metricsData))
          | none => False)
     | .error _ => False) :=
  ⟨rfl, rfl, rfl, by decide, by simp [llmMetricsOf],
   claim_C3_amended.2 wConv2 (wMsg 101) (wMsg 102) [.llm wMetricDisc] false true wSt
     rfl rfl rfl (by decide) (by simp [llmMetricsOf])⟩

/-- A concrete should-evaluate conversational message whose single-turn test
case carries its own additional metadata and comments (to be overridden by the
parent conversation's). -/
def wMsgMeta (n : Nat) : ConvMessage :=
  { shouldEvaluate := true,
    llmTestCase := { wTc n with
      additionalMetadata := some "own-meta",
      comments := some "own-cm" } }

/-- A concrete three-message conversational test case whose messages carry
their own metadata, distinct from the parent's. -/
def wConvMeta : ConversationalTestCase :=
  { messages := [wMsgMeta 301, wMsgMeta 302, wMsgMeta 303],
    additionalMetadata := some "parent-meta", comments := some "parent-cm" }

/-- Claim C8: a conversational case with three should-evaluate messages
flattens into one conversational unit followed by its three message units, so
the run receives exactly four records, the conversational record (holding the
three message records) first; each message-level record carries the parent
conversation's additional metadata and comments (overriding the message's
own) and points back to the parent through its conversational instance id. -/
theorem claim_C8 (tc : ConversationalTestCase) (msg₁ msg₂ msg₃ : ConvMessage)
    (metrics : List AnyMetric) (uc sd : Bool) (st : EngineState)
    (hmsgs : tc.messages = [msg₁, msg₂, msg₃])
    (he₁ : msg₁.shouldEvaluate = true) (he₂ : msg₂.shouldEvaluate = true)
    (he₃ : msg₃.shouldEvaluate = true)
    (h12 : msg₁.llmTestCase.uid ≠ msg₂.llmTestCase.uid)
    (h13 : msg₁.llmTestCase.uid ≠ msg₃.llmTestCase.uid)
    (h23 : msg₂.llmTestCase.uid ≠ msg₃.llmTestCase.uid)
    (hllm : llmMetricsOf metrics ≠ []) :
    match execute_test_cases [.conv tc] metrics true uc sd none st with
    | .ok out =>
        (out.st.sink.drop st.sink.length).length = 4 ∧
        (match (out.st.sink.drop st.sink.length).head? with
         | some (ApiRecord.conv c) => c.messages.length = 3
         | _ => False) ∧
        (∀ r ∈ (out.st.sink.drop st.sink.length).drop 1,
          match r with
          | ApiRecord.llm a =>
              a.additionalMetadata = tc.additionalMetadata ∧
              a.comments = tc.comments ∧
              a.conversationalInstanceId.isSome = true
          | ApiRecord.conv _ => False)
    | .error _ => False := by
  have hllm' : llmMetricsOf (setVerboseModes none metrics) ≠ [] := hllm
  have hflat : flattenTestCases [TopCase.conv tc] =
      [TopCase.conv tc, .llm msg₁.llmTestCase, .llm msg₂.llmTestCase,
       .llm msg₃.llmTestCase] := by
    simp [flattenTestCases, convContribution, hmsgs, he₁, he₂, he₃]
  simp only [execute_test_cases]
  rw [hflat]
  simp only [syncExecLoop]
  rw [syncProcessCase_conv_run]
  simp only [syncExecLoop]
  rw [syncProcessCase_llm_run _ _ msg₁.llmTestCase
    (by simpa [resetErrors] using hllm')]
  simp only [syncExecLoop]
  rw [syncProcessCase_llm_run _ _ msg₂.llmTestCase
    (by simpa [resetErrors] using hllm')]
  simp only [syncExecLoop]
  rw [syncProcessCase_llm_run _ _ msg₃.llmTestCase
    (by simpa [resetErrors] using hllm')]
  simp only [syncExecLoop]
  simp only [unitStateAfter, List.nil_append, List.cons_append, List.append_assoc]
  refine ⟨?_, ?_, ?_⟩
  · simp [convUnitCapi, create_api_test_case_conv, List.drop_left]
  · simp only [convUnitCapi, create_api_test_case_conv, List.drop_left]
    simp only [List.head?]
    simp only [syncConvUnitApi, applyMdsConv_eq]
    split
    · simp [convUnitCapi, create_api_test_case_conv, hmsgs, List.enum,
        List.enumFrom, List.foldl_cons, List.foldl_nil]
    · simp [convUnitCapi, create_api_test_case_conv, hmsgs, List.enum,
        List.enumFrom, List.foldl_cons, List.foldl_nil]
  · have h21 := Ne.symm h12
    have h31 := Ne.symm h13
    have h32 := Ne.symm h23
    simp only [convUnitCapi, create_api_test_case_conv, List.drop_left]
    intro r hr
    simp only [List.drop_succ_cons, List.drop_zero, List.mem_cons,
      List.not_mem_nil, or_false] at hr
    rcases hr with hr | hr | hr <;> subst hr <;>
      simp only [syncUnitApi, applyMds_eq, unitBase] <;>
      simp only [convUnitCapi, create_api_test_case_conv, hmsgs] <;>
      simp only [List.enum, List.enumFrom, List.foldl_cons, List.foldl_nil,
        create_api_test_case_llm, List.find?_nil, Option.map_none,
        List.nil_append, mapWriteback, List.map_cons, List.map_nil] <;>
      simp [List.find?_cons, h12, h13, h23, h21, h31, h32]

/-- Witness for claim C8: the concrete three-message conversational case
`wConvMeta`, whose messages carry their own (different) metadata. -/
theorem claim_C8_witness :
    wConvMeta.messages = [wMsgMeta 301, wMsgMeta 302, wMsgMeta 303] ∧
    (wMsgMeta 301).llmTestCase.uid ≠ (wMsgMeta 302).llmTestCase.uid ∧
    (wMsgMeta 301).llmTestCase.uid ≠ (wMsgMeta 303).llmTestCase.uid ∧
    (wMsgMeta 302).llmTestCase.uid ≠ (wMsgMeta 303).llmTestCase.uid ∧
    llmMetricsOf [.llm wMetricFast] ≠ [] ∧
    (match execute_test_cases [.conv wConvMeta] [.llm wMetricFast] true false true
        none wSt with
    | .ok out =>
        (out.st.sink.drop wSt.sink.length).length = 4 ∧
        (match (out.st.sink.drop wSt.sink.length).head? with
         | some (ApiRecord.conv c) => c.messages.length = 3
         | _ => False) ∧
        (∀ r ∈ (out.st.sink.drop wSt.sink.length).drop 1,
          match r with
          | ApiRecord.llm a =>
              a.additionalMetadata = wConvMeta.additionalMetadata ∧
              a.comments = wConvMeta.comments ∧
              a.conversationalInstanceId.isSome = true
          | ApiRecord.conv _ => False)
    | .error _ => False) :=
  ⟨rfl, by decide, by decide, by decide, by simp [llmMetricsOf],
   claim_C8 wConvMeta (wMsgMeta 301) (wMsgMeta 302) (wMsgMeta 303)
     [.llm wMetricFast] false true wSt rfl rfl rfl rfl
     (by decide) (by decide) (by decide) (by simp [llmMetricsOf])⟩

/-! ### Equivalence of the two strategies (refinement)

The concurrent strategy differs from the sequential one in the wall-clock
bookkeeping (measured durations, the sub-second zeroing hack) and in which
stale outcome fields a metric object carries into a unit (the sequential
strategy reads a cached snapshot directly, the concurrent collaborator copies
it onto the metric first; a later raising metric then snapshots its stale
evaluation cost and verbose logs).  The relations below say two runs agree on
everything the equivalence claim covers: record identity and structure, and
per-metric name/score/success/reason/error. -/

/-- Metric snapshots agreeing on every claimed field (all but the evaluation
cost and the verbose logs). -/
def mdRel (a b : MetricData) : Prop :=
  a.name = b.name ∧ a.threshold = b.threshold ∧ a.score = b.score ∧
  a.reason = b.reason ∧ a.success = b.success ∧ a.strictMode = b.strictMode ∧
  a.evaluationModel = b.evaluationModel ∧ a.error = b.error

/-- Metric objects agreeing on every behaviour-driving field (configuration
fingerprint, modes and the measure procedure); the outcome scratch fields may
hold different intermediate values in the two strategies. -/
def metricRel {α : Type} (a b : Metric α) : Prop :=
  a.name = b.name ∧ a.threshold = b.threshold ∧ a.strictMode = b.strictMode ∧
  a.evaluationModel = b.evaluationModel ∧ a.asyncMode = b.asyncMode ∧
  a.verboseMode = b.verboseMode ∧ a.measure = b.measure

/-- Single-turn records agreeing on everything but the run duration, with the
metric snapshots compared by `mdRel`. -/
def apiRel (a b : LLMApiTestCase) : Prop :=
  a.name = b.name ∧ a.input = b.input ∧ a.actualOutput = b.actualOutput ∧
  a.expectedOutput = b.expectedOutput ∧ a.context = b.context ∧
  a.retrievalContext = b.retrievalContext ∧ a.toolsUsed = b.toolsUsed ∧
  a.expectedTools = b.expectedTools ∧ a.success = b.success ∧
  List.Forall₂ mdRel a.metricsData b.metricsData ∧
  a.evaluationCost = b.evaluationCost ∧ a.order = b.order ∧
  a.additionalMetadata = b.additionalMetadata ∧ a.comments = b.comments ∧
  a.conversationalInstanceId = b.conversationalInstanceId

/-- Conversational records agreeing on everything but the run duration. -/
def convApiRel (a b : ConversationalApiTestCase) : Prop :=
  a.name = b.name ∧ a.success = b.success ∧
  List.Forall₂ mdRel a.metricsData b.metricsData ∧ a.order = b.order ∧
  List.Forall₂ apiRel a.messages b.messages ∧ a.instanceId = b.instanceId

/-- Sink records of the same kind, related componentwise. -/
def recRel : ApiRecord → ApiRecord → Prop
  | .llm a, .llm b => apiRel a b
  | .conv a, .conv b => convApiRel a b
  | _, _ => False

/-- Returned results agreeing on everything, with the metric snapshots
compared by `mdRel`. -/
def trRel (a b : TestResult) : Prop :=
  a.success = b.success ∧ List.Forall₂ mdRel a.metricsData b.metricsData ∧
  a.input = b.input ∧ a.actualOutput = b.actualOutput ∧
  a.expectedOutput = b.expectedOutput ∧ a.context = b.context ∧
  a.retrievalContext = b.retrievalContext

/-- Identity lookup maps with equal keys and related records. -/
def mapRel (m₁ m₂ : List (Nat × LLMApiTestCase)) : Prop :=
  List.Forall₂ (fun x y => x.1 = y.1 ∧ apiRel x.2 y.2) m₁ m₂

/-- Ambient states agreeing on everything but the wall clock: related lookup
maps and sinks, and (exactly) equal cache tiers, flags, hyperparameters and
instance-id allocator. -/
def stRel (s₁ s₂ : EngineState) : Prop :=
  mapRel s₁.lookupMap s₂.lookupMap ∧
  s₁.durableCache = s₂.durableCache ∧
  s₁.transientCache = s₂.transientCache ∧
  s₁.disableWriteCache = s₂.disableWriteCache ∧
  s₁.hyperparameters = s₂.hyperparameters ∧
  List.Forall₂ recRel s₁.sink s₂.sink ∧
  s₁.nextInstanceId = s₂.nextInstanceId

/-- Loop accumulators related componentwise. -/
def accRel (a b : LoopAcc) : Prop :=
  List.Forall₂ trRel a.results b.results ∧
  List.Forall₂ metricRel a.llmMetrics b.llmMetrics ∧
  List.Forall₂ metricRel a.convMetrics b.convMetrics ∧
  a.llmCount = b.llmCount ∧ a.convCount = b.convCount ∧ stRel a.st b.st

/-- Well-formedness of a cache entry: every stored snapshot was produced
under its configuration (matching fingerprint fields) by an error-free
metric. -/
def WFEntry (c : CachedTestCase) : Prop :=
  ∀ cmd ∈ c.cachedMetricsData,
    cmd.metricData.name = cmd.metricConfiguration.name ∧
    cmd.metricData.threshold = cmd.metricConfiguration.threshold ∧
    cmd.metricData.strictMode = cmd.metricConfiguration.strictMode ∧
    cmd.metricData.evaluationModel = cmd.metricConfiguration.evaluationModel ∧
    cmd.metricData.error = none

/-- Well-formedness of the cache tiers: every reachable entry is
well-formed. -/
def WFCaches (s : EngineState) : Prop :=
  (∀ kv ∈ s.durableCache, WFEntry kv.2) ∧
  (∀ kv ∈ s.transientCache, WFEntry kv.2)

theorem mdRel_refl (a : MetricData) : mdRel a a := by
  simp [mdRel]

theorem metricRel_refl {α : Type} (a : Metric α) : metricRel a a := by
  simp [metricRel]

theorem apiRel_refl (a : LLMApiTestCase) : apiRel a a := by
  refine ⟨rfl, rfl, rfl, rfl, rfl, rfl, rfl, rfl, rfl, ?_, rfl, rfl, rfl, rfl, rfl⟩
  exact List.forall₂_same.mpr (fun x _ => mdRel_refl x)

theorem trRel_refl (a : TestResult) : trRel a a :=
  ⟨rfl, List.forall₂_same.mpr (fun x _ => mdRel_refl x), rfl, rfl, rfl, rfl, rfl⟩

theorem mapRel_refl (m : List (Nat × LLMApiTestCase)) : mapRel m m :=
  List.forall₂_same.mpr (fun x _ => ⟨rfl, apiRel_refl x.2⟩)

theorem recRel_refl (r : ApiRecord) : recRel r r := by
  cases r with
  | llm a => exact apiRel_refl a
  | conv a =>
    exact ⟨rfl, rfl, List.forall₂_same.mpr (fun x _ => mdRel_refl x), rfl,
      List.forall₂_same.mpr (fun x _ => apiRel_refl x), rfl⟩

theorem stRel_refl (s : EngineState) : stRel s s :=
  ⟨mapRel_refl s.lookupMap, rfl, rfl, rfl, rfl,
   List.forall₂_same.mpr (fun x _ => recRel_refl x), rfl⟩

theorem accRel_refl (a : LoopAcc) : accRel a a :=
  ⟨List.forall₂_same.mpr (fun x _ => trRel_refl x),
   List.forall₂_same.mpr (fun x _ => metricRel_refl x),
   List.forall₂_same.mpr (fun x _ => metricRel_refl x),
   rfl, rfl, stRel_refl a.st⟩

/-- Related metrics have the same configuration fingerprint. -/
theorem metricRel_configOf {α : Type} {a b : Metric α} (h : metricRel a b) :
    configOf a = configOf b := by
  obtain ⟨h₁, h₂, h₃, h₄, -, -, -⟩ := h
  simp [configOf, h₁, h₂, h₃, h₄]

/-- Related metrics hit the cache identically. -/
theorem metricRel_cacheHit {α : Type} {a b : Metric α} (h : metricRel a b)
    (cached : Option CachedTestCase) :
    metricCacheHit cached a = metricCacheHit cached b := by
  cases cached with
  | none => rfl
  | some c => simp [metricCacheHit, getCachedMetricData, metricRel_configOf h]

/-- Resetting the error state keeps a metric related to anything the original
was related to (in particular to itself). -/
theorem metricRel_reset_left {α : Type} {a b : Metric α} (h : metricRel a b) :
    metricRel { a with error := none } b := h

theorem metricRel_reset_both {α : Type} {a b : Metric α} (h : metricRel a b) :
    metricRel { a with error := none } { b with error := none } := h

theorem forall₂_metricRel_reset_left {α : Type}
    {ms₁ ms₂ : List (Metric α)} (h : List.Forall₂ metricRel ms₁ ms₂) :
    List.Forall₂ metricRel (resetErrors ms₁) ms₂ := by
  induction h with
  | nil => exact List.Forall₂.nil
  | cons hab hrest ih => exact List.Forall₂.cons hab ih

theorem forall₂_metricRel_reset_both {α : Type}
    {ms₁ ms₂ : List (Metric α)} (h : List.Forall₂ metricRel ms₁ ms₂) :
    List.Forall₂ metricRel (resetErrors ms₁) (resetErrors ms₂) := by
  induction h with
  | nil => exact List.Forall₂.nil
  | cons hab hrest ih => exact List.Forall₂.cons hab ih

/-- Every metric in a reset partition carries no error. -/
theorem resetErrors_error_none {α : Type} {ms : List (Metric α)}
    {m : Metric α} (h : m ∈ resetErrors ms) : m.error = none := by
  obtain ⟨m₀, -, rfl⟩ := List.mem_map.mp h
  rfl

/-- The first propagating raise only depends on the behaviour-driving
fields. -/
theorem firstRaise_rel {α : Type} (tc : α) (cached : Option CachedTestCase) :
    ∀ {ms₁ ms₂ : List (Metric α)}, List.Forall₂ metricRel ms₁ ms₂ →
    firstRaise tc cached ms₁ = firstRaise tc cached ms₂ := by
  intro ms₁ ms₂ h
  induction h with
  | nil => rfl
  | cons hab hrest ih =>
    rename_i a b l₁ l₂
    simp only [firstRaise, metricRel_cacheHit hab cached]
    cases metricCacheHit cached b with
    | some md => exact ih
    | none =>
      obtain ⟨-, -, -, -, -, -, hm⟩ := hab
      rw [hm]
      cases b.measure tc with
      | ok s r su c v e => exact ih
      | raise msg e => rfl

/-- Resetting errors does not change the first propagating raise. -/
theorem firstRaise_resetErrors {α : Type} (tc : α)
    (cached : Option CachedTestCase) (ms : List (Metric α)) :
    firstRaise tc cached (resetErrors ms) = firstRaise tc cached ms :=
  firstRaise_rel tc cached (forall₂_metricRel_reset_left
    (List.forall₂_same.mpr (fun x _ => metricRel_refl x)))

/-- The success fold only reads the success flags, which `mdRel` fixes. -/
theorem foldSuccess_rel {l₁ l₂ : List MetricData}
    (h : List.Forall₂ mdRel l₁ l₂) :
    ∀ s : Option Bool, foldSuccess s l₁ = foldSuccess s l₂ := by
  induction h with
  | nil => intro s; rfl
  | cons hab hrest ih =>
    intro s
    obtain ⟨-, -, -, -, hs, -, -, -⟩ := hab
    simp only [foldSuccess, List.foldl_cons] at ih ⊢
    rw [hs]
    exact ih _

/-- The snapshot fold preserves record relatedness. -/
theorem applyMds_rel {a b : LLMApiTestCase} (hab : apiRel a b)
    {l₁ l₂ : List MetricData} (h : List.Forall₂ mdRel l₁ l₂) :
    apiRel (applyMds a l₁) (applyMds b l₂) := by
  rw [applyMds_eq, applyMds_eq]
  obtain ⟨h₁, h₂, h₃, h₄, h₅, h₆, h₇, h₈, h₉, h₁₀, h₁₁, h₁₂, h₁₃, h₁₄, h₁₅⟩ := hab
  exact ⟨h₁, h₂, h₃, h₄, h₅, h₆, h₇, h₈, by rw [h₉, foldSuccess_rel h],
    List.rel_append h₁₀ h, h₁₁, h₁₂, h₁₃, h₁₄, h₁₅⟩

/-- The all-successes test only reads the success flags. -/
theorem all_success_rel {l₁ l₂ : List MetricData}
    (h : List.Forall₂ mdRel l₁ l₂) :
    l₁.all (fun md => md.success) = l₂.all (fun md => md.success) := by
  induction h with
  | nil => rfl
  | cons hab hrest ih =>
    obtain ⟨-, -, -, -, hs, -, -, -⟩ := hab
    simp only [List.all_cons, hs, ih]

/-- The conversational snapshot fold preserves record relatedness. -/
theorem applyMdsConv_rel {a b : ConversationalApiTestCase} (hab : convApiRel a b)
    {l₁ l₂ : List MetricData} (h : List.Forall₂ mdRel l₁ l₂) :
    convApiRel (applyMdsConv a l₁) (applyMdsConv b l₂) := by
  rw [applyMdsConv_eq, applyMdsConv_eq]
  obtain ⟨h₁, h₂, h₃, h₄, h₅, h₆⟩ := hab
  exact ⟨h₁, by rw [h₂, all_success_rel h], List.rel_append h₃ h, h₄, h₅, h₆⟩

/-- Projecting a record into the returned result preserves relatedness. -/
theorem create_test_result_rel {a b : LLMApiTestCase} (h : apiRel a b) :
    trRel (create_test_result (.llm a)) (create_test_result (.llm b)) := by
  obtain ⟨-, h₂, h₃, h₄, h₅, h₆, -, -, h₉, h₁₀, -, -, -, -, -⟩ := h
  exact ⟨h₉, h₁₀, h₂, h₃, h₄, h₅, h₆⟩

/-- States related by `stRel` answer cache lookups identically. -/
theorem stRel_getCachedTestCase {s₁ s₂ : EngineState} (h : stRel s₁ s₂)
    (uid : Nat) : getCachedTestCase s₁ uid = getCachedTestCase s₂ uid := by
  obtain ⟨-, hd, ht, -, hh, -, -⟩ := h
  simp [getCachedTestCase, hd, ht, hh]

/-- Well-formedness transfers along `stRel` (the cache tiers are equal). -/
theorem stRel_WFCaches {s₁ s₂ : EngineState} (h : stRel s₁ s₂)
    (hwf : WFCaches s₁) : WFCaches s₂ := by
  obtain ⟨-, hd, ht, -, -, -, -⟩ := h
  obtain ⟨h₁, h₂⟩ := hwf
  exact ⟨hd ▸ h₁, ht ▸ h₂⟩

/-- A cache entry reached through well-formed tiers is well-formed. -/
theorem WFCaches_getCachedTestCase {s : EngineState} (hwf : WFCaches s)
    {uid : Nat} {c : CachedTestCase} (h : getCachedTestCase s uid = some c) :
    WFEntry c := by
  obtain ⟨hd, ht⟩ := hwf
  unfold getCachedTestCase at h
  revert h
  cases htr : assocGet s.transientCache (uid, s.hyperparameters) with
  | some c₀ =>
    intro h
    obtain rfl : c₀ = c := by injection h
    obtain ⟨kv, hfind, hsnd⟩ := Option.map_eq_some'.mp htr
    exact hsnd ▸ ht kv (List.mem_of_find?_eq_some hfind)
  | none =>
    intro h
    obtain ⟨kv, hfind, hsnd⟩ := Option.map_eq_some'.mp h
    exact hsnd ▸ hd kv (List.mem_of_find?_eq_some hfind)

/-- A configuration-matching hit in a well-formed entry reports the metric's
own fingerprint fields and no error. -/
theorem WFEntry_cacheHit {c : CachedTestCase} (hwf : WFEntry c) {α : Type}
    {m : Metric α} {md : MetricData}
    (h : metricCacheHit (some c) m = some md) :
    md.name = m.name ∧ md.threshold = m.threshold ∧
    md.strictMode = m.strictMode ∧ md.evaluationModel = m.evaluationModel ∧
    md.error = none := by
  unfold metricCacheHit getCachedMetricData at h
  obtain ⟨cmd, hfind, hsnd⟩ := Option.map_eq_some'.mp h
  have hcfg : cmd.metricConfiguration = configOf m := by
    simpa using List.find?_some hfind
  obtain ⟨h₁, h₂, h₃, h₄, h₅⟩ := hwf cmd (List.mem_of_find?_eq_some hfind)
  subst hsnd
  rw [hcfg] at h₁ h₂ h₃ h₄
  exact ⟨h₁, h₂, h₃, h₄, h₅⟩

/-- The hit facts available at a single-turn unit's cache consultation under
well-formed tiers. -/
theorem unitCached_hit_wf {s : EngineState} (hwf : WFCaches s) (uc : Bool)
    {uid : Nat} {m : Metric LLMTestCase} {md : MetricData}
    (h : metricCacheHit (if uc then getCachedTestCase s uid else none) m = some md) :
    md.name = m.name ∧ md.threshold = m.threshold ∧
    md.strictMode = m.strictMode ∧ md.evaluationModel = m.evaluationModel ∧
    md.error = none := by
  cases uc with
  | false => simp [metricCacheHit] at h
  | true =>
    simp only [if_pos rfl] at h
    revert h
    cases hg : getCachedTestCase s uid with
    | none => intro h; simp [metricCacheHit] at h
    | some c => exact WFEntry_cacheHit (WFCaches_getCachedTestCase hwf hg)

/-- Pointwise comparison of the two strategies on one single-turn metric:
from related, error-free states and a well-formed cache view, the snapshots
agree on every claimed field, the final metric states stay related, the
queued cache entries are equal, and the consumed wall time is equal. -/
theorem metric_pointwise {m₁ m₂ : Metric LLMTestCase}
    (hrel : metricRel m₁ m₂) (he₁ : m₁.error = none) (he₂ : m₂.error = none)
    (tc : LLMTestCase) (cached : Option CachedTestCase)
    (hwfhit : ∀ md, metricCacheHit cached m₁ = some md →
      md.name = m₁.name ∧ md.threshold = m₁.threshold ∧
      md.strictMode = m₁.strictMode ∧ md.evaluationModel = m₁.evaluationModel ∧
      md.error = none) :
    mdRel (syncMetricMD tc cached m₁)
      (create_metric_data (asyncMetricFinal tc cached m₂)) ∧
    metricRel (syncMetricFinal tc cached m₁) (asyncMetricFinal tc cached m₂) ∧
    syncMetricEntry tc cached m₁ =
      asyncMetricEntry (asyncMetricFinal tc cached m₂) ∧
    metricTime tc cached m₁ = metricTime tc cached m₂ := by
  obtain ⟨hn, ht, hs, hev, ha, hv, hm⟩ := hrel
  have hhit := metricRel_cacheHit (⟨hn, ht, hs, hev, ha, hv, hm⟩ : metricRel m₁ m₂) cached
  cases hc : metricCacheHit cached m₁ with
  | some md =>
    obtain ⟨w₁, w₂, w₃, w₄, w₅⟩ := hwfhit md hc
    have hc₂ : metricCacheHit cached m₂ = some md := hhit ▸ hc
    refine ⟨?_, ?_, ?_, ?_⟩
    · simp only [syncMetricMD, asyncMetricFinal, hc, hc₂]
      simp [create_metric_data, he₂, Metric.isSuccessful, mdRel,
        w₁, w₂, w₃, w₄, w₅, hn, ht, hs, hev]
    · simp only [syncMetricFinal, asyncMetricFinal, hc, hc₂]
      exact ⟨hn, ht, hs, hev, ha, hv, hm⟩
    · simp only [syncMetricEntry, syncMetricFinal, syncMetricMD, asyncMetricEntry,
        asyncMetricFinal, hc, hc₂]
      simp only [he₁, he₂, if_pos rfl]
      simp [create_metric_data, he₂, Metric.isSuccessful, configOf,
        MetricData.mk.injEq, CachedMetricData.mk.injEq, MetricConfiguration.mk.injEq,
        w₁, w₂, w₃, w₄, w₅, hn, ht, hs, hev]
    · simp [metricTime, hc, hc₂]
  | none =>
    have hc₂ : metricCacheHit cached m₂ = none := hhit ▸ hc
    cases hms : m₁.measure tc with
    | ok s r su c v e =>
      have hms₂ : m₂.measure tc = .ok s r su c v e := by rw [← hm]; exact hms
      refine ⟨?_, ?_, ?_, ?_⟩
      · simp only [syncMetricMD, syncMetricFinal, asyncMetricFinal, hc, hc₂, hms, hms₂]
        simp [create_metric_data, he₁, he₂, Metric.isSuccessful, mdRel, hn, ht, hs, hev]
      · simp only [syncMetricFinal, asyncMetricFinal, hc, hc₂, hms, hms₂]
        exact ⟨hn, ht, hs, hev, rfl, hv, hm⟩
      · simp only [syncMetricEntry, syncMetricFinal, syncMetricMD, asyncMetricEntry,
          asyncMetricFinal, hc, hc₂, hms, hms₂]
        simp only [he₁, he₂, if_pos rfl]
        simp [create_metric_data, he₁, he₂, Metric.isSuccessful, configOf,
          MetricData.mk.injEq, CachedMetricData.mk.injEq, MetricConfiguration.mk.injEq,
          hn, ht, hs, hev]
      · simp [metricTime, hc, hc₂, hms, hms₂]
    | raise msg e =>
      have hms₂ : m₂.measure tc = .raise msg e := by rw [← hm]; exact hms
      refine ⟨?_, ?_, ?_, ?_⟩
      · simp only [syncMetricMD, syncMetricFinal, asyncMetricFinal, hc, hc₂, hms, hms₂]
        simp [create_metric_data, mdRel, hn, ht, hs, hev]
      · simp only [syncMetricFinal, asyncMetricFinal, hc, hc₂, hms, hms₂]
        exact ⟨hn, ht, hs, hev, rfl, hv, hm⟩
      · simp only [syncMetricEntry, syncMetricFinal, asyncMetricEntry,
          asyncMetricFinal, hc, hc₂, hms, hms₂]
        simp
      · simp [metricTime, hc, hc₂, hms, hms₂]

/-- Pointwise comparison of the two strategies on one conversational metric
(the concurrent collaborator resets the error state itself, so only the
sequential side needs a reset input). -/
theorem conv_metric_pointwise {m₁ m₂ : Metric ConversationalTestCase}
    (hrel : metricRel m₁ m₂) (he₁ : m₁.error = none)
    (tc : ConversationalTestCase) :
    mdRel (convMetricMD tc m₁) (create_metric_data (asyncMetricFinal tc none m₂)) ∧
    metricRel (convMetricFinal tc m₁) (asyncMetricFinal tc none m₂) := by
  obtain ⟨hn, ht, hs, hev, ha, hv, hm⟩ := hrel
  cases hms : m₁.measure tc with
  | ok s r su c v e =>
    have hms₂ : m₂.measure tc = .ok s r su c v e := by rw [← hm]; exact hms
    constructor
    · simp only [convMetricMD, convMetricFinal, asyncMetricFinal, metricCacheHit,
        hms, hms₂]
      simp [create_metric_data, he₁, Metric.isSuccessful, mdRel, hn, ht, hs, hev]
    · simp only [convMetricFinal, asyncMetricFinal, metricCacheHit, hms, hms₂]
      exact ⟨hn, ht, hs, hev, rfl, hv, hm⟩
  | raise msg e =>
    have hms₂ : m₂.measure tc = .raise msg e := by rw [← hm]; exact hms
    constructor
    · simp only [convMetricMD, convMetricFinal, asyncMetricFinal, metricCacheHit,
        hms, hms₂]
      simp [create_metric_data, mdRel, hn, ht, hs, hev]
    · simp only [convMetricFinal, asyncMetricFinal, metricCacheHit, hms, hms₂]
      exact ⟨hn, ht, hs, hev, rfl, hv, hm⟩

/-- Equal queued entries pointwise give equal accumulated cache entries. -/
theorem entries_eq {tc : LLMTestCase} {cached : Option CachedTestCase}
    {ms₁ ms₂ : List (Metric LLMTestCase)}
    (h : List.Forall₂ (fun m₁ m₂ => syncMetricEntry tc cached m₁ =
      asyncMetricEntry (asyncMetricFinal tc cached m₂)) ms₁ ms₂) :
    ms₁.filterMap (syncMetricEntry tc cached) =
      (ms₂.map (asyncMetricFinal tc cached)).filterMap asyncMetricEntry := by
  induction h with
  | nil => rfl
  | cons hab hrest ih =>
    simp only [List.map_cons, List.filterMap_cons, hab, ih]

/-- Related lookup maps answer the identity search identically: both miss, or
both hit at the same key with related records. -/
theorem mapRel_find? {map₁ map₂ : List (Nat × LLMApiTestCase)}
    (h : mapRel map₁ map₂) (uid : Nat) :
    (match map₁.find? (fun kv => decide (kv.1 = uid)),
           map₂.find? (fun kv => decide (kv.1 = uid)) with
     | none, none => True
     | some kv₁, some kv₂ => kv₁.1 = uid ∧ kv₂.1 = uid ∧ apiRel kv₁.2 kv₂.2
     | _, _ => False) := by
  induction h with
  | nil => trivial
  | cons hab hrest ih =>
    rename_i a b l₁ l₂
    obtain ⟨hk, hv⟩ := hab
    by_cases he : a.1 = uid
    · have he₂ : b.1 = uid := hk ▸ he
      simp only [List.find?_cons, he, he₂, decide_True]
      exact ⟨trivial, trivial, hv⟩
    · have he₂ : ¬ b.1 = uid := hk ▸ he
      simp only [List.find?_cons, he, he₂, decide_False]
      exact ih

/-- Record creation for a single-turn unit preserves map relatedness and
produces related records. -/
theorem create_api_llm_rel {map₁ map₂ : List (Nat × LLMApiTestCase)}
    (h : mapRel map₁ map₂) (tc : LLMTestCase) (idx : Nat)
    (cid : Option Nat) (md cm : Option String) :
    apiRel (create_api_test_case_llm map₁ tc idx cid md cm).1
      (create_api_test_case_llm map₂ tc idx cid md cm).1 ∧
    mapRel (create_api_test_case_llm map₁ tc idx cid md cm).2
      (create_api_test_case_llm map₂ tc idx cid md cm).2 := by
  have hf := mapRel_find? h tc.uid
  revert hf
  cases h₁ : map₁.find? (fun kv => decide (kv.1 = tc.uid)) with
  | some kv₁ =>
    cases h₂ : map₂.find? (fun kv => decide (kv.1 = tc.uid)) with
    | some kv₂ =>
      intro hf
      simp only [create_api_test_case_llm, h₁, h₂, Option.map_some]
      exact ⟨hf.2.2, h⟩
    | none => intro hf; cases hf
  | none =>
    cases h₂ : map₂.find? (fun kv => decide (kv.1 = tc.uid)) with
    | some kv₂ => intro hf; cases hf
    | none =>
      intro hf
      simp only [create_api_test_case_llm, h₁, h₂, Option.map_none]
      cases cid with
      | some instId =>
        refine ⟨apiRel_refl _, ?_⟩
        exact List.rel_append h
          (List.Forall₂.cons ⟨rfl, apiRel_refl _⟩ List.Forall₂.nil)
      | none => exact ⟨apiRel_refl _, h⟩

/-- The aliasing write-back preserves map relatedness. -/
theorem mapRel_writeback {map₁ map₂ : List (Nat × LLMApiTestCase)}
    (h : mapRel map₁ map₂) (uid : Nat) {api₁ api₂ : LLMApiTestCase}
    (hapi : apiRel api₁ api₂) :
    mapRel (mapWriteback map₁ uid api₁) (mapWriteback map₂ uid api₂) := by
  induction h with
  | nil => exact List.Forall₂.nil
  | cons hab hrest ih =>
    rename_i a b l₁ l₂
    obtain ⟨hk, hv⟩ := hab
    simp only [mapWriteback, List.map_cons] at ih ⊢
    refine List.Forall₂.cons ?_ ih
    by_cases he : a.1 = uid
    · have he₂ : b.1 = uid := hk ▸ he
      simp only [he, he₂, if_pos rfl]
      exact ⟨rfl, hapi⟩
    · have he₂ : ¬ b.1 = uid := hk ▸ he
      simp only [if_neg he, if_neg he₂]
      exact ⟨hk, hv⟩

/-- Conversational record creation from related states yields related records
and related states. -/
theorem create_api_conv_rel {s₁ s₂ : EngineState} (h : stRel s₁ s₂)
    (tc : ConversationalTestCase) (idx : Nat) :
    convApiRel (create_api_test_case_conv s₁ tc idx).1
      (create_api_test_case_conv s₂ tc idx).1 ∧
    stRel (create_api_test_case_conv s₁ tc idx).2
      (create_api_test_case_conv s₂ tc idx).2 := by
  obtain ⟨hmap, hd, htr, hw, hh, hsink, hnid⟩ := h
  have hfold : ∀ (l : List (Nat × ConvMessage))
      (a₁ a₂ : List LLMApiTestCase) (mp₁ mp₂ : List (Nat × LLMApiTestCase)),
      List.Forall₂ apiRel a₁ a₂ → mapRel mp₁ mp₂ →
      List.Forall₂ apiRel
        (l.foldl (fun (acc : List LLMApiTestCase × List (Nat × LLMApiTestCase)) im =>
          let r := create_api_test_case_llm acc.2 im.2.llmTestCase im.1
            (some s₂.nextInstanceId) tc.additionalMetadata tc.comments
          (acc.1 ++ [r.1], r.2)) (a₁, mp₁)).1
        (l.foldl (fun (acc : List LLMApiTestCase × List (Nat × LLMApiTestCase)) im =>
          let r := create_api_test_case_llm acc.2 im.2.llmTestCase im.1
            (some s₂.nextInstanceId) tc.additionalMetadata tc.comments
          (acc.1 ++ [r.1], r.2)) (a₂, mp₂)).1 ∧
      mapRel
        (l.foldl (fun (acc : List LLMApiTestCase × List (Nat × LLMApiTestCase)) im =>
          let r := create_api_test_case_llm acc.2 im.2.llmTestCase im.1
            (some s₂.nextInstanceId) tc.additionalMetadata tc.comments
          (acc.1 ++ [r.1], r.2)) (a₁, mp₁)).2
        (l.foldl (fun (acc : List LLMApiTestCase × List (Nat × LLMApiTestCase)) im =>
          let r := create_api_test_case_llm acc.2 im.2.llmTestCase im.1
            (some s₂.nextInstanceId) tc.additionalMetadata tc.comments
          (acc.1 ++ [r.1], r.2)) (a₂, mp₂)).2 := by
    intro l
    induction l with
    | nil => intro a₁ a₂ mp₁ mp₂ ha hm; exact ⟨ha, hm⟩
    | cons im rest ih =>
      intro a₁ a₂ mp₁ mp₂ ha hm
      simp only [List.foldl_cons]
      obtain ⟨hr₁, hr₂⟩ := create_api_llm_rel hm im.2.llmTestCase im.1
        (some s₂.nextInstanceId) tc.additionalMetadata tc.comments
      exact ih _ _ _ _
        (List.rel_append ha (List.Forall₂.cons hr₁ List.Forall₂.nil)) hr₂
  simp only [create_api_test_case_conv, hnid]
  obtain ⟨hmsgs, hmaps⟩ := hfold tc.messages.enum [] [] s₁.lookupMap s₂.lookupMap
    List.Forall₂.nil hmap
  exact ⟨⟨rfl, rfl, List.Forall₂.nil, rfl, hmsgs, rfl⟩,
    ⟨hmaps, hd, htr, hw, hh, hsink, by simp [hnid]⟩⟩

/-- Overwrite-or-append with a well-formed value keeps every entry of a
well-formed tier well-formed. -/
theorem WF_assocPut {l : List ((Nat × Option String) × CachedTestCase)}
    (hl : ∀ kv ∈ l, WFEntry kv.2) {k : Nat × Option String}
    {v : CachedTestCase} (hv : WFEntry v) :
    ∀ kv ∈ assocPut l k v, WFEntry kv.2 := by
  intro kv hkv
  unfold assocPut at hkv
  by_cases h : l.any (fun kv => decide (kv.1 = k))
  · rw [if_pos h] at hkv
    obtain ⟨kv₀, hkv₀, heq⟩ := List.mem_map.mp hkv
    by_cases hk : kv₀.1 = k
    · rw [if_pos hk] at heq
      rw [← heq]
      exact hv
    · rw [if_neg hk] at heq
      rw [← heq]
      exact hl kv₀ hkv₀
  · rw [if_neg h] at hkv
    rcases List.mem_append.mp hkv with hin | hin
    · exact hl kv hin
    · rw [List.mem_singleton.mp hin]
      exact hv

/-- A cache write of a well-formed entry preserves tier well-formedness. -/
theorem WFCaches_cacheTestCase {s : EngineState} (hwf : WFCaches s)
    {e : CachedTestCase} (he : WFEntry e) (uid : Nat) (toTemp : Bool) :
    WFCaches (cacheTestCase s uid e toTemp) := by
  obtain ⟨hd, ht⟩ := hwf
  cases toTemp with
  | true =>
    have hct : cacheTestCase s uid e true =
        { s with transientCache :=
            assocPut s.transientCache (uid, s.hyperparameters) e } := by
      simp [cacheTestCase]
    rw [hct]
    exact ⟨hd, WF_assocPut ht he⟩
  | false =>
    by_cases hw : s.disableWriteCache
    · have hct : cacheTestCase s uid e false = s := by simp [cacheTestCase, hw]
      rw [hct]
      exact ⟨hd, ht⟩
    · have hct : cacheTestCase s uid e false =
          { s with durableCache :=
              assocPut s.durableCache (uid, s.hyperparameters) e } := by
        simp [cacheTestCase, hw]
      rw [hct]
      exact ⟨WF_assocPut hd he, ht⟩

/-- The sequential strategy's accumulated unit entry is well-formed whenever
the consulted tiers are. -/
theorem WFEntry_syncUnitEntry {uc : Bool} {acc : LoopAcc} {tc : LLMTestCase}
    (hwf : WFCaches acc.st) : WFEntry (syncUnitEntry uc acc tc) := by
  intro cmd hmem
  simp only [syncUnitEntry] at hmem
  obtain ⟨m, hm, hcmd⟩ := List.mem_filterMap.mp hmem
  unfold syncMetricEntry at hcmd
  by_cases herr : (syncMetricFinal tc (syncUnitCached uc acc tc) m).error = none
  · rw [if_pos herr] at hcmd
    obtain rfl := (Option.some_inj.mp hcmd).symm
    cases hc : metricCacheHit (syncUnitCached uc acc tc) m with
    | some md =>
      obtain ⟨w₁, w₂, w₃, w₄, w₅⟩ := unitCached_hit_wf hwf uc
        (by simpa [syncUnitCached] using hc)
      simp [syncMetricMD, hc, configOf, w₁, w₂, w₃, w₄, w₅]
    | none =>
      have hme : m.error = none := by
        revert herr
        simp only [syncMetricFinal, hc]
        cases hms : m.measure tc with
        | ok s r su c v e => intro h; simpa using h
        | raise msg e => intro h; simp at h
      simp only [syncMetricMD, syncMetricFinal, hc]
      cases hms : m.measure tc with
      | ok s r su c v e =>
        simp [create_metric_data, hme, configOf]
      | raise msg e =>
        exfalso
        revert herr
        simp [syncMetricFinal, hc, hms]
  · rw [if_neg herr] at hcmd
    cases hcmd

/-- The pointwise comparisons bundled over a unit's (reset) metric lists. -/
theorem unit_metrics_rel {ms₁ ms₂ : List (Metric LLMTestCase)}
    (h : List.Forall₂ metricRel ms₁ ms₂) (tc : LLMTestCase)
    (cached : Option CachedTestCase)
    (hwfhit : ∀ (m : Metric LLMTestCase) (md : MetricData),
      metricCacheHit cached m = some md →
      md.name = m.name ∧ md.threshold = m.threshold ∧
      md.strictMode = m.strictMode ∧ md.evaluationModel = m.evaluationModel ∧
      md.error = none) :
    List.Forall₂ (fun m₁ m₂ =>
      mdRel (syncMetricMD tc cached m₁)
        (create_metric_data (asyncMetricFinal tc cached m₂)) ∧
      metricRel (syncMetricFinal tc cached m₁) (asyncMetricFinal tc cached m₂) ∧
      syncMetricEntry tc cached m₁ =
        asyncMetricEntry (asyncMetricFinal tc cached m₂) ∧
      metricTime tc cached m₁ = metricTime tc cached m₂)
      (resetErrors ms₁) (resetErrors ms₂) := by
  induction h with
  | nil => exact List.Forall₂.nil
  | cons hab hrest ih =>
    exact List.Forall₂.cons
      (metric_pointwise (metricRel_reset_both hab) rfl rfl tc cached
        (fun md => hwfhit _ md)) ih

/-- The conversational pointwise comparisons bundled over a unit's metric
lists (only the sequential side resets first). -/
theorem conv_metrics_rel {ms₁ ms₂ : List (Metric ConversationalTestCase)}
    (h : List.Forall₂ metricRel ms₁ ms₂) (tc : ConversationalTestCase) :
    List.Forall₂ (fun m₁ m₂ =>
      mdRel (convMetricMD tc m₁)
        (create_metric_data (asyncMetricFinal tc none m₂)) ∧
      metricRel (convMetricFinal tc m₁) (asyncMetricFinal tc none m₂))
      (resetErrors ms₁) ms₂ := by
  induction h with
  | nil => exact List.Forall₂.nil
  | cons hab hrest ih =>
    exact List.Forall₂.cons (conv_metric_pointwise (metricRel_reset_left hab) rfl tc) ih

/-- A pointwise relation through two maps gives a relation of the mapped
lists. -/
theorem forall₂_map_map {α β γ δ : Type} {R : γ → δ → Prop} {f : α → γ}
    {g : β → δ} {l₁ : List α} {l₂ : List β}
    (h : List.Forall₂ (fun a b => R (f a) (g b)) l₁ l₂) :
    List.Forall₂ R (l₁.map f) (l₂.map g) := by
  induction h with
  | nil => exact List.Forall₂.nil
  | cons hab hrest ih => exact List.Forall₂.cons hab ih

/-- Related accumulators processed through a non-skipped single-turn unit (in
the closed forms of the two strategies) stay related, and the sequential
side's cache tiers stay well-formed. -/
theorem unit_llm_rel {acc₁ acc₂ : LoopAcc} (h : accRel acc₁ acc₂)
    (hwf : WFCaches acc₁.st) (uc : Bool) (tc : LLMTestCase) :
    accRel
      { results := acc₁.results ++
          [create_test_result (.llm (syncUnitApi uc acc₁ tc))],
        llmMetrics := (resetErrors acc₁.llmMetrics).map
          (syncMetricFinal tc (syncUnitCached uc acc₁ tc)),
        convMetrics := resetErrors acc₁.convMetrics,
        llmCount := acc₁.llmCount + 1,
        convCount := acc₁.convCount,
        st := unitStateAfter acc₁ tc (syncUnitApi uc acc₁ tc)
          (syncUnitEntry uc acc₁ tc) (unitTime uc acc₁ tc) }
      { results := acc₂.results ++
          [create_test_result (.llm (asyncUnitApi uc acc₂ tc))],
        llmMetrics := asyncUnitFinals uc acc₂ tc,
        convMetrics := resetErrors acc₂.convMetrics,
        llmCount := acc₂.llmCount + 1,
        convCount := acc₂.convCount,
        st := unitStateAfter acc₂ tc (asyncUnitApi uc acc₂ tc)
          (asyncUnitEntry uc acc₂ tc) (unitTime uc acc₂ tc) } ∧
    WFCaches (unitStateAfter acc₁ tc (syncUnitApi uc acc₁ tc)
      (syncUnitEntry uc acc₁ tc) (unitTime uc acc₁ tc)) := by
  obtain ⟨hres, hllm, hconv, hlc, hcc, hst⟩ := h
  obtain ⟨hmap, hd, htr, hw, hh, hsink, hnid⟩ := hst
  obtain ⟨hwfd, hwft⟩ := hwf
  have hcached : syncUnitCached uc acc₁ tc = syncUnitCached uc acc₂ tc := by
    unfold syncUnitCached
    cases uc
    · rfl
    · simp only [if_pos rfl]
      exact stRel_getCachedTestCase ⟨hmap, hd, htr, hw, hh, hsink, hnid⟩ tc.uid
  have hwfhit : ∀ (m : Metric LLMTestCase) (md : MetricData),
      metricCacheHit (syncUnitCached uc acc₁ tc) m = some md →
      md.name = m.name ∧ md.threshold = m.threshold ∧
      md.strictMode = m.strictMode ∧ md.evaluationModel = m.evaluationModel ∧
      md.error = none :=
    fun m md hm => unitCached_hit_wf ⟨hwfd, hwft⟩ uc
      (by simpa [syncUnitCached] using hm)
  have hbundle := unit_metrics_rel hllm tc (syncUnitCached uc acc₁ tc) hwfhit
  have hmds : List.Forall₂ mdRel
      ((resetErrors acc₁.llmMetrics).map
        (syncMetricMD tc (syncUnitCached uc acc₁ tc)))
      ((asyncUnitFinals uc acc₂ tc).map create_metric_data) := by
    simp only [asyncUnitFinals, List.map_map, ← hcached]
    exact forall₂_map_map (List.Forall₂.imp (fun a b hx => hx.1) hbundle)
  have hfinals : List.Forall₂ metricRel
      ((resetErrors acc₁.llmMetrics).map
        (syncMetricFinal tc (syncUnitCached uc acc₁ tc)))
      (asyncUnitFinals uc acc₂ tc) := by
    simp only [asyncUnitFinals, ← hcached]
    exact forall₂_map_map (List.Forall₂.imp (fun a b hx => hx.2.1) hbundle)
  have hentry : syncUnitEntry uc acc₁ tc = asyncUnitEntry uc acc₂ tc := by
    simp only [syncUnitEntry, asyncUnitEntry, asyncUnitFinals, ← hcached]
    exact congrArg CachedTestCase.mk
      (entries_eq (List.Forall₂.imp (fun a b hx => hx.2.2.1) hbundle))
  have hub : apiRel (unitBase acc₁ tc).1 (unitBase acc₂ tc).1 ∧
      mapRel (unitBase acc₁ tc).2 (unitBase acc₂ tc).2 := by
    unfold unitBase
    rw [← hlc]
    exact create_api_llm_rel hmap tc acc₁.llmCount none none none
  have happi : apiRel (syncUnitApi uc acc₁ tc) (asyncUnitApi uc acc₂ tc) :=
    applyMds_rel hub.1 hmds
  have hewf : WFEntry (syncUnitEntry uc acc₁ tc) :=
    WFEntry_syncUnitEntry ⟨hwfd, hwft⟩
  refine ⟨⟨?_, ?_, ?_, ?_, ?_, ?_, ?_, ?_, ?_, ?_, ?_, ?_⟩, ?_, ?_⟩
  · exact List.rel_append hres
      (List.Forall₂.cons (create_test_result_rel happi) List.Forall₂.nil)
  · exact hfinals
  · exact forall₂_metricRel_reset_both hconv
  · simp [hlc]
  · exact hcc
  · simp only [unitStateAfter]
    exact mapRel_writeback hub.2 tc.uid happi
  · simp only [unitStateAfter]
    rw [hd, hw, hh, hentry]
  · simp only [unitStateAfter]
    rw [htr, hh, hentry]
  · exact hw
  · exact hh
  · simp only [unitStateAfter]
    exact List.rel_append hsink
      (List.Forall₂.cons happi List.Forall₂.nil)
  · exact hnid
  · simp only [unitStateAfter]
    by_cases hdw : acc₁.st.disableWriteCache
    · simp only [if_pos hdw]
      exact hwfd
    · simp only [if_neg hdw]
      exact WF_assocPut hwfd hewf
  · simp only [unitStateAfter]
    exact WF_assocPut hwft hewf

/-- Related accumulators processed through a conversational unit (in the
closed forms of the two strategies) stay related, and the sequential side's
cache tiers stay well-formed (this unit writes no cache). -/
theorem unit_conv_rel {acc₁ acc₂ : LoopAcc} (h : accRel acc₁ acc₂)
    (hwf : WFCaches acc₁.st) (tc : ConversationalTestCase) :
    accRel
      { results := acc₁.results,
        llmMetrics := resetErrors acc₁.llmMetrics,
        convMetrics := (resetErrors acc₁.convMetrics).map (convMetricFinal tc),
        llmCount := acc₁.llmCount,
        convCount := acc₁.convCount + 1,
        st := { (convUnitCapi acc₁ tc).2 with
          sink := (convUnitCapi acc₁ tc).2.sink ++
            [ApiRecord.conv (syncConvUnitApi acc₁ tc)],
          now := (convUnitCapi acc₁ tc).2.now +
            convUnitTime tc (resetErrors acc₁.convMetrics) } }
      { results := acc₂.results,
        llmMetrics := acc₂.llmMetrics,
        convMetrics := acc₂.convMetrics.map (asyncMetricFinal tc none),
        llmCount := acc₂.llmCount,
        convCount := acc₂.convCount + 1,
        st := { (convUnitCapi acc₂ tc).2 with
          sink := (convUnitCapi acc₂ tc).2.sink ++
            [ApiRecord.conv (asyncConvUnitApi acc₂ tc)],
          now := (convUnitCapi acc₂ tc).2.now +
            convUnitTime tc acc₂.convMetrics } } ∧
    WFCaches { (convUnitCapi acc₁ tc).2 with
      sink := (convUnitCapi acc₁ tc).2.sink ++
        [ApiRecord.conv (syncConvUnitApi acc₁ tc)],
      now := (convUnitCapi acc₁ tc).2.now +
        convUnitTime tc (resetErrors acc₁.convMetrics) } := by
  obtain ⟨hres, hllm, hconv, hlc, hcc, hst⟩ := h
  obtain ⟨hwfd, hwft⟩ := hwf
  have hcapi : convApiRel (convUnitCapi acc₁ tc).1 (convUnitCapi acc₂ tc).1 ∧
      stRel (convUnitCapi acc₁ tc).2 (convUnitCapi acc₂ tc).2 := by
    unfold convUnitCapi
    rw [← hcc]
    exact create_api_conv_rel hst tc acc₁.convCount
  have hbundle := conv_metrics_rel hconv tc
  have hmds : List.Forall₂ mdRel
      ((resetErrors acc₁.convMetrics).map (convMetricMD tc))
      ((acc₂.convMetrics.map (asyncMetricFinal tc none)).map create_metric_data) := by
    simp only [List.map_map]
    exact forall₂_map_map (List.Forall₂.imp (fun a b hx => hx.1) hbundle)
  have hfinals : List.Forall₂ metricRel
      ((resetErrors acc₁.convMetrics).map (convMetricFinal tc))
      (acc₂.convMetrics.map (asyncMetricFinal tc none)) :=
    forall₂_map_map (List.Forall₂.imp (fun a b hx => hx.2) hbundle)
  have hlen : (resetErrors acc₁.convMetrics).length = acc₂.convMetrics.length := by
    rw [resetErrors_length]
    exact List.Forall₂.length_eq hconv
  have hcrel : convApiRel (syncConvUnitApi acc₁ tc) (asyncConvUnitApi acc₂ tc) := by
    simp only [syncConvUnitApi, asyncConvUnitApi]
    by_cases hgt : 0 < (resetErrors acc₁.convMetrics).length
    · rw [if_pos hgt, if_pos (hlen ▸ hgt)]
      exact applyMdsConv_rel hcapi.1 hmds
    · rw [if_neg hgt, if_neg (hlen ▸ hgt)]
      exact applyMdsConv_rel hcapi.1 hmds
  obtain ⟨cm, cd, ctr, cw, chh, csink, cnid⟩ := hcapi.2
  refine ⟨⟨?_, ?_, ?_, ?_, ?_, ?_, ?_, ?_, ?_, ?_, ?_, ?_⟩, ?_, ?_⟩
  · exact hres
  · exact forall₂_metricRel_reset_left hllm
  · exact hfinals
  · exact hlc
  · simp [hcc]
  · exact cm
  · exact cd
  · exact ctr
  · exact cw
  · exact chh
  · exact List.rel_append csink (List.Forall₂.cons hcrel List.Forall₂.nil)
  · exact cnid
  · exact hwfd
  · exact hwft

/-- The first propagating raise of one unit in the sequential strategy with
`ignore_errors` unset (`none` on a skipped unit). -/
def syncUnitRaise (uc : Bool) (acc : LoopAcc) : TopCase → Option String
  | .llm tc =>
    if acc.llmMetrics.length = 0 then none
    else firstRaise tc (syncUnitCached uc acc tc) (resetErrors acc.llmMetrics)
  | .conv tc => firstRaise tc none (resetErrors acc.convMetrics)

/-- The first propagating raise of one unit in the concurrent strategy with
`ignore_errors` unset (the conversational branch consults the unreset
partition, which makes no difference to the raise). -/
def asyncUnitRaise (uc : Bool) (acc : LoopAcc) : TopCase → Option String
  | .llm tc =>
    if acc.llmMetrics.length = 0 then none
    else firstRaise tc (syncUnitCached uc acc tc) (resetErrors acc.llmMetrics)
  | .conv tc => firstRaise tc none acc.convMetrics

/-- With `ignore_errors` unset, a sequential unit propagates its first raise
and otherwise behaves as the `ignore_errors` run. -/
theorem syncProcessCase_false_char (uc : Bool) (acc : LoopAcc) (c : TopCase) :
    syncProcessCase false uc acc c =
      (match syncUnitRaise uc acc c with
       | some msg => .error msg
       | none => syncProcessCase true uc acc c) := by
  cases c with
  | llm tc =>
    simp only [syncProcessCase, syncUnitRaise, syncUnitCached, resetErrors_length]
    by_cases hlen : acc.llmMetrics.length = 0
    · simp [hlen]
    · simp only [hlen, if_false, if_neg hlen]
      rw [syncRunMetrics_false_char]
      cases firstRaise tc (if uc then getCachedTestCase acc.st tc.uid else none)
        (resetErrors acc.llmMetrics) <;> simp
  | conv tc =>
    simp only [syncProcessCase, syncUnitRaise]
    rw [convRunMetrics_false_char]
    cases firstRaise tc none (resetErrors acc.convMetrics) <;> simp

/-- With `ignore_errors` unset, a concurrent unit propagates its first raise
and otherwise behaves as the `ignore_errors` run. -/
theorem asyncProcessCase_false_char (uc : Bool) (acc : LoopAcc) (c : TopCase) :
    asyncProcessCase false uc acc c =
      (match asyncUnitRaise uc acc c with
       | some msg => .error msg
       | none => asyncProcessCase true uc acc c) := by
  cases c with
  | llm tc =>
    simp only [asyncProcessCase, asyncUnitRaise, syncUnitCached]
    by_cases hlen : acc.llmMetrics.length = 0
    · simp [hlen]
    · simp only [hlen, if_false, if_neg hlen]
      rw [measureMetricsWithIndicator_false_char]
      cases firstRaise tc (if uc then getCachedTestCase acc.st tc.uid else none)
        (resetErrors acc.llmMetrics) <;> simp
  | conv tc =>
    simp only [asyncProcessCase, asyncUnitRaise]
    rw [measureMetricsWithIndicator_false_char]
    cases firstRaise tc none acc.convMetrics <;> simp

/-- Related accumulators see the same first propagating raise in each unit. -/
theorem unitRaise_rel {acc₁ acc₂ : LoopAcc} (h : accRel acc₁ acc₂) (uc : Bool)
    (c : TopCase) : syncUnitRaise uc acc₁ c = asyncUnitRaise uc acc₂ c := by
  obtain ⟨-, hllm, hconv, -, -, hst⟩ := h
  cases c with
  | llm tc =>
    simp only [syncUnitRaise, asyncUnitRaise]
    have hlen : acc₁.llmMetrics.length = acc₂.llmMetrics.length :=
      List.Forall₂.length_eq hllm
    by_cases h0 : acc₂.llmMetrics.length = 0
    · rw [if_pos (hlen ▸ h0), if_pos h0]
    · rw [if_neg (hlen ▸ h0), if_neg h0]
      have hcached : syncUnitCached uc acc₁ tc = syncUnitCached uc acc₂ tc := by
        unfold syncUnitCached
        cases uc
        · rfl
        · simp only [if_pos rfl]
          exact stRel_getCachedTestCase hst tc.uid
      rw [hcached]
      exact firstRaise_rel tc _ (forall₂_metricRel_reset_both hllm)
  | conv tc =>
    simp only [syncUnitRaise, asyncUnitRaise]
    exact firstRaise_rel tc none (forall₂_metricRel_reset_left hconv)

/-- One unit of the two main loops, `ignore_errors` set: related accumulators
stay related and the sequential side's tiers stay well-formed. -/
theorem step_true_rel {acc₁ acc₂ : LoopAcc} (h : accRel acc₁ acc₂)
    (hwf : WFCaches acc₁.st) (uc : Bool) (c : TopCase) :
    match syncProcessCase true uc acc₁ c, asyncProcessCase true uc acc₂ c with
    | .ok a₁, .ok a₂ => accRel a₁ a₂ ∧ WFCaches a₁.st
    | .error e₁, .error e₂ => e₁ = e₂
    | _, _ => False := by
  cases c with
  | llm tc =>
    by_cases h0 : acc₁.llmMetrics = []
    · have h0₂ : acc₂.llmMetrics = [] := by
        obtain ⟨-, hllm, -, -, -, -⟩ := h
        rw [h0] at hllm
        exact (List.forall₂_nil_left_iff.mp hllm)
      rw [syncProcessCase_llm_skip uc acc₁ tc true h0,
        asyncProcessCase_llm_skip uc acc₂ tc true h0₂]
      obtain ⟨hres, hllm, hconv, hlc, hcc, hst⟩ := h
      refine ⟨⟨hres, ?_, forall₂_metricRel_reset_left hconv, hlc, hcc, hst⟩, hwf⟩
      rw [h0₂]
      exact List.Forall₂.nil
    · have h0₂ : acc₂.llmMetrics ≠ [] := by
        obtain ⟨-, hllm, -, -, -, -⟩ := h
        intro hc
        rw [hc] at hllm
        exact h0 (List.forall₂_nil_right_iff.mp hllm)
      rw [syncProcessCase_llm_run uc acc₁ tc h0,
        asyncProcessCase_llm_run uc acc₂ tc h0₂]
      exact unit_llm_rel h hwf uc tc
  | conv tc =>
    rw [syncProcessCase_conv_run, asyncProcessCase_conv_run]
    exact unit_conv_rel h hwf tc

/-- One unit of the two main loops, any `ignore_errors` setting: related
accumulators yield the same raise or related results. -/
theorem step_rel {acc₁ acc₂ : LoopAcc} (h : accRel acc₁ acc₂)
    (hwf : WFCaches acc₁.st) (ig uc : Bool) (c : TopCase) :
    match syncProcessCase ig uc acc₁ c, asyncProcessCase ig uc acc₂ c with
    | .ok a₁, .ok a₂ => accRel a₁ a₂ ∧ WFCaches a₁.st
    | .error e₁, .error e₂ => e₁ = e₂
    | _, _ => False := by
  cases ig with
  | true => exact step_true_rel h hwf uc c
  | false =>
    rw [syncProcessCase_false_char, asyncProcessCase_false_char,
      unitRaise_rel h uc c]
    cases asyncUnitRaise uc acc₂ c with
    | some msg => exact rfl
    | none => exact step_true_rel h hwf uc c

/-- The two main loops over the same batch keep related accumulators related,
or raise the same exception. -/
theorem loop_rel (ig uc : Bool) :
    ∀ (cs : List TopCase) {acc₁ acc₂ : LoopAcc}, accRel acc₁ acc₂ →
    WFCaches acc₁.st →
    match syncExecLoop ig uc cs acc₁, asyncExecLoop ig uc cs acc₂ with
    | .ok a₁, .ok a₂ => accRel a₁ a₂ ∧ WFCaches a₁.st
    | .error e₁, .error e₂ => e₁ = e₂
    | _, _ => False := by
  intro cs
  induction cs with
  | nil =>
    intro acc₁ acc₂ h hwf
    exact ⟨h, hwf⟩
  | cons c rest ih =>
    intro acc₁ acc₂ h hwf
    have hstep := step_rel h hwf ig uc c
    simp only [syncExecLoop, asyncExecLoop]
    revert hstep
    cases h₁ : syncProcessCase ig uc acc₁ c with
    | error e₁ =>
      cases h₂ : asyncProcessCase ig uc acc₂ c with
      | error e₂ => intro hstep; exact hstep
      | ok a₂ => intro hstep; cases hstep
    | ok a₁ =>
      cases h₂ : asyncProcessCase ig uc acc₂ c with
      | error e₂ => intro hstep; cases hstep
      | ok a₂ =>
        intro hstep
        exact ih hstep.1 hstep.2

/-- Claim C1: over any identical batch, metric list and option vector, the
sequential and the concurrent strategy are equivalent provided the incoming
cache tiers are well-formed (entries produced by the engine itself always
are): either both raise the same exception, or both return, with the returned
result lists and the emitted run-record sinks agreeing on record identity and
structure and on every metric result's name, score, success, reason and
error — the wall-clock duration fields (and the cost/verbose-log fields a
raising metric copies from stale state) are the only divergence. -/
theorem claim_C1 (cases : List TopCase) (metrics : List AnyMetric)
    (ig uc sd : Bool) (vb : Option Bool) (st : EngineState)
    (hwf : WFCaches st) :
    match execute_test_cases cases metrics ig uc sd vb st,
          a_execute_test_cases cases metrics ig uc sd vb st with
    | .ok o₁, .ok o₂ =>
        List.Forall₂ trRel o₁.results o₂.results ∧
        List.Forall₂ recRel o₁.st.sink o₂.st.sink
    | .error e₁, .error e₂ => e₁ = e₂
    | _, _ => False := by
  simp only [execute_test_cases, a_execute_test_cases]
  have hwf' : WFCaches { { st with disableWriteCache := decide (sd = false) } with
      lookupMap := ([] : List (Nat × LLMApiTestCase)) } := hwf
  have hloop := loop_rel ig uc (flattenTestCases cases)
    (accRel_refl ⟨[], llmMetricsOf (setVerboseModes vb metrics),
      convMetricsOf (setVerboseModes vb metrics), 0, 0,
      { { st with disableWriteCache := decide (sd = false) } with
        lookupMap := ([] : List (Nat × LLMApiTestCase)) }⟩) hwf'
  revert hloop
  cases h₁ : syncExecLoop ig uc (flattenTestCases cases)
      ⟨[], llmMetricsOf (setVerboseModes vb metrics),
       convMetricsOf (setVerboseModes vb metrics), 0, 0,
       { { st with disableWriteCache := decide (sd = false) } with
         lookupMap := ([] : List (Nat × LLMApiTestCase)) }⟩ with
  | error e₁ =>
    cases h₂ : asyncExecLoop ig uc (flattenTestCases cases)
        ⟨[], llmMetricsOf (setVerboseModes vb metrics),
         convMetricsOf (setVerboseModes vb metrics), 0, 0,
         { { st with disableWriteCache := decide (sd = false) } with
           lookupMap := ([] : List (Nat × LLMApiTestCase)) }⟩ with
    | error e₂ => intro hloop; exact hloop
    | ok a₂ => intro hloop; cases hloop
  | ok a₁ =>
    cases h₂ : asyncExecLoop ig uc (flattenTestCases cases)
        ⟨[], llmMetricsOf (setVerboseModes vb metrics),
         convMetricsOf (setVerboseModes vb metrics), 0, 0,
         { { st with disableWriteCache := decide (sd = false) } with
           lookupMap := ([] : List (Nat × LLMApiTestCase)) }⟩ with
    | error e₂ => intro hloop; cases hloop
    | ok a₂ =>
      intro hloop
      obtain ⟨⟨hres, -, -, -, -, -, -, -, -, -, hsink, -⟩, -⟩ := hloop
      exact ⟨hres, hsink⟩

/-- Witness for claim C1: a conversational batch with a discriminating metric
run from the empty (trivially well-formed) state. -/
theorem claim_C1_witness :
    WFCaches wSt ∧
    (match execute_test_cases [.conv wConv2] [.llm wMetricDisc] true false true
        none wSt,
      a_execute_test_cases [.conv wConv2] [.llm wMetricDisc] true false true
        none wSt with
    | .ok o₁, .ok o₂ =>
        List.Forall₂ trRel o₁.results o₂.results ∧
        List.Forall₂ recRel o₁.st.sink o₂.st.sink
    | .error e₁, .error e₂ => e₁ = e₂
    | _, _ => False) :=
  ⟨⟨by simp [wSt], by simp [wSt]⟩,
   claim_C1 [.conv wConv2] [.llm wMetricDisc] true false true none wSt
     ⟨by simp [wSt], by simp [wSt]⟩⟩

end DeepevalSpec
